import Mathlib

/-!
Verification of the block file-system emulator (`src/filesystem.py`).

The embedding follows the Python source closely:

* Python lists are embedded as Lean `List`s with Python's indexing
  semantics (negative indices wrap once from the end; anything further
  out of range raises `IndexError`).  An out-of-range access is a
  *fault*: the exception escapes the engine to the shell.
* Machine state: the emulated disk is a list of 64 blocks.  Block 0 is
  the bitmap (a 64-entry int list), blocks 1-6 hold 32 four-int file
  descriptors each, block 7 holds the 64-entry directory, blocks 8-63
  are 512-byte data blocks.  The heterogeneous contents are captured by
  the `Blk` sum type.
* The Python source aliases mutable lists (the OFT buffer returned by
  `read_block` is the block object itself until `write_block` replaces
  the block with a copy).  The embedding uses value semantics: a buffer
  is a copy of the block it was loaded from, and `write_block`/flush
  copies the buffer back.  On every trace used below each buffer
  mutation either is followed by a flush of the same block before the
  block is observed again, or happens after a flush severed the alias,
  so value semantics and the source's alias semantics agree there.
* Every engine call returns `Res`: `.ok r s'` for a normal return value
  `r` with post-state `s'`, and `.fault s'` when a Python exception
  (IndexError / ValueError / TypeError) escapes, with `s'` the state at
  the moment the exception is raised (the shell catches it and keeps
  running with that state).
-/

set_option maxRecDepth 40000
set_option maxHeartbeats 4000000

/-- Resolve a Python list index: `0 ≤ i < n` is itself, `-n ≤ i < 0`
wraps from the end, anything else is out of range (`none` = IndexError). -/
def pyIdx (n : Nat) (i : Int) : Option Nat :=
  if 0 ≤ i then
    (if i.toNat < n then some i.toNat else none)
  else
    (if (-i).toNat ≤ n then some (n - (-i).toNat) else none)

/-- Set position `j` of a list, `none` when `j` is past the end. -/
def setAt {α : Type} : List α → Nat → α → Option (List α)
  | [], _, _ => none
  | _ :: xs, 0, v => some (v :: xs)
  | x :: xs, j + 1, v => (setAt xs j v).map fun ys => x :: ys

/-- Python `l[i]` (read): in range gives the element, `-len ≤ i < 0`
wraps from the end, otherwise IndexError (`none`). -/
def pyGet {α : Type} (l : List α) (i : Int) : Option α :=
  if 0 ≤ i then l.get? i.toNat
  else (pyIdx l.length i).bind fun j => l.get? j

/-- Python `l[i] = v` (write in place), same index semantics. -/
def pySet {α : Type} (l : List α) (i : Int) (v : α) : Option (List α) :=
  if 0 ≤ i then setAt l i.toNat v
  else (pyIdx l.length i).map fun j => l.set j v

/-- A slot of a descriptor block.  In the source a slot is the 4-int
list `[length, block1, block2, block3]`; a byte written through a
buffer aliasing a descriptor block would replace the slot by a raw int
(subscripting it then raises TypeError). -/
inductive DescCell : Type
  | d (fields : List Int)
  | raw (v : Int)
deriving DecidableEq

/-- A directory slot.  In the source it is the 2-list `[name, index]`;
a byte written through a directory-typed buffer replaces the slot by a
raw int (subscripting it then raises TypeError). -/
inductive DirCell : Type
  | entry (name : String) (idx : Int)
  | raw (v : Int)
deriving DecidableEq

/-- Content of one block of the emulated disk (also the type of an OFT
buffer, which is loaded from a block). -/
inductive Blk : Type
  | ints (l : List Int)
  | descBlock (l : List DescCell)
  | dirBlock (l : List DirCell)
deriving DecidableEq

/-- Python `len` of a block's content. -/
def Blk.len : Blk → Nat
  | .ints l => l.length
  | .descBlock l => l.length
  | .dirBlock l => l.length

/-- One open-file-table slot: `{'buffer': .., 'current_pos': ..,
'file_size': .., 'descriptor_index': ..}`. -/
structure Oft : Type where
  buffer : Blk
  current_pos : Int
  file_size : Int
  descriptor_index : Int
deriving DecidableEq

/-- The engine state: the 64-block emulated disk and the 4-slot OFT.
`self.bitmap`, `self.descriptors` and `self.directory` in the source
are permanent aliases of blocks 0, 1-6 and 7 of the disk, so they are
not separate fields here. -/
structure FS : Type where
  disk : List Blk
  oft : List Oft
deriving DecidableEq

/-- Result of an engine call: normal return value plus post-state, or
an escaped Python exception with the state at the raise point. -/
inductive Res (α : Type) : Type
  | ok (v : α) (s : FS)
  | fault (s : FS)
deriving DecidableEq

/-- The state carried by a result (on fault, the state at the raise). -/
def Res.state {α : Type} : Res α → FS
  | .ok _ s => s
  | .fault s => s

/-- The returned value, when the call did not fault. -/
def Res.val {α : Type} : Res α → Option α
  | .ok v _ => some v
  | .fault _ => none

/-- A closed OFT slot (`init` / `close` reset value). -/
def closedOft : Oft :=
  { buffer := .ints (List.replicate 512 0), current_pos := -1,
    file_size := 0, descriptor_index := 0 }

/-- `EmulatedDisk.read_block`: bounds-checked block read (returns the
block; the source returns the list object itself, see the header note
on aliasing). -/
def FS.read_block (s : FS) (i : Int) : Option Blk :=
  if i < 0 ∨ i > 63 then none else pyGet s.disk i

/-- `EmulatedDisk.write_block`: bounds- and size-checked block write
(the source stores `list(data)`, a copy). -/
def FS.write_block (s : FS) (i : Int) (data : Blk) : Option FS :=
  if i < 0 ∨ i > 63 then none
  else if data.len ≠ 512 then none
  else (pySet s.disk i data).map fun d => { s with disk := d }

/-- `self.disk[i] = e` through `EmulatedDisk.__setitem__` (no size
check, Python index semantics). -/
def FS.diskSet (s : FS) (i : Int) (b : Blk) : Option FS :=
  (pySet s.disk i b).map fun d => { s with disk := d }

/-- Read a bitmap cell: `self.bitmap[i]`.  The bitmap is block 0. -/
def FS.bitmapGet (s : FS) (i : Int) : Option Int :=
  match pyGet s.disk 0 with
  | some (.ints l) => pyGet l i
  | _ => none

/-- Write a bitmap cell: `self.bitmap[i] = v`. -/
def FS.bitmapSet (s : FS) (i : Int) (v : Int) : Option FS :=
  match pyGet s.disk 0 with
  | some (.ints l) =>
      (pySet l i v).bind fun l' => s.diskSet 0 (.ints l')
  | _ => none

/-- `self.descriptors` is the slice `self.disk[1:7]` (the six
descriptor blocks; the slice shares the block objects). -/
def FS.descBlocks (s : FS) : List Blk :=
  (s.disk.drop 1).take 6

/-- `self.descriptors[block][offset]` for descriptor index `di`:
`block = di // 32`, `offset = di % 32`.  Reading an offset of an
`.ints` block yields a raw int (which is what the source would get). -/
def FS.getDescCell (s : FS) (di : Int) : Option DescCell :=
  match pyGet s.descBlocks (di.fdiv 32) with
  | some (.descBlock cells) => pyGet cells (di.emod 32)
  | some (.ints l) => (pyGet l (di.emod 32)).map .raw
  | _ => none

/-- `self.descriptors[block][offset] = cell` (replace a whole slot, as
`create`/`destroy` do). -/
def FS.setDescCell (s : FS) (di : Int) (c : DescCell) : Option FS :=
  match pyIdx 6 (di.fdiv 32) with
  | none => none
  | some j =>
    match pyGet s.disk (j + 1 : Nat) with
    | some (.descBlock cells) =>
        (pySet cells (di.emod 32) c).bind fun cells' =>
          s.diskSet (j + 1 : Nat) (.descBlock cells')
    | _ => none

/-- `descriptor[k]` where `descriptor` is the live slot of index `di`
(TypeError when the slot is a raw int). -/
def FS.getDescField (s : FS) (di : Int) (k : Int) : Option Int :=
  match s.getDescCell di with
  | some (.d fields) => pyGet fields k
  | _ => none

/-- `descriptor[k] = v` on the live slot of index `di`. -/
def FS.setDescField (s : FS) (di : Int) (k : Int) (v : Int) : Option FS :=
  match s.getDescCell di with
  | some (.d fields) =>
      (pySet fields k v).bind fun fields' => s.setDescCell di (.d fields')
  | _ => none

/-- The directory is block 7. -/
def FS.dirCells (s : FS) : Option (List DirCell) :=
  match pyGet s.disk 7 with
  | some (.dirBlock l) => some l
  | _ => none

/-- `self.directory[i] = cell`. -/
def FS.dirSet (s : FS) (i : Int) (c : DirCell) : Option FS :=
  match s.dirCells with
  | some l => (pySet l i c).bind fun l' => s.diskSet 7 (.dirBlock l')
  | none => none

/-- Read an OFT slot. -/
def FS.oftGet (s : FS) (i : Int) : Option Oft :=
  pyGet s.oft i

/-- Replace an OFT slot. -/
def FS.oftSet (s : FS) (i : Int) (e : Oft) : Option FS :=
  (pySet s.oft i e).map fun o => { s with oft := o }

/-- The freshly initialized state built by `FileSystem.init`:
bitmap bits 0-7 set, blocks 1-6 all-free descriptor slots, block 7 the
empty directory, descriptor 0 = `[0, 7, 0, 0]` (the directory file),
OFT slot 0 opened on the directory, slots 1-3 closed. -/
def initFS : FS :=
  let bitmap : List Int := List.replicate 8 1 ++ List.replicate 56 0
  let freeDescs : Blk := .descBlock (List.replicate 32 (.d [-1, 0, 0, 0]))
  let dirDescs : Blk :=
    .descBlock (.d [0, 7, 0, 0] :: List.replicate 31 (.d [-1, 0, 0, 0]))
  let directory : List DirCell := List.replicate 64 (.entry "" 0)
  { disk := .ints bitmap :: dirDescs :: List.replicate 5 freeDescs
      ++ .dirBlock directory :: List.replicate 56 (.ints (List.replicate 512 0)),
    oft := { buffer := .dirBlock directory, current_pos := 0,
             file_size := 0, descriptor_index := 0 } :: List.replicate 3 closedOft }

/-- `descriptor[k]` on a captured descriptor slot (TypeError on a raw
int slot). -/
def DescCell.field : DescCell → Int → Option Int
  | .d fields, k => pyGet fields k
  | .raw _, _ => none

/-- Writing one byte into an OFT buffer
(`self.oft[index]["buffer"][buffer_pos] = v`).  On a directory- or
descriptor-typed buffer the int replaces the slot object, as in the
source. -/
def Blk.setByte : Blk → Int → Int → Option Blk
  | .ints l, i, v => (pySet l i v).map .ints
  | .descBlock l, i, v => (pySet l i (.raw v)).map .descBlock
  | .dirBlock l, i, v => (pySet l i (.raw v)).map .dirBlock

/-- Scan of a directory-entry list for the first entry whose name
matches, carrying the running slot index.  Outer `none` is a fault
(iterating reaches a raw-int slot and `entry[0]` raises); inner value
is `some (slot, entry[1])` or `none` for "not found". -/
def dirFindAux (name : String) : List DirCell → Nat → Option (Option (Nat × Int))
  | [], _ => some none
  | .raw _ :: _, _ => none
  | .entry nm idx :: rest, i =>
      if nm = name then some (some (i, idx)) else dirFindAux name rest (i + 1)

/-- First directory entry named `name` (`for entry in self.directory`). -/
def FS.dirFind (s : FS) (name : String) : Option (Option (Nat × Int)) :=
  match s.dirCells with
  | some l => dirFindAux name l 0
  | none => none

/-- `for i in range(192): ... if self.descriptors[i//32][i%32][0] == -1`:
first free descriptor slot.  Outer `none` is a fault (missing block or
raw slot). -/
def findFreeDescAux (s : FS) : Nat → Nat → Option (Option Nat)
  | 0, _ => some none
  | n + 1, i =>
    match s.getDescCell i with
    | some (.d fields) =>
      match pyGet fields 0 with
      | some v => if v = -1 then some (some i) else findFreeDescAux s n (i + 1)
      | none => none
    | _ => none

/-- The free-block scan inside `create`: `for i in range(8, 64)`, first
`bitmap[i] == 0` is marked used immediately and returned. -/
def createFindBlock (s : FS) : Nat → Nat → Option (Option (Int × FS))
  | 0, _ => some none
  | n + 1, i =>
    match s.bitmapGet i with
    | none => none
    | some v =>
      if v = 0 then (s.bitmapSet i 1).map fun s' => some ((i : Int), s')
      else createFindBlock s n (i + 1)

/-- `FileSystem.find_free_block`: scan `range(8, 64)` for a zero bitmap
bit, returning the index or `-1` (no marking). -/
def findFreeBlockAux (s : FS) : Nat → Nat → Option Int
  | 0, _ => some (-1)
  | n + 1, i =>
    match s.bitmapGet i with
    | none => none
    | some v => if v = 0 then some (i : Int) else findFreeBlockAux s n (i + 1)

/-- `FileSystem.find_free_block`. -/
def FS.find_free_block (s : FS) : Option Int :=
  findFreeBlockAux s 56 8

/-- `FileSystem.create`. -/
def FS.create (s : FS) (filename : String) : Res Int :=
  if filename.length > 3 then .ok (-1) s else
  match s.dirFind filename with
  | none => .fault s
  | some (some _) => .ok (-1) s
  | some none =>
    match s.dirFind "" with
    | none => .fault s
    | some none => .ok (-1) s
    | some (some (dirIndex, _)) =>
      match findFreeDescAux s 192 0 with
      | none => .fault s
      | some none => .ok (-1) s
      | some (some descIndex) =>
        match createFindBlock s 56 8 with
        | none => .fault s
        | some none => .ok (-1) s
        | some (some (blockNum, s1)) =>
          match s1.setDescCell descIndex (.d [0, blockNum, 0, 0]) with
          | none => .fault s1
          | some s2 =>
            match s2.dirSet dirIndex (.entry filename descIndex) with
            | none => .fault s2
            | some s3 => .ok 0 s3

/-- The block-freeing loop of `destroy`:
`for block_num in descriptor[1:4]: if block_num != 0: bitmap[block_num] = 0`. -/
def freeBlocksAux : FS → List Int → Res Unit
  | s, [] => .ok () s
  | s, bn :: rest =>
    if bn ≠ 0 then
      match s.bitmapSet bn 0 with
      | none => .fault s
      | some s' => freeBlocksAux s' rest
    else freeBlocksAux s rest

/-- `FileSystem.destroy`. -/
def FS.destroy (s : FS) (filename : String) : Res Int :=
  match s.dirFind filename with
  | none => .fault s
  | some none => .ok (-1) s
  | some (some (dirIndex, descIndex)) =>
    match s.getDescCell descIndex with
    | none => .fault s
    | some (.raw _) => .fault s
    | some (.d fields) =>
      match freeBlocksAux s ((fields.drop 1).take 3) with
      | .fault s1 => .fault s1
      | .ok _ s1 =>
        match s1.setDescCell descIndex (.d [-1, 0, 0, 0]) with
        | none => .fault s1
        | some s2 =>
          match s2.dirSet dirIndex (.entry "" 0) with
          | none => .fault s2
          | some s3 => .ok 0 s3

/-- The already-open scan of `open`: `for i in range(4)`, is some OFT
slot bound to this descriptor and open? -/
def openCheckAux (s : FS) (d : Int) : Nat → Nat → Option Bool
  | 0, _ => some false
  | n + 1, i =>
    match s.oftGet i with
    | none => none
    | some e =>
      if e.descriptor_index = d ∧ e.current_pos ≠ -1 then some true
      else openCheckAux s d n (i + 1)

/-- The free-slot scan of `open`: `for i in range(1, 4)`, first slot
with `current_pos == -1`. -/
def openFreeSlotAux (s : FS) : Nat → Nat → Option (Option Nat)
  | 0, _ => some none
  | n + 1, i =>
    match s.oftGet i with
    | none => none
    | some e =>
      if e.current_pos = -1 then some (some i) else openFreeSlotAux s n (i + 1)

/-- `FileSystem.open`. -/
def FS.open_ (s : FS) (filename : String) : Res Int :=
  match s.dirFind filename with
  | none => .fault s
  | some none => .ok (-1) s
  | some (some (_, descIndex)) =>
    if descIndex = -1 then .ok (-1) s else
    match openCheckAux s descIndex 4 0 with
    | none => .fault s
    | some true => .ok (-1) s
    | some false =>
      match openFreeSlotAux s 3 1 with
      | none => .fault s
      | some none => .ok (-1) s
      | some (some oftIndex) =>
        match s.getDescCell descIndex with
        | none => .fault s
        | some cell =>
          match cell.field 1 with
          | none => .fault s
          | some b1 =>
            match s.read_block b1 with
            | none => .fault s
            | some buf =>
              match cell.field 0 with
              | none => .fault s
              | some len0 =>
                match s.oftSet oftIndex
                    { buffer := buf, current_pos := 0, file_size := len0,
                      descriptor_index := descIndex } with
                | none => .fault s
                | some s1 => .ok oftIndex s1

/-- `FileSystem.close`.  The final-buffer flush reads
`descriptor[1 + current_pos // 512]`, which is out of range when the
cursor sits at 1536 (three full blocks): that access faults. -/
def FS.close (s : FS) (index : Int) : Res Int :=
  if index < 0 ∨ index > 3 then .ok (-1) s else
  match s.oftGet index with
  | none => .fault s
  | some e =>
    if e.current_pos = -1 then .ok (-1) s else
    match s.getDescCell e.descriptor_index with
    | none => .fault s
    | some cell =>
      let cbi := e.current_pos.fdiv 512
      match cell.field (if cbi = 0 then 1 else 1 + cbi) with
      | none => .fault s
      | some cb =>
        match (if cb ≠ 0 then s.diskSet cb e.buffer else some s) with
        | none => .fault s
        | some s1 =>
          match s1.oftSet index closedOft with
          | none => .fault s1
          | some s2 => .ok 0 s2

/-- One pass of the `read` loop (`while bytes_read < count`), fuelled by
the number of iterations left (`count - bytes_read`).  `cell` is the
descriptor grabbed at entry (never mutated by `read`). -/
def readLoopAux (index : Int) (cell : DescCell) (count : Int) :
    Nat → FS → List Int → Int → Res (Int × List Int)
  | 0, s, mem, bytesRead => .ok (bytesRead, mem) s
  | fuel + 1, s, mem, bytesRead =>
    match s.oftGet index with
    | none => .fault s
    | some e =>
      match cell.field 0 with
      | none => .fault s
      | some flen =>
        if e.current_pos ≥ flen then .ok (bytesRead, mem) s else
        let cbi := e.current_pos.fdiv 512
        let bp := e.current_pos.emod 512
        -- load the addressed block when starting mid-file
        match (if cbi > 0 ∧ bytesRead = 0 then
                 match cell.field (1 + cbi) with
                 | none => none
                 | some bn =>
                   if bn ≠ 0 then
                     match s.read_block bn with
                     | none => none
                     | some buf => (s.oftSet index { e with buffer := buf }).map
                         fun s' => (s', { e with buffer := buf })
                   else some (s, e)
               else some (s, e)) with
        | none => .fault s
        | some (s1, e1) =>
          match e1.buffer with
          | .ints bl =>
            (match pyGet bl bp with
             | none => .fault s1
             | some v =>
               match pySet mem bytesRead v with
               | none => .fault s1
               | some mem1 =>
                 match s1.oftSet index { e1 with current_pos := e1.current_pos + 1 } with
                 | none => .fault s1
                 | some s2 =>
                   let pos1 := e1.current_pos + 1
                   let bytesRead1 := bytesRead + 1
                   if pos1.emod 512 = 0 ∧ bytesRead1 < count then
                     let nbi := pos1.fdiv 512
                     if nbi < 3 then
                       match cell.field (1 + nbi) with
                       | none => .fault s2
                       | some bn =>
                         if bn ≠ 0 then
                           match s2.read_block bn with
                           | none => .fault s2
                           | some buf =>
                             match s2.oftSet index
                                 { e1 with buffer := buf, current_pos := pos1 } with
                             | none => .fault s2
                             | some s3 => readLoopAux index cell count fuel s3 mem1 bytesRead1
                         else .ok (bytesRead1, mem1) s2
                     else .ok (bytesRead1, mem1) s2
                   else readLoopAux index cell count fuel s2 mem1 bytesRead1)
          | _ => .fault s1
          -- a non-byte buffer: the source would copy the slot object
          -- into the memory area; modelled as a fault (header note)

/-- `FileSystem.read`. -/
def FS.read (s : FS) (index : Int) (mem : List Int) (count : Int) :
    Res (Int × List Int) :=
  if index < 0 ∨ index > 3 then .ok (-1, mem) s else
  match s.oftGet index with
  | none => .fault s
  | some e =>
    if e.current_pos = -1 then .ok (-1, mem) s else
    match s.getDescCell e.descriptor_index with
    | none => .fault s
    | some cell => readLoopAux index cell count count.toNat s mem 0

/-- One pass of the `write` loop (`while bytes_written < count`),
fuelled by `count - bytes_written`.  Descriptor fields are read and
written through the state (`descriptor` is a live alias of the slot). -/
def writeLoopAux (index : Int) (di : Int) (mem : List Int) (count : Int) :
    Nat → FS → Int → Res Int
  | 0, s, bytesWritten => .ok bytesWritten s
  | fuel + 1, s, bytesWritten =>
    match s.oftGet index with
    | none => .fault s
    | some e =>
      let cbi := e.current_pos.fdiv 512
      if cbi ≥ 3 then .ok bytesWritten s else
      let bp := e.current_pos.emod 512
      -- lazily allocate when the cursor sits at the start of a block
      -- past the first (note: even when that block is already allocated)
      match (if bp = 0 ∧ cbi > 0 then
               match s.find_free_block with
               | none => none
               | some nb => some (some nb)
             else some none) with
      | none => .fault s
      | some allocStep =>
        match (match allocStep with
               | none => some (Sum.inl s)
               | some nb =>
                 if nb = -1 then some (Sum.inr bytesWritten)
                 else
                   match s.setDescField di (1 + cbi) nb with
                   | none => none
                   | some sA =>
                     match sA.bitmapSet nb 1 with
                     | none => none
                     | some sB =>
                       match sB.oftGet index with
                       | none => none
                       | some eB =>
                         (sB.oftSet index
                           { eB with buffer := .ints (List.replicate 512 0) }).map .inl) with
        | none => .fault s
        | some (Sum.inr w) => .ok w s
        | some (Sum.inl s1) =>
          match s1.oftGet index with
          | none => .fault s1
          | some e1 =>
            match pyGet mem bytesWritten with
            | none => .fault s1
            | some v =>
              match e1.buffer.setByte bp v with
              | none => .fault s1
              | some buf =>
                match s1.oftSet index
                    { e1 with buffer := buf, current_pos := e1.current_pos + 1 } with
                | none => .fault s1
                | some s2 =>
                  let bytesWritten1 := bytesWritten + 1
                  -- flush when the block is full or the request is done
                  match (if bp = 511 ∨ bytesWritten1 = count then
                           match s2.getDescField di (1 + cbi) with
                           | none => none
                           | some bn =>
                             if bn ≠ 0 then
                               match s2.write_block bn buf with
                               | none => none
                               | some s3 => some s3
                             else some s2
                         else some s2) with
                  | none => .fault s2
                  | some s3 =>
                    match s3.getDescField di 0 with
                    | none => .fault s3
                    | some flen =>
                      match (if e1.current_pos + 1 > flen then
                               s3.setDescField di 0 (e1.current_pos + 1)
                             else some s3) with
                      | none => .fault s3
                      | some s4 => writeLoopAux index di mem count fuel s4 bytesWritten1

/-- `FileSystem.write`. -/
def FS.write (s : FS) (index : Int) (mem : List Int) (count : Int) : Res Int :=
  if index < 0 ∨ index > 3 then .ok (-1) s else
  match s.oftGet index with
  | none => .fault s
  | some e =>
    if e.current_pos = -1 then .ok (-1) s else
    match s.getDescCell e.descriptor_index with
    | none => .fault s
    | some _ => writeLoopAux index e.descriptor_index mem count count.toNat s 0

/-- `FileSystem.seek`. -/
def FS.seek (s : FS) (index : Int) (pos : Int) : Res Int :=
  if index < 0 ∨ index > 3 then .ok (-1) s else
  match s.oftGet index with
  | none => .fault s
  | some e =>
    if e.current_pos = -1 then .ok (-1) s else
    match s.getDescCell e.descriptor_index with
    | none => .fault s
    | some cell =>
      match cell.field 0 with
      | none => .fault s
      | some flen =>
        if pos < 0 ∨ pos > flen then .ok (-1) s else
        let nbi := pos.fdiv 512
        if nbi < 3 then
          match cell.field (1 + nbi) with
          | none => .fault s
          | some bn =>
            if bn ≠ 0 then
              match s.read_block bn with
              | none => .fault s
              | some buf =>
                match s.oftSet index { e with buffer := buf, current_pos := pos } with
                | none => .fault s
                | some s1 => .ok pos s1
            else .ok (-1) s
        else .ok (-1) s

/-- The accumulator loop of `list_directory`. -/
def listDirAux (s : FS) : List DirCell → List (String × Int) → Res (List (String × Int))
  | [], acc => .ok acc.reverse s
  | .raw _ :: _, _ => .fault s
  | .entry nm idx :: rest, acc =>
    if nm ≠ "" then
      match s.getDescCell idx with
      | none => .fault s
      | some c =>
        match c.field 0 with
        | none => .fault s
        | some len0 => listDirAux s rest ((nm, len0) :: acc)
    else listDirAux s rest acc

/-- `FileSystem.list_directory`. -/
def FS.list_directory (s : FS) : Res (List (String × Int)) :=
  match s.dirCells with
  | some l => listDirAux s l []
  | none => .fault s

/-- States reachable from `init()` by engine calls.  Faulting calls
leave the state they reached at the raise point (the shell catches the
exception and keeps going), so `Res.state` covers both outcomes.  The
`in` shell command re-runs `init()`, which yields `initFS` again. -/
inductive Reachable : FS → Prop
  | init : Reachable initFS
  | create (s : FS) (name : String) :
      Reachable s → Reachable (s.create name).state
  | destroy (s : FS) (name : String) :
      Reachable s → Reachable (s.destroy name).state
  | open_ (s : FS) (name : String) :
      Reachable s → Reachable (s.open_ name).state
  | close (s : FS) (i : Int) :
      Reachable s → Reachable (s.close i).state
  | read (s : FS) (i : Int) (mem : List Int) (count : Int) :
      Reachable s → Reachable (s.read i mem count).state
  | write (s : FS) (i : Int) (mem : List Int) (count : Int) :
      Reachable s → Reachable (s.write i mem count).state
  | seek (s : FS) (i : Int) (pos : Int) :
      Reachable s → Reachable (s.seek i pos).state
  | list (s : FS) :
      Reachable s → Reachable s.list_directory.state

/-- The in-progress data block of the replicate-7 write trace: the
first `n` bytes are 7, the rest still 0. -/
def tb (n : Nat) : List Int :=
  List.replicate n 7 ++ List.replicate (512 - n) 0

/-- Bitmap after `n` bytes: blocks 0-8 used, 9 after the second block
is allocated (byte 513), 10 after the third (byte 1025). -/
def bmS (n : Nat) : List Int :=
  List.replicate 9 1 ++ (if 513 ≤ n then 1 else 0) ::
    (if 1025 ≤ n then 1 else 0) :: List.replicate 53 0

/-- Descriptor block 1 with descriptor 0 the directory and descriptor 1
holding the given length and block fields. -/
def descB1v (len b2 b3 : Int) : Blk :=
  .descBlock (.d [0, 7, 0, 0] :: .d [len, 8, b2, b3] ::
    List.replicate 30 (.d [-1, 0, 0, 0]))

/-- Descriptor block 1 after `n` bytes: descriptor 1 is the file `f`
with length `n` and lazily-grown blocks. -/
def descB1 (n : Nat) : Blk :=
  descB1v (n : Int) (if 513 ≤ n then 9 else 0) (if 1025 ≤ n then 10 else 0)

/-- An all-free descriptor block. -/
def freeDescBlk : Blk := .descBlock (List.replicate 32 (.d [-1, 0, 0, 0]))

/-- Directory after `create "f"` (descriptor 1). -/
def dirS : List DirCell := .entry "f" 1 :: List.replicate 63 (.entry "" 0)

/-- OFT slot 0 (opened on the directory at `init`; the buffer is the
directory content as it was at `init`). -/
def slot0S : Oft :=
  { buffer := .dirBlock (List.replicate 64 (.entry "" 0)), current_pos := 0,
    file_size := 0, descriptor_index := 0 }

/-- The write-loop buffer after `n` bytes. -/
def bufS (n : Nat) : List Int :=
  if n ≤ 512 then tb n else if n ≤ 1024 then tb (n - 512) else tb (n - 1024)

/-- Data block 8 after `n` of `m` bytes (flushed when full or when the
request completes). -/
def d8S (m n : Nat) : List Int :=
  if 512 ≤ n then tb 512 else if n = m then tb n else tb 0

/-- Data block 9 after `n` of `m` bytes. -/
def d9S (m n : Nat) : List Int :=
  if 1024 ≤ n then tb 512 else if n = m ∧ 512 < n then tb (n - 512) else tb 0

/-- Data block 10 after `n` of `m` bytes. -/
def d10S (m n : Nat) : List Int :=
  if n = 1536 ∨ (n = m ∧ 1024 < n) then tb (n - 1024) else tb 0

/-- The disk of the trace, parametric in the replaceable parts. -/
def diskParts (bm : List Int) (b1 : Blk) (d8 d9 d10 : List Int) : List Blk :=
  .ints bm :: b1 :: freeDescBlk :: freeDescBlk :: freeDescBlk ::
    freeDescBlk :: freeDescBlk :: .dirBlock dirS :: .ints d8 ::
    .ints d9 :: .ints d10 :: List.replicate 53 (.ints (List.replicate 512 0))

/-- The OFT of the trace: the permanently open directory slot and the
handle-1 session with the given buffer and cursor. -/
def oftParts (b : Blk) (pos : Int) : List Oft :=
  [slot0S,
   { buffer := b, current_pos := pos, file_size := 0, descriptor_index := 1 },
   closedOft, closedOft]

/-- Disk after `n` of `m` bytes of the trace. -/
def diskS (m n : Nat) : List Blk :=
  diskParts (bmS n) (descB1 n) (d8S m n) (d9S m n) (d10S m n)

/-- Engine state after `n` of `m` bytes of the trace. -/
def S (m n : Nat) : FS :=
  { disk := diskS m n, oft := oftParts (.ints (bufS n)) (n : Int) }

/-- State after `init(); create("f")`: descriptor 1 = `[0, 8, 0, 0]`,
directory entry 0 = `("f", 1)`, bitmap bits 0-8 set, OFT untouched. -/
def sCreate : FS :=
  FS.mk (diskParts (bmS 0) (descB1v 0 0 0) (tb 0) (tb 0) (tb 0))
    (slot0S :: List.replicate 3 closedOft)

/-- State after `init(); create("f"); open("f")` (handle 1, cursor 0). -/
def SZero : FS :=
  FS.mk (diskParts (bmS 0) (descB1v 0 0 0) (tb 0) (tb 0) (tb 0))
    (oftParts (.ints (tb 0)) 0)

/-- State after `init; write(0, [5], 1); close(0)`: the write through
the always-open directory handle puts the raw int 5 into the slot-0
buffer and faults at the flush, and the close then writes the corrupted
buffer into directory block 7. -/
def sDirCorrupt : FS := ((initFS.write 0 [5] 1).state.close 0).state

/-- Block 8 content after overwriting its first three bytes with 4s. -/
def l443 : List Int := 4 :: 4 :: 4 :: List.replicate 509 7

/-- The handle-1 buffer after the faulting 5-byte write got two 9s in. -/
def l44399 : List Int := 4 :: 4 :: 4 :: 9 :: 9 :: List.replicate 507 7

/-- After `seek(1, 0)` on the 513-byte file. -/
def c5A : FS := FS.mk (diskS 513 513) (oftParts (.ints (tb 512)) 0)

/-- After `write(1, [4,4,4], 3)`: flushed to block 8, cursor 3. -/
def c5B : FS :=
  FS.mk (diskParts (bmS 513) (descB1 513) l443 (tb 1) (tb 0)) (oftParts (.ints l443) 3)

/-- After the faulting `write(1, [9,9], 5)`: two bytes written into the
buffer only (never flushed), cursor 5, IndexError escaped. -/
def c5C : FS :=
  FS.mk (diskParts (bmS 513) (descB1 513) l443 (tb 1) (tb 0)) (oftParts (.ints l44399) 5)

/-- After `seek(1, 513)` into the second block: buffer discarded. -/
def c5D : FS :=
  FS.mk (diskParts (bmS 513) (descB1 513) l443 (tb 1) (tb 0)) (oftParts (.ints (tb 1)) 513)

/-- After `seek(1, 3)` back into the first block. -/
def c5E : FS :=
  FS.mk (diskParts (bmS 513) (descB1 513) l443 (tb 1) (tb 0)) (oftParts (.ints l443) 3)

/-- A block number is a plausible descriptor block reference: zero
(unallocated) or a block outside the bitmap/descriptor region. -/
def bOk (x : Int) : Prop := x = 0 ∨ (7 ≤ x ∧ x ≤ 63)

/-- Access conditions for descriptor `di` of a state. -/
def DOk (s : FS) (di : Int) (fields : List Int) : Prop :=
  s.disk.length = 64 ∧ 0 ≤ di ∧ di < 192 ∧ s.getDescCell di = some (.d fields)

/-- No two distinct OFT slots are simultaneously open on the same
descriptor. -/
def AtMostOneOpen (s : FS) : Prop :=
  ∀ (i j : Nat) (ei ej : Oft), i ≠ j →
    s.oft.get? i = some ei → s.oft.get? j = some ej →
    ei.current_pos ≠ -1 → ej.current_pos ≠ -1 →
    ei.descriptor_index ≠ ej.descriptor_index

/-- Every OFT slot cursor is either the closed marker -1 or a
nonnegative position. -/
def CPOk (s : FS) : Prop :=
  ∀ (i : Nat) (e : Oft), s.oft.get? i = some e →
    e.current_pos = -1 ∨ 0 ≤ e.current_pos

/-- The inductive invariant behind the at-most-one-open property. -/
def InvC8 (s : FS) : Prop := AtMostOneOpen s ∧ CPOk s ∧ s.oft.length = 4

/-- The cells of a descriptor block (empty for a non-descriptor block). -/
def descCellsOf : Blk → List DescCell
  | .descBlock cs => cs
  | _ => []

/-- All 192 descriptor cells in slot order. -/
def dCells (s : FS) : List DescCell := s.descBlocks.bind descCellsOf

/-- The non-zero block numbers held in a descriptor cell's three block
fields (`descriptor[1:4]`). -/
def cellRefs : DescCell → List Int
  | .d fields => ((fields.drop 1).take 3).filter (fun v => !(v == 0))
  | .raw _ => []

/-- Is the descriptor slot in use (`length field != -1`)? -/
def cellLive : DescCell → Bool
  | .d (f0 :: _) => !(f0 == -1)
  | _ => false

/-- Every non-zero block reference of every descriptor slot, free or
not. -/
def allRefs (s : FS) : List Int := (dCells s).bind cellRefs

/-- The block references of the non-free descriptor slots only: what the
capacity claim counts. -/
def liveRefs (s : FS) : List Int := ((dCells s).filter cellLive).bind cellRefs

/-- The bitmap/descriptor-table invariant behind the capacity claim:
block 0 is a 64-entry 0/1 bitmap with bits 0-6 set, the six descriptor
blocks hold 32 well-formed 4-field cells each, and the non-zero block
references are pairwise distinct numbers in [7, 63] whose bits are
set. -/
def InvC1 (s : FS) : Prop :=
  s.disk.length = 64 ∧
  (∃ bm : List Int, s.disk.get? 0 = some (.ints bm) ∧ bm.length = 64 ∧
    (∀ v ∈ bm, v = 0 ∨ v = 1) ∧
    (∀ k : Nat, k ≤ 6 → bm.get? k = some 1) ∧
    (∀ r ∈ allRefs s, 7 ≤ r ∧ r ≤ 63 ∧ bm.get? r.toNat = some 1)) ∧
  (∀ b ∈ s.descBlocks, ∃ cs, b = Blk.descBlock cs ∧ cs.length = 32 ∧
    ∀ c ∈ cs, ∃ f0 f1 f2 f3, c = DescCell.d [f0, f1, f2, f3]) ∧
  (allRefs s).Nodup

theorem setAt_length {α : Type} : ∀ (l : List α) (j : Nat) (v : α) (l' : List α),
    setAt l j v = some l' → l'.length = l.length := by
  intro l
  induction l with
  | nil => intro j v l' h; simp [setAt] at h
  | cons x xs ih =>
    intro j v l' h
    cases j with
    | zero => simp [setAt] at h; subst h; simp
    | succ j =>
      simp only [setAt, Option.map_eq_some'] at h
      obtain ⟨ys, hy, rfl⟩ := h
      simp [ih _ _ _ hy]

theorem getQ_replicate {α : Type} : ∀ (a j : Nat) (x : α), j < a →
    (List.replicate a x).get? j = some x := by
  intro a
  induction a with
  | zero => intro j x h; omega
  | succ a ih =>
    intro j x h
    cases j with
    | zero => rfl
    | succ j => simpa [List.replicate_succ] using ih j x (by omega)

theorem getQ_append_left {α : Type} : ∀ (l1 l2 : List α) (j : Nat), j < l1.length →
    (l1 ++ l2).get? j = l1.get? j := by
  intro l1
  induction l1 with
  | nil => intro l2 j h; simp at h
  | cons x xs ih =>
    intro l2 j h
    cases j with
    | zero => rfl
    | succ j => simpa using ih l2 j (by simpa using h)

theorem getQ_append_right {α : Type} : ∀ (l1 l2 : List α) (j : Nat),
    (l1 ++ l2).get? (l1.length + j) = l2.get? j := by
  intro l1
  induction l1 with
  | nil => intro l2 j; simp
  | cons x xs ih =>
    intro l2 j
    simpa [Nat.succ_add] using ih l2 j

theorem setAt_append_at {α : Type} (x v z : α) :
    ∀ (a : Nat) (t : List α),
    setAt (List.replicate a x ++ z :: t) a v = some (List.replicate a x ++ v :: t) := by
  intro a
  induction a with
  | zero => intro t; rfl
  | succ a ih =>
    intro t
    rw [List.replicate_succ, List.cons_append, List.cons_append]
    show (setAt (List.replicate a x ++ z :: t) a v).map _ = _
    rw [ih]
    rfl

theorem tb_length (n : Nat) (h : n ≤ 512) : (tb n).length = 512 := by
  simp [tb]; omega

theorem tb_set (n : Nat) (h : n < 512) : setAt (tb n) n 7 = some (tb (n + 1)) := by
  have h2 : 512 - n = (512 - (n + 1)) + 1 := by omega
  rw [tb, h2, List.replicate_succ, setAt_append_at, tb, List.replicate_succ']
  simp

theorem tb_zero : tb 0 = List.replicate 512 0 := rfl

theorem tb_get (n j : Nat) (h : j < 512) :
    (tb n).get? j = some (if j < n then 7 else 0) := by
  by_cases hj : j < n
  · rw [tb, getQ_append_left _ _ _ (by simp; omega), getQ_replicate _ _ _ hj, if_pos hj]
  · rw [if_neg hj, tb]
    have h1 : j = (List.replicate n (7 : Int)).length + (j - n) := by simp; omega
    rw [h1, getQ_append_right, getQ_replicate _ _ _ (by omega)]

/-! ### The replicate-7 write trace from a freshly created file

`S m n` is the engine state after `create "f"; open "f"` (handle 1)
followed by `n` iterations of the `write(1, [7]*m, m)` loop. -/

theorem natCast_fdiv (a b : Nat) : (a : Int).fdiv b = ((a / b : Nat) : Int) :=
  (Int.ofNat_fdiv a b).symm

theorem natCast_emod (a b : Nat) : (a : Int).emod b = ((a % b : Nat) : Int) :=
  (Int.ofNat_emod a b).symm

theorem fdiv512 (a : Nat) : (a : Int).fdiv (512 : Int) = ((a / 512 : Nat) : Int) :=
  natCast_fdiv a 512

theorem emod512 (a : Nat) : (a : Int).emod (512 : Int) = ((a % 512 : Nat) : Int) :=
  natCast_emod a 512

theorem P_oftGet1 (bm b1 d8 d9 d10 b pos) :
    (FS.mk (diskParts bm b1 d8 d9 d10) (oftParts b pos)).oftGet 1 =
    some { buffer := b, current_pos := pos, file_size := 0, descriptor_index := 1 } := rfl

theorem P_oftSet1 (bm b1 d8 d9 d10 b pos e) :
    (FS.mk (diskParts bm b1 d8 d9 d10) (oftParts b pos)).oftSet 1 e =
    some (FS.mk (diskParts bm b1 d8 d9 d10) [slot0S, e, closedOft, closedOft]) := rfl

theorem P_oftGet1' (bm b1 d8 d9 d10 e) :
    (FS.mk (diskParts bm b1 d8 d9 d10) [slot0S, e, closedOft, closedOft]).oftGet 1 =
    some e := rfl

theorem P_oftSet1' (bm b1 d8 d9 d10 e e') :
    (FS.mk (diskParts bm b1 d8 d9 d10) [slot0S, e, closedOft, closedOft]).oftSet 1 e' =
    some (FS.mk (diskParts bm b1 d8 d9 d10) [slot0S, e', closedOft, closedOft]) := rfl

theorem P_getDescField1_0 (bm len b2 b3 d8 d9 d10 o) :
    (FS.mk (diskParts bm (descB1v len b2 b3) d8 d9 d10) o).getDescField 1 0 =
    some len := rfl

theorem P_getDescField1_1 (bm len b2 b3 d8 d9 d10 o) :
    (FS.mk (diskParts bm (descB1v len b2 b3) d8 d9 d10) o).getDescField 1 1 =
    some 8 := rfl

theorem P_getDescField1_2 (bm len b2 b3 d8 d9 d10 o) :
    (FS.mk (diskParts bm (descB1v len b2 b3) d8 d9 d10) o).getDescField 1 2 =
    some b2 := rfl

theorem P_getDescField1_3 (bm len b2 b3 d8 d9 d10 o) :
    (FS.mk (diskParts bm (descB1v len b2 b3) d8 d9 d10) o).getDescField 1 3 =
    some b3 := rfl

theorem P_setDescField1_0 (bm len b2 b3 d8 d9 d10 o) (v : Int) :
    (FS.mk (diskParts bm (descB1v len b2 b3) d8 d9 d10) o).setDescField 1 0 v =
    some (FS.mk (diskParts bm (descB1v v b2 b3) d8 d9 d10) o) := rfl

theorem P_setDescField1_2 (bm len b2 b3 d8 d9 d10 o) (v : Int) :
    (FS.mk (diskParts bm (descB1v len b2 b3) d8 d9 d10) o).setDescField 1 2 v =
    some (FS.mk (diskParts bm (descB1v len v b3) d8 d9 d10) o) := rfl

theorem P_setDescField1_3 (bm len b2 b3 d8 d9 d10 o) (v : Int) :
    (FS.mk (diskParts bm (descB1v len b2 b3) d8 d9 d10) o).setDescField 1 3 v =
    some (FS.mk (diskParts bm (descB1v len b2 v) d8 d9 d10) o) := rfl

theorem P_write_block8 (bm b1 d8 d9 d10 o) (l : List Int) (h : l.length = 512) :
    (FS.mk (diskParts bm b1 d8 d9 d10) o).write_block 8 (.ints l) =
    some (FS.mk (diskParts bm b1 l d9 d10) o) := by
  simp only [FS.write_block, Blk.len, h]; rfl

theorem P_write_block9 (bm b1 d8 d9 d10 o) (l : List Int) (h : l.length = 512) :
    (FS.mk (diskParts bm b1 d8 d9 d10) o).write_block 9 (.ints l) =
    some (FS.mk (diskParts bm b1 d8 l d10) o) := by
  simp only [FS.write_block, Blk.len, h]; rfl

theorem P_write_block10 (bm b1 d8 d9 d10 o) (l : List Int) (h : l.length = 512) :
    (FS.mk (diskParts bm b1 d8 d9 d10) o).write_block 10 (.ints l) =
    some (FS.mk (diskParts bm b1 d8 d9 l) o) := by
  simp only [FS.write_block, Blk.len, h]; rfl

theorem S_parts (m n : Nat) : S m n = FS.mk (diskParts (bmS n) (descB1v (n : Int)
    (if 513 ≤ n then 9 else 0) (if 1025 ≤ n then 10 else 0)) (d8S m n) (d9S m n) (d10S m n))
    (oftParts (.ints (bufS n)) (n : Int)) := rfl

theorem mem_get (m n : Nat) (h : n < m) :
    pyGet (List.replicate m (7 : Int)) (n : Int) = some 7 := by
  unfold pyGet
  rw [if_pos (by positivity : (0:Int) ≤ (n:Int)), Int.toNat_natCast]
  exact getQ_replicate m n 7 h

theorem trace_step_q0 (m n f : Nat) (hn : n < 512) (hnm : n < m) :
    writeLoopAux 1 1 (List.replicate m (7 : Int)) (m : Int) (f + 1) (S m n) (n : Int) =
    writeLoopAux 1 1 (List.replicate m (7 : Int)) (m : Int) f (S m (n + 1)) ((n : Int) + 1) := by
  have hm : n % 512 = n := by omega
  have hset : Blk.setByte (.ints (bufS n)) ((n % 512 : Nat) : Int) 7 =
      some (.ints (tb (n + 1))) := by
    simp only [Blk.setByte, pySet]
    rw [if_pos (by positivity : (0:Int) ≤ ((n % 512 : Nat):Int)), Int.toNat_natCast, hm]
    unfold bufS
    rw [if_pos (show n ≤ 512 by omega), tb_set n (by omega)]
    rfl
  have hb2 : (if 513 ≤ n then (9:Int) else 0) = 0 := if_neg (by omega)
  have hb3 : (if 1025 ≤ n then (10:Int) else 0) = 0 := if_neg (by omega)
  have hgt : ((n:Int)) + 1 > (n:Int) := by omega
  have hfld : (1:Int) + ((n / 512 : Nat) : Int) = 1 := by omega
  rw [S_parts m n, S_parts m (n + 1), hb2, hb3]
  simp only [writeLoopAux, P_oftGet1, fdiv512, emod512]
  rw [if_neg (show ¬((n / 512 : Nat) : Int) ≥ 3 by omega),
    if_neg (show ¬(((n % 512 : Nat) : Int) = 0 ∧ ((n / 512 : Nat) : Int) > 0) by omega)]
  simp only [mem_get m n hnm, hset, P_oftGet1, P_oftSet1, P_oftGet1', hfld]
  have e1 : bmS (n + 1) = bmS n := by
    unfold bmS
    rw [if_neg (by omega), if_neg (by omega), if_neg (by omega), if_neg (by omega)]
  have e4 : d9S m (n + 1) = d9S m n := by
    unfold d9S
    rw [if_neg (by omega), if_neg (by omega), if_neg (by omega), if_neg (by omega)]
  have e5 : d10S m (n + 1) = d10S m n := by
    unfold d10S
    rw [if_neg (by omega), if_neg (by omega)]
  have e6 : bufS (n + 1) = tb (n + 1) := by
    unfold bufS
    rw [if_pos (by omega)]
  have e7 : (if 513 ≤ n + 1 then (9:Int) else 0) = 0 := if_neg (by omega)
  have e8 : (if 1025 ≤ n + 1 then (10:Int) else 0) = 0 := if_neg (by omega)
  by_cases hfl : n % 512 = 511 ∨ n + 1 = m
  · rw [if_pos (show ((n % 512 : Nat) : Int) = 511 ∨ (n:Int) + 1 = (m:Int) by omega)]
    simp only [P_getDescField1_1]
    rw [if_pos (by decide : (8:Int) ≠ 0),
      P_write_block8 _ _ _ _ _ _ _ (tb_length _ (by omega))]
    simp only [P_getDescField1_0]
    rw [if_pos hgt, P_setDescField1_0]
    have e2 : d8S m (n + 1) = tb (n + 1) := by
      unfold d8S
      by_cases h5 : 512 ≤ n + 1
      · rw [if_pos h5]
        congr 1
        omega
      · rw [if_neg h5, if_pos (by omega)]
    rw [e1, e2, e4, e5, e6, e7, e8]
    push_cast
    rfl
  · rw [if_neg (show ¬(((n % 512 : Nat) : Int) = 511 ∨ (n:Int) + 1 = (m:Int)) by omega)]
    simp only [P_getDescField1_0]
    rw [if_pos hgt, P_setDescField1_0]
    have e2 : d8S m (n + 1) = d8S m n := by
      unfold d8S
      rw [if_neg (by omega), if_neg (by omega), if_neg (by omega), if_neg (by omega)]
    rw [e1, e2, e4, e5, e6, e7, e8]
    push_cast
    rfl

theorem trace_step_q1 (m n f : Nat) (hlo : 513 ≤ n) (hhi : n < 1024) (hnm : n < m) :
    writeLoopAux 1 1 (List.replicate m (7 : Int)) (m : Int) (f + 1) (S m n) (n : Int) =
    writeLoopAux 1 1 (List.replicate m (7 : Int)) (m : Int) f (S m (n + 1)) ((n : Int) + 1) := by
  have hset : Blk.setByte (.ints (bufS n)) ((n % 512 : Nat) : Int) 7 =
      some (.ints (tb (n - 512 + 1))) := by
    simp only [Blk.setByte, pySet]
    rw [if_pos (by positivity : (0:Int) ≤ ((n % 512 : Nat):Int)), Int.toNat_natCast]
    unfold bufS
    rw [if_neg (show ¬n ≤ 512 by omega), if_pos (show n ≤ 1024 by omega),
      show n % 512 = n - 512 by omega, tb_set (n - 512) (by omega)]
    rfl
  have hb2 : (if 513 ≤ n then (9:Int) else 0) = 9 := if_pos (by omega)
  have hb3 : (if 1025 ≤ n then (10:Int) else 0) = 0 := if_neg (by omega)
  have hgt : ((n:Int)) + 1 > (n:Int) := by omega
  have hfld : (1:Int) + ((n / 512 : Nat) : Int) = 2 := by omega
  rw [S_parts m n, S_parts m (n + 1), hb2, hb3]
  simp only [writeLoopAux, P_oftGet1, fdiv512, emod512]
  rw [if_neg (show ¬((n / 512 : Nat) : Int) ≥ 3 by omega),
    if_neg (show ¬(((n % 512 : Nat) : Int) = 0 ∧ ((n / 512 : Nat) : Int) > 0) by omega)]
  simp only [mem_get m n hnm, hset, P_oftGet1, P_oftSet1, P_oftGet1', hfld]
  have e1 : bmS (n + 1) = bmS n := by
    unfold bmS
    rw [if_pos (by omega), if_neg (by omega), if_pos (by omega), if_neg (by omega)]
  have e2 : d8S m (n + 1) = d8S m n := by
    unfold d8S
    rw [if_pos (by omega), if_pos (by omega)]
  have e5 : d10S m (n + 1) = d10S m n := by
    unfold d10S
    rw [if_neg (by omega), if_neg (by omega)]
  have e6 : bufS (n + 1) = tb (n - 512 + 1) := by
    unfold bufS
    rw [if_neg (by omega), if_pos (by omega)]
    congr 1
    omega
  have e7 : (if 513 ≤ n + 1 then (9:Int) else 0) = 9 := if_pos (by omega)
  have e8 : (if 1025 ≤ n + 1 then (10:Int) else 0) = 0 := if_neg (by omega)
  by_cases hfl : n % 512 = 511 ∨ n + 1 = m
  · rw [if_pos (show ((n % 512 : Nat) : Int) = 511 ∨ (n:Int) + 1 = (m:Int) by omega)]
    simp only [P_getDescField1_2]
    rw [if_pos (by decide : (9:Int) ≠ 0),
      P_write_block9 _ _ _ _ _ _ _ (tb_length _ (by omega))]
    simp only [P_getDescField1_0]
    rw [if_pos hgt, P_setDescField1_0]
    have e3 : d9S m (n + 1) = tb (n - 512 + 1) := by
      unfold d9S
      by_cases h5 : 1024 ≤ n + 1
      · rw [if_pos h5]
        congr 1
        omega
      · rw [if_neg h5, if_pos (by constructor <;> omega)]
        congr 1
        omega
    rw [e1, e2, e3, e5, e6, e7, e8]
    push_cast
    rfl
  · rw [if_neg (show ¬(((n % 512 : Nat) : Int) = 511 ∨ (n:Int) + 1 = (m:Int)) by omega)]
    simp only [P_getDescField1_0]
    rw [if_pos hgt, P_setDescField1_0]
    have e3 : d9S m (n + 1) = d9S m n := by
      unfold d9S
      rw [if_neg (by omega), if_neg (by omega), if_neg (by omega), if_neg (by omega)]
    rw [e1, e2, e3, e5, e6, e7, e8]
    push_cast
    rfl

theorem trace_step_q2 (m n f : Nat) (hlo : 1025 ≤ n) (hhi : n < 1536) (hnm : n < m) :
    writeLoopAux 1 1 (List.replicate m (7 : Int)) (m : Int) (f + 1) (S m n) (n : Int) =
    writeLoopAux 1 1 (List.replicate m (7 : Int)) (m : Int) f (S m (n + 1)) ((n : Int) + 1) := by
  have hset : Blk.setByte (.ints (bufS n)) ((n % 512 : Nat) : Int) 7 =
      some (.ints (tb (n - 1024 + 1))) := by
    simp only [Blk.setByte, pySet]
    rw [if_pos (by positivity : (0:Int) ≤ ((n % 512 : Nat):Int)), Int.toNat_natCast]
    unfold bufS
    rw [if_neg (show ¬n ≤ 512 by omega), if_neg (show ¬n ≤ 1024 by omega),
      show n % 512 = n - 1024 by omega, tb_set (n - 1024) (by omega)]
    rfl
  have hb2 : (if 513 ≤ n then (9:Int) else 0) = 9 := if_pos (by omega)
  have hb3 : (if 1025 ≤ n then (10:Int) else 0) = 10 := if_pos (by omega)
  have hgt : ((n:Int)) + 1 > (n:Int) := by omega
  have hfld : (1:Int) + ((n / 512 : Nat) : Int) = 3 := by omega
  rw [S_parts m n, S_parts m (n + 1), hb2, hb3]
  simp only [writeLoopAux, P_oftGet1, fdiv512, emod512]
  rw [if_neg (show ¬((n / 512 : Nat) : Int) ≥ 3 by omega),
    if_neg (show ¬(((n % 512 : Nat) : Int) = 0 ∧ ((n / 512 : Nat) : Int) > 0) by omega)]
  simp only [mem_get m n hnm, hset, P_oftGet1, P_oftSet1, P_oftGet1', hfld]
  have e1 : bmS (n + 1) = bmS n := by
    unfold bmS
    rw [if_pos (by omega), if_pos (by omega), if_pos (by omega), if_pos (by omega)]
  have e2 : d8S m (n + 1) = d8S m n := by
    unfold d8S
    rw [if_pos (by omega), if_pos (by omega)]
  have e3 : d9S m (n + 1) = d9S m n := by
    unfold d9S
    rw [if_pos (by omega), if_pos (by omega)]
  have e6 : bufS (n + 1) = tb (n - 1024 + 1) := by
    unfold bufS
    rw [if_neg (by omega), if_neg (by omega)]
    congr 1
    omega
  have e7 : (if 513 ≤ n + 1 then (9:Int) else 0) = 9 := if_pos (by omega)
  have e8 : (if 1025 ≤ n + 1 then (10:Int) else 0) = 10 := if_pos (by omega)
  by_cases hfl : n % 512 = 511 ∨ n + 1 = m
  · rw [if_pos (show ((n % 512 : Nat) : Int) = 511 ∨ (n:Int) + 1 = (m:Int) by omega)]
    simp only [P_getDescField1_3]
    rw [if_pos (by decide : (10:Int) ≠ 0),
      P_write_block10 _ _ _ _ _ _ _ (tb_length _ (by omega))]
    simp only [P_getDescField1_0]
    rw [if_pos hgt, P_setDescField1_0]
    have e9 : d10S m (n + 1) = tb (n - 1024 + 1) := by
      unfold d10S
      rw [if_pos (by omega)]
      congr 1
      omega
    rw [e1, e2, e3, e9, e6, e7, e8]
    push_cast
    rfl
  · rw [if_neg (show ¬(((n % 512 : Nat) : Int) = 511 ∨ (n:Int) + 1 = (m:Int)) by omega)]
    simp only [P_getDescField1_0]
    rw [if_pos hgt, P_setDescField1_0]
    have e9 : d10S m (n + 1) = d10S m n := by
      unfold d10S
      rw [if_neg (by omega), if_neg (by omega)]
    rw [e1, e2, e3, e9, e6, e7, e8]
    push_cast
    rfl

theorem P_bitmapSet9 (b1 d8 d9 d10 o) :
    (FS.mk (diskParts (List.replicate 9 1 ++ 0 :: 0 :: List.replicate 53 0) b1 d8 d9 d10)
      o).bitmapSet 9 1 =
    some (FS.mk (diskParts (List.replicate 9 1 ++ 1 :: 0 :: List.replicate 53 0) b1 d8 d9 d10)
      o) := rfl

theorem P_bitmapSet10 (b1 d8 d9 d10 o) :
    (FS.mk (diskParts (List.replicate 9 1 ++ 1 :: 0 :: List.replicate 53 0) b1 d8 d9 d10)
      o).bitmapSet 10 1 =
    some (FS.mk (diskParts (List.replicate 9 1 ++ 1 :: 1 :: List.replicate 53 0) b1 d8 d9 d10)
      o) := rfl

theorem P_ffb9 (b1 d8 d9 d10 o) :
    (FS.mk (diskParts (List.replicate 9 1 ++ 0 :: 0 :: List.replicate 53 0) b1 d8 d9 d10)
      o).find_free_block = some 9 := rfl

theorem P_ffb10 (b1 d8 d9 d10 o) :
    (FS.mk (diskParts (List.replicate 9 1 ++ 1 :: 0 :: List.replicate 53 0) b1 d8 d9 d10)
      o).find_free_block = some 10 := rfl

theorem trace_step_alloc2 (m f : Nat) (hnm : 512 < m) :
    writeLoopAux 1 1 (List.replicate m (7 : Int)) (m : Int) (f + 1) (S m 512) ((512 : Nat) : Int) =
    writeLoopAux 1 1 (List.replicate m (7 : Int)) (m : Int) f (S m 513) (((512 : Nat) : Int) + 1) := by
  have hbm : bmS 512 = List.replicate 9 1 ++ 0 :: 0 :: List.replicate 53 0 := by
    unfold bmS
    rw [if_neg (by omega), if_neg (by omega)]
  have hbm' : bmS 513 = List.replicate 9 1 ++ 1 :: 0 :: List.replicate 53 0 := by
    unfold bmS
    rw [if_pos (by omega), if_neg (by omega)]
  have hbuf : bufS 512 = tb 512 := by unfold bufS; rw [if_pos (by omega)]
  have hbuf' : bufS 513 = tb 1 := by
    unfold bufS
    rw [if_neg (by omega), if_pos (by omega)]
  have hd8 : d8S m 512 = tb 512 := by unfold d8S; rw [if_pos (by omega)]
  have hd8' : d8S m 513 = tb 512 := by unfold d8S; rw [if_pos (by omega)]
  have hd10 : d10S m 512 = tb 0 := by unfold d10S; rw [if_neg (by omega)]
  have hd10' : d10S m 513 = tb 0 := by unfold d10S; rw [if_neg (by omega)]
  have hd9 : d9S m 512 = tb 0 := by unfold d9S; rw [if_neg (by omega), if_neg (by omega)]
  have hb2 : (if 513 ≤ (512:Nat) then (9:Int) else 0) = 0 := if_neg (by omega)
  have hb3 : (if 1025 ≤ (512:Nat) then (10:Int) else 0) = 0 := if_neg (by omega)
  have hb2' : (if 513 ≤ (513:Nat) then (9:Int) else 0) = 9 := if_pos (by omega)
  have hb3' : (if 1025 ≤ (513:Nat) then (10:Int) else 0) = 0 := if_neg (by omega)
  have hfd : (((512:Nat)) : Int).fdiv 512 = 1 := by decide
  have hmd : (((512:Nat)) : Int).emod 512 = 0 := by decide
  have hset : Blk.setByte (.ints (List.replicate 512 0)) (0 : Int) 7 = some (.ints (tb 1)) := by
    decide
  have hcast : (((512:Nat)) : Int) + 1 = ((513:Nat) : Int) := by decide
  rw [S_parts m 512, S_parts m 513, hbm, hbm', hbuf, hbuf', hd8, hd8', hd9, hd10, hd10',
    hb2, hb3, hb2', hb3']
  simp only [writeLoopAux, P_oftGet1, hfd]
  rw [if_neg (by decide : ¬(1:Int) ≥ 3),
    if_pos (show (((512:Nat)) : Int).emod 512 = 0 ∧ (1:Int) > 0 from by decide),
    P_ffb9]
  simp only [show ((9:Int) = -1) = False from by decide, ite_false, Option.map_some',
    show (1:Int) + 1 = 2 from by norm_num, P_setDescField1_2, P_bitmapSet9,
    P_oftGet1, P_oftSet1, P_oftGet1', P_oftSet1', mem_get m 512 hnm, hmd, hset]
  by_cases hfl : 513 = m
  · rw [if_pos (show (0 : Int) = 511 ∨ (((512:Nat)):Int) + 1 = (m:Int) by
      right
      omega)]
    simp only [P_getDescField1_2]
    rw [if_pos (by decide : (9:Int) ≠ 0),
      P_write_block9 _ _ _ _ _ _ _ (tb_length _ (by omega))]
    simp only [P_getDescField1_0]
    rw [if_pos (by decide : (((512:Nat)):Int) + 1 > (((512:Nat)):Int)), P_setDescField1_0]
    have hd9' : d9S m 513 = tb 1 := by
      unfold d9S
      rw [if_neg (by omega), if_pos (by constructor <;> omega)]
    rw [hd9', hcast]
    rfl
  · rw [if_neg (show ¬((0 : Int) = 511 ∨ (((512:Nat)):Int) + 1 = (m:Int)) by
      push_neg
      constructor
      · decide
      · omega)]
    simp only [P_getDescField1_0]
    rw [if_pos (by decide : (((512:Nat)):Int) + 1 > (((512:Nat)):Int)), P_setDescField1_0]
    have hd9' : d9S m 513 = tb 0 := by
      unfold d9S
      rw [if_neg (by omega), if_neg (by omega)]
    rw [hd9', hcast]
    rfl

theorem trace_step_alloc3 (m f : Nat) (hnm : 1024 < m) :
    writeLoopAux 1 1 (List.replicate m (7 : Int)) (m : Int) (f + 1) (S m 1024) ((1024 : Nat) : Int) =
    writeLoopAux 1 1 (List.replicate m (7 : Int)) (m : Int) f (S m 1025) (((1024 : Nat) : Int) + 1) := by
  have hbm : bmS 1024 = List.replicate 9 1 ++ 1 :: 0 :: List.replicate 53 0 := by
    unfold bmS
    rw [if_pos (by omega), if_neg (by omega)]
  have hbm' : bmS 1025 = List.replicate 9 1 ++ 1 :: 1 :: List.replicate 53 0 := by
    unfold bmS
    rw [if_pos (by omega), if_pos (by omega)]
  have hbuf : bufS 1024 = tb 512 := by
    unfold bufS
    rw [if_neg (by omega), if_pos (by omega)]
  have hbuf' : bufS 1025 = tb 1 := by
    unfold bufS
    rw [if_neg (by omega), if_neg (by omega)]
  have hd8 : d8S m 1024 = tb 512 := by unfold d8S; rw [if_pos (by omega)]
  have hd8' : d8S m 1025 = tb 512 := by unfold d8S; rw [if_pos (by omega)]
  have hd9 : d9S m 1024 = tb 512 := by unfold d9S; rw [if_pos (by omega)]
  have hd9' : d9S m 1025 = tb 512 := by unfold d9S; rw [if_pos (by omega)]
  have hd10 : d10S m 1024 = tb 0 := by unfold d10S; rw [if_neg (by omega)]
  have hb2 : (if 513 ≤ (1024:Nat) then (9:Int) else 0) = 9 := if_pos (by omega)
  have hb3 : (if 1025 ≤ (1024:Nat) then (10:Int) else 0) = 0 := if_neg (by omega)
  have hb2' : (if 513 ≤ (1025:Nat) then (9:Int) else 0) = 9 := if_pos (by omega)
  have hb3' : (if 1025 ≤ (1025:Nat) then (10:Int) else 0) = 10 := if_pos (by omega)
  have hfd : (((1024:Nat)) : Int).fdiv 512 = 2 := by decide
  have hmd : (((1024:Nat)) : Int).emod 512 = 0 := by decide
  have hset : Blk.setByte (.ints (List.replicate 512 0)) (0 : Int) 7 = some (.ints (tb 1)) := by
    decide
  have hcast : (((1024:Nat)) : Int) + 1 = ((1025:Nat) : Int) := by decide
  rw [S_parts m 1024, S_parts m 1025, hbm, hbm', hbuf, hbuf', hd8, hd8', hd9, hd9', hd10,
    hb2, hb3, hb2', hb3']
  simp only [writeLoopAux, P_oftGet1, hfd]
  rw [if_neg (by decide : ¬(2:Int) ≥ 3),
    if_pos (show (((1024:Nat)) : Int).emod 512 = 0 ∧ (2:Int) > 0 from by decide),
    P_ffb10]
  simp only [show ((10:Int) = -1) = False from by decide, ite_false, Option.map_some',
    show (1:Int) + 2 = 3 from by norm_num, P_setDescField1_3, P_bitmapSet10,
    P_oftGet1, P_oftSet1, P_oftGet1', P_oftSet1', mem_get m 1024 hnm, hmd, hset]
  by_cases hfl : 1025 = m
  · rw [if_pos (show (0 : Int) = 511 ∨ (((1024:Nat)):Int) + 1 = (m:Int) by
      right
      omega)]
    simp only [P_getDescField1_3]
    rw [if_pos (by decide : (10:Int) ≠ 0),
      P_write_block10 _ _ _ _ _ _ _ (tb_length _ (by omega))]
    simp only [P_getDescField1_0]
    rw [if_pos (by decide : (((1024:Nat)):Int) + 1 > (((1024:Nat)):Int)), P_setDescField1_0]
    have hd10' : d10S m 1025 = tb 1 := by
      unfold d10S
      rw [if_pos (by right; constructor <;> omega)]
    rw [hd10', hcast]
    rfl
  · rw [if_neg (show ¬((0 : Int) = 511 ∨ (((1024:Nat)):Int) + 1 = (m:Int)) by
      push_neg
      constructor
      · decide
      · omega)]
    simp only [P_getDescField1_0]
    rw [if_pos (by decide : (((1024:Nat)):Int) + 1 > (((1024:Nat)):Int)), P_setDescField1_0]
    have hd10' : d10S m 1025 = tb 0 := by
      unfold d10S
      rw [if_neg (by omega)]
    rw [hd10', hcast]
    rfl

theorem trace_step (m n f : Nat) (hn : n < 1536) (hnm : n < m) :
    writeLoopAux 1 1 (List.replicate m (7 : Int)) (m : Int) (f + 1) (S m n) (n : Int) =
    writeLoopAux 1 1 (List.replicate m (7 : Int)) (m : Int) f (S m (n + 1)) ((n : Int) + 1) := by
  rcases lt_or_ge n 512 with h | h
  · exact trace_step_q0 m n f h hnm
  rcases Nat.eq_or_lt_of_le h with h5 | h5
  · subst h5
    exact trace_step_alloc2 m f hnm
  rcases lt_or_ge n 1024 with h2 | h2
  · exact trace_step_q1 m n f (by omega) h2 hnm
  rcases Nat.eq_or_lt_of_le h2 with h6 | h6
  · rw [← h6] at hnm ⊢
    exact trace_step_alloc3 m f hnm
  · exact trace_step_q2 m n f (by omega) hn hnm

theorem trace_run (m : Nat) : ∀ f n, n + f = m → n ≤ 1536 →
    writeLoopAux 1 1 (List.replicate m (7 : Int)) (m : Int) f (S m n) (n : Int) =
    .ok ((min m 1536 : Nat) : Int) (S m (min m 1536)) := by
  intro f
  induction f with
  | zero =>
    intro n hf hn
    have hnm : n = m := by omega
    subst hnm
    have hmin : min n 1536 = n := by omega
    rw [hmin]
    rfl
  | succ f ih =>
    intro n hf hn
    rcases Nat.eq_or_lt_of_le hn with h36 | h36
    · subst h36
      have hmin : min m 1536 = 1536 := by omega
      rw [hmin]
      rw [S_parts m 1536]
      simp only [writeLoopAux, P_oftGet1,
        show (((1536:Nat)) : Int).fdiv 512 = 3 from by decide]
      rw [if_pos (by decide : (3:Int) ≥ 3)]
    · rw [trace_step m n f h36 (by omega)]
      have : ((n : Int)) + 1 = ((n + 1 : Nat) : Int) := by push_cast; ring
      rw [this]
      exact ih (n + 1) (by omega) (by omega)

theorem write_trace (m : Nat) (hm : 1 ≤ m) :
    (S m 0).write 1 (List.replicate m (7 : Int)) (m : Int) =
    .ok ((min m 1536 : Nat) : Int) (S m (min m 1536)) := by
  have h0 : S m 0 = FS.mk (diskParts (bmS 0) (descB1v 0 0 0) (tb 0) (tb 0) (tb 0))
      (oftParts (.ints (tb 0)) 0) := by
    rw [S_parts m 0]
    unfold d8S d9S d10S bufS
    rw [if_neg (by omega : ¬513 ≤ 0), if_neg (by omega : ¬1025 ≤ 0),
      if_neg (by omega : ¬512 ≤ 0), if_neg (by omega : ¬0 = m),
      if_neg (by omega : ¬1024 ≤ 0), if_neg (by omega : ¬(0 = m ∧ 512 < 0)),
      if_neg (by omega : ¬(0 = 1536 ∨ (0 = m ∧ 1024 < 0))),
      if_pos (by omega : (0:Nat) ≤ 512)]
    rfl
  unfold FS.write
  rw [if_neg (by decide : ¬((1:Int) < 0 ∨ (1:Int) > 3))]
  rw [h0]
  simp only [P_oftGet1]
  rw [if_neg (by decide : ¬(0:Int) = -1)]
  have hcell : (FS.mk (diskParts (bmS 0) (descB1v 0 0 0) (tb 0) (tb 0) (tb 0))
      (oftParts (.ints (tb 0)) 0)).getDescCell 1 = some (.d [0, 8, 0, 0]) := rfl
  rw [hcell]
  show writeLoopAux 1 1 (List.replicate m (7 : Int)) (m : Int) ((m : Int)).toNat
      (FS.mk (diskParts (bmS 0) (descB1v 0 0 0) (tb 0) (tb 0) (tb 0))
        (oftParts (.ints (tb 0)) 0)) 0 = _
  rw [← h0, Int.toNat_natCast]
  have := trace_run m m 0 (by omega) (by omega)
  simpa using this

theorem create_eval : initFS.create "f" = .ok 0 sCreate := by decide

theorem open_eval : sCreate.open_ "f" = .ok 1 SZero := by decide

theorem S_zero (m : Nat) (hm : 1 ≤ m) : S m 0 = SZero := by
  rw [S_parts m 0]
  unfold SZero d8S d9S d10S bufS
  rw [if_neg (by omega : ¬513 ≤ 0), if_neg (by omega : ¬1025 ≤ 0),
    if_neg (by omega : ¬512 ≤ 0), if_neg (by omega : ¬0 = m),
    if_neg (by omega : ¬1024 ≤ 0), if_neg (by omega : ¬(0 = m ∧ 512 < 0)),
    if_neg (by omega : ¬(0 = 1536 ∨ (0 = m ∧ 1024 < 0))),
    if_pos (by omega : (0:Nat) ≤ 512)]
  rfl

/-- `write(1, [7]*m, m)` from the freshly opened file writes
`min m 1536` bytes and leaves the state `S m (min m 1536)`. -/
theorem SZero_write (m : Nat) (hm : 1 ≤ m) :
    SZero.write 1 (List.replicate m (7 : Int)) (m : Int) =
    .ok ((min m 1536 : Nat) : Int) (S m (min m 1536)) := by
  rw [← S_zero m hm]
  exact write_trace m hm

theorem write513_eval : SZero.write 1 (List.replicate 513 (7 : Int)) 513 =
    .ok 513 (S 513 513) := by
  have h := SZero_write 513 (by omega)
  rw [show (min 513 1536 : Nat) = 513 from by decide] at h
  exact_mod_cast h

theorem write1536_eval : SZero.write 1 (List.replicate 1536 (7 : Int)) 1536 =
    .ok 1536 (S 1536 1536) := by
  have h := SZero_write 1536 (by omega)
  rw [show (min 1536 1536 : Nat) = 1536 from by decide] at h
  exact_mod_cast h

theorem write1537_eval : SZero.write 1 (List.replicate 1537 (7 : Int)) 1537 =
    .ok 1536 (S 1537 1536) := by
  have h := SZero_write 1537 (by omega)
  rw [show (min 1537 1536 : Nat) = 1536 from by decide] at h
  exact_mod_cast h

theorem c5_seek0 : (S 513 513).seek 1 0 = .ok 0 c5A := by decide

theorem c5_write3 : c5A.write 1 [4, 4, 4] 3 = .ok 3 c5B := by decide

theorem c5_wfault : c5B.write 1 [9, 9] 5 = .fault c5C := by decide

theorem c5_seek513 : c5C.seek 1 513 = .ok 513 c5D := by decide

theorem c5_seek3 : c5D.seek 1 3 = .ok 3 c5E := by decide

theorem c5_read : c5E.read 1 [0, 0] 2 =
    .ok (2, [7, 7]) (FS.mk (diskParts (bmS 513) (descB1 513) l443 (tb 1) (tb 0))
      (oftParts (.ints l443) 5)) := by decide

theorem close1536_eval : (S 1536 1536).close 1 = .fault (S 1536 1536) := by decide

theorem open1536_eval : (S 1536 1536).open_ "f" = .ok (-1) (S 1536 1536) := by decide

/-- C2: the claim says close succeeds (returns 0, flushes, resets) on every
open handle, including one whose cursor is 1536 after filling all three
blocks, and that no unhandled fault escapes the engine.  The code instead
evaluates `descriptor[1 + 1536 // 512] = descriptor[4]` on the 4-element
descriptor and raises IndexError: after
`init; create "f"; open "f" → 1; write(1, [7]*1536, 1536) → 1536`, the
handle is open with cursor 1536 and `close(1)` faults, leaving the slot
open. -/
theorem C2_close_cursor_1536_faults :
    initFS.create "f" = .ok 0 sCreate ∧
    sCreate.open_ "f" = .ok 1 SZero ∧
    SZero.write 1 (List.replicate 1536 7) 1536 = .ok 1536 (S 1536 1536) ∧
    ((S 1536 1536).oftGet 1).map Oft.current_pos = some 1536 ∧
    (S 1536 1536).close 1 = .fault (S 1536 1536) :=
  ⟨create_eval, open_eval, write1536_eval, by decide, close1536_eval⟩

/-- C3: the round trip `create; open; write n; close; open; read n` breaks at
n = 1536: the write succeeds with 1536 bytes, but `close` faults
(`descriptor[4]`), and the subsequent `open` returns the error value because
the handle is still open, so the read-back never happens. -/
theorem C3_roundtrip_1536_faults :
    initFS.create "f" = .ok 0 sCreate ∧
    sCreate.open_ "f" = .ok 1 SZero ∧
    SZero.write 1 (List.replicate 1536 7) 1536 = .ok 1536 (S 1536 1536) ∧
    (S 1536 1536).close 1 = .fault (S 1536 1536) ∧
    (S 1536 1536).open_ "f" = .ok (-1) (S 1536 1536) :=
  ⟨create_eval, open_eval, write1536_eval, close1536_eval, open1536_eval⟩

/-- C5: a reachable state, an open handle and data such that a write
immediately followed by a seek to a different block silently loses the
just-written bytes.  After `init; create "f"; open "f" → 1;
write(1, [7]*513, 513); seek(1, 0); write(1, [4,4,4], 3)`, the call
`write(1, [9,9], 5)` writes the two 9s into the buffer at offsets 3-4 and
advances the cursor (then hits IndexError on the short source, which the
shell recovers from); the earlier 3-byte flush severed the buffer from the
block, so the 9s are unflushed.  `seek(1, 513)` into the second block
discards the buffer without flushing, and after `seek(1, 3)`,
`read(1, buf, 2)` returns `[7, 7]` — not the `[9, 9]` that was written. -/
theorem C5_seek_discards_unflushed_write :
    initFS.create "f" = .ok 0 sCreate ∧
    sCreate.open_ "f" = .ok 1 SZero ∧
    SZero.write 1 (List.replicate 513 7) 513 = .ok 513 (S 513 513) ∧
    (S 513 513).seek 1 0 = .ok 0 c5A ∧
    c5A.write 1 [4, 4, 4] 3 = .ok 3 c5B ∧
    c5B.write 1 [9, 9] 5 = .fault c5C ∧
    (c5C.oftGet 1).map Oft.buffer = some (.ints l44399) ∧
    pyGet l44399 3 = some 9 ∧ pyGet l44399 4 = some 9 ∧
    ((c5C.oftGet 1).map Oft.current_pos = some 5) ∧
    c5C.seek 1 513 = .ok 513 c5D ∧
    c5D.seek 1 3 = .ok 3 c5E ∧
    (c5E.read 1 [0, 0] 2).val = some (2, [7, 7]) ∧
    ([7, 7] : List Int) ≠ [9, 9] :=
  ⟨create_eval, open_eval, write513_eval, c5_seek0, c5_write3, c5_wfault,
   by decide, by decide, by decide, by decide, c5_seek513, c5_seek3,
   by rw [c5_read]; rfl, by decide⟩

/-- C7: writing exactly 513 bytes to a fresh file allocates a second data
block (descriptor block2 becomes 9, a non-zero block number, and bitmap
bit 9 is set), and writing 1537 bytes to a fresh file returns
`bytes_written = 1536`, silently truncated at the 3-block ceiling. -/
theorem C7_block_crossing_and_ceiling :
    initFS.create "f" = .ok 0 sCreate ∧
    sCreate.open_ "f" = .ok 1 SZero ∧
    SZero.write 1 (List.replicate 513 7) 513 = .ok 513 (S 513 513) ∧
    (S 513 513).getDescField 1 2 = some 9 ∧ (9 : Int) ≠ 0 ∧
    (S 513 513).bitmapGet 9 = some 1 ∧
    SZero.write 1 (List.replicate 1537 7) 1537 = .ok 1536 (S 1537 1536) :=
  ⟨create_eval, open_eval, write513_eval, by decide, by decide, by decide,
   write1537_eval⟩

/-- C6 counterexample: a write call whose requested count is truncated
refutes `length' = max(L, c + n)`.  From the freshly opened file
(cursor 0, length 0), `write(1, src, 1537)` returns 1536 and leaves
`descriptor.length = 1536`, but `max(0, 0 + 1537) = 1537`. -/
theorem C6_counterexample :
    (SZero.oftGet 1).map Oft.current_pos = some 0 ∧
    SZero.getDescField 1 0 = some 0 ∧
    SZero.write 1 (List.replicate 1537 7) 1537 = .ok 1536 (S 1537 1536) ∧
    (S 1537 1536).getDescField 1 0 = some 1536 ∧
    (1536 : Int) ≠ max 0 (0 + 1537) :=
  ⟨by decide, by decide, write1537_eval, by decide, by decide⟩

theorem setAt_get_same {α : Type} : ∀ (l : List α) (j : Nat) (v : α) (l' : List α),
    setAt l j v = some l' → l'.get? j = some v := by
  intro l
  induction l with
  | nil => intro j v l' h; simp [setAt] at h
  | cons x xs ih =>
    intro j v l' h
    cases j with
    | zero => simp [setAt] at h; subst h; rfl
    | succ j =>
      simp only [setAt, Option.map_eq_some'] at h
      obtain ⟨ys, hy, rfl⟩ := h
      simpa using ih j v ys hy

theorem setAt_get_other {α : Type} : ∀ (l : List α) (j : Nat) (v : α) (l' : List α)
    (j' : Nat), setAt l j v = some l' → j' ≠ j → l'.get? j' = l.get? j' := by
  intro l
  induction l with
  | nil => intro j v l' j' h; simp [setAt] at h
  | cons x xs ih =>
    intro j v l' j' h hne
    cases j with
    | zero =>
      simp [setAt] at h
      subst h
      cases j' with
      | zero => omega
      | succ j' => rfl
    | succ j =>
      simp only [setAt, Option.map_eq_some'] at h
      obtain ⟨ys, hy, rfl⟩ := h
      cases j' with
      | zero => rfl
      | succ j' => simpa using ih j v ys j' hy (by omega)

theorem setAt_take {α : Type} : ∀ (l : List α) (j : Nat) (v : α) (l' : List α)
    (k : Nat), setAt l j v = some l' → k ≤ j → l'.take k = l.take k := by
  intro l
  induction l with
  | nil => intro j v l' k h; simp [setAt] at h
  | cons x xs ih =>
    intro j v l' k h hk
    cases j with
    | zero =>
      simp [setAt] at h
      subst h
      interval_cases k
      rfl
    | succ j =>
      simp only [setAt, Option.map_eq_some'] at h
      obtain ⟨ys, hy, rfl⟩ := h
      cases k with
      | zero => rfl
      | succ k => simp [List.take_succ_cons, ih j v ys k hy (by omega)]

theorem setAt_some_iff {α : Type} : ∀ (l : List α) (j : Nat) (v : α),
    (∃ l', setAt l j v = some l') ↔ j < l.length := by
  intro l
  induction l with
  | nil =>
    intro j v
    simp [setAt]
  | cons x xs ih =>
    intro j v
    cases j with
    | zero => simp [setAt]
    | succ j =>
      simp only [setAt, List.length_cons]
      constructor
      · rintro ⟨l', hl⟩
        rw [Option.map_eq_some'] at hl
        obtain ⟨ys, hy, _⟩ := hl
        have := (ih j v).mp ⟨ys, hy⟩
        omega
      · intro h
        obtain ⟨ys, hy⟩ := (ih j v).mpr (by omega)
        exact ⟨x :: ys, by rw [hy]; rfl⟩

theorem pyGet_nonneg {α : Type} (l : List α) (i : Int) (h : 0 ≤ i) :
    pyGet l i = l.get? i.toNat := by
  unfold pyGet
  rw [if_pos h]

theorem pySet_nonneg {α : Type} (l : List α) (i : Int) (v : α) (h : 0 ≤ i) :
    pySet l i v = setAt l i.toNat v := by
  unfold pySet
  rw [if_pos h]

theorem setAt_zero_drop {α : Type} (l l' : List α) (v : α)
    (h : setAt l 0 v = some l') : l'.drop 1 = l.drop 1 := by
  cases l with
  | nil => simp [setAt] at h
  | cons x xs => simp [setAt] at h; subst h; rfl

theorem setAt_take_comm {α : Type} : ∀ (l l' : List α) (j k : Nat) (v : α),
    setAt l j v = some l' → j < k → setAt (l.take k) j v = some (l'.take k) := by
  intro l
  induction l with
  | nil => intro l' j k v h; simp [setAt] at h
  | cons x xs ih =>
    intro l' j k v h hk
    cases j with
    | zero =>
      simp [setAt] at h
      subst h
      cases k with
      | zero => omega
      | succ k => simp [setAt]
    | succ j =>
      simp only [setAt, Option.map_eq_some'] at h
      obtain ⟨ys, hy, rfl⟩ := h
      cases k with
      | zero => omega
      | succ k =>
        simp only [List.take_succ_cons, setAt, ih ys j k v hy (by omega),
          Option.map_some']

theorem getDescCell_elim (s : FS) (di : Int) (fields : List Int)
    (h0 : 0 ≤ di) (hcell : s.getDescCell di = some (.d fields)) :
    ∃ cells, s.descBlocks.get? ((di.fdiv 32).toNat) = some (.descBlock cells) ∧
      cells.get? ((di.emod 32).toNat) = some (.d fields) := by
  have hf : (0:Int) ≤ di.fdiv 32 := Int.fdiv_nonneg h0 (by omega)
  have hm : (0:Int) ≤ di.emod 32 := Int.emod_nonneg di (by omega)
  unfold FS.getDescCell at hcell
  rcases hbl : s.descBlocks.get? ((di.fdiv 32).toNat) with _ | bl
  · rw [pyGet_nonneg _ _ hf, hbl] at hcell
    simp at hcell
  · rw [pyGet_nonneg _ _ hf, hbl] at hcell
    cases bl with
    | ints l =>
      simp only [pyGet_nonneg _ _ hm, Option.map_eq_some'] at hcell
      obtain ⟨a, _, hraw⟩ := hcell
      cases hraw
    | descBlock cells =>
      simp only [pyGet_nonneg _ _ hm] at hcell
      exact ⟨cells, rfl, hcell⟩
    | dirBlock l => simp at hcell

theorem descBlocks_of_take7 (l l' : List Blk) (h : l'.take 7 = l.take 7) :
    (l'.drop 1).take 6 = (l.drop 1).take 6 := by
  rw [List.take_drop, List.take_drop, h]

theorem getDescCell_congr (s s' : FS) (di : Int)
    (h : s'.descBlocks = s.descBlocks) : s'.getDescCell di = s.getDescCell di := by
  unfold FS.getDescCell
  rw [h]

theorem bitmapSet_spec (s : FS) (i v : Int) (s' : FS)
    (h : s.bitmapSet i v = some s') :
    s'.oft = s.oft ∧ s'.disk.length = s.disk.length ∧
    s'.descBlocks = s.descBlocks := by
  unfold FS.bitmapSet at h
  rcases hb : pyGet s.disk 0 with _ | bl
  · rw [hb] at h; simp at h
  · rw [hb] at h
    cases bl with
    | ints l =>
      simp only [Option.bind_eq_some] at h
      obtain ⟨l', hl', hds⟩ := h
      unfold FS.diskSet at hds
      rw [Option.map_eq_some'] at hds
      obtain ⟨d', hd', rfl⟩ := hds
      rw [pySet_nonneg _ _ _ (by omega)] at hd'
      refine ⟨rfl, ?_, ?_⟩
      · exact setAt_length _ _ _ _ hd'
      · unfold FS.descBlocks
        exact congrArg _ (setAt_zero_drop _ _ _ hd')
    | descBlock l => simp at h
    | dirBlock l => simp at h

theorem diskSet_ge7_spec (s : FS) (i : Int) (b : Blk) (s' : FS)
    (h : s.diskSet i b = some s') (h7 : 7 ≤ i) :
    s'.oft = s.oft ∧ s'.disk.length = s.disk.length ∧
    s'.descBlocks = s.descBlocks := by
  unfold FS.diskSet at h
  rw [Option.map_eq_some'] at h
  obtain ⟨d', hd', rfl⟩ := h
  rw [pySet_nonneg _ _ _ (by omega)] at hd'
  refine ⟨rfl, setAt_length _ _ _ _ hd', ?_⟩
  unfold FS.descBlocks
  exact descBlocks_of_take7 _ _ (setAt_take _ _ _ _ 7 hd' (by omega))

theorem write_block_spec (s : FS) (i : Int) (b : Blk) (s' : FS)
    (h : s.write_block i b = some s') (h7 : 7 ≤ i) (h63 : i ≤ 63) :
    s'.oft = s.oft ∧ s'.disk.length = s.disk.length ∧
    s'.descBlocks = s.descBlocks := by
  unfold FS.write_block at h
  rw [if_neg (by omega)] at h
  by_cases hlen : b.len ≠ 512
  · rw [if_pos hlen] at h; simp at h
  · rw [if_neg hlen] at h
    exact diskSet_ge7_spec s i b s' (by
      unfold FS.diskSet
      exact h) h7

theorem oftSet_spec (s : FS) (i : Int) (e : Oft) (s' : FS)
    (h : s.oftSet i e = some s') (h0 : 0 ≤ i) :
    s'.disk = s.disk ∧ s'.oftGet i = some e := by
  unfold FS.oftSet at h
  rw [Option.map_eq_some'] at h
  obtain ⟨o', ho', rfl⟩ := h
  rw [pySet_nonneg _ _ _ h0] at ho'
  refine ⟨rfl, ?_⟩
  unfold FS.oftGet
  rw [pyGet_nonneg _ _ h0]
  exact setAt_get_same _ _ _ _ ho'

theorem findFreeBlockAux_range (s : FS) :
    ∀ (fuel i : Nat) (r : Int), findFreeBlockAux s fuel i = some r →
    r = -1 ∨ ((i : Int) ≤ r ∧ r < (i : Int) + fuel) := by
  intro fuel
  induction fuel with
  | zero =>
    intro i r h
    simp [findFreeBlockAux] at h
    omega
  | succ fuel ih =>
    intro i r h
    unfold findFreeBlockAux at h
    rcases hb : s.bitmapGet i with _ | v
    · rw [hb] at h; simp at h
    · simp only [hb] at h
      by_cases hv : v = 0
      · rw [if_pos hv] at h
        simp at h
        omega
      · rw [if_neg hv] at h
        rcases ih (i + 1) r h with h1 | h1
        · exact Or.inl h1
        · right
          push_cast at h1 ⊢
          omega

theorem find_free_block_range (s : FS) (r : Int) (h : s.find_free_block = some r) :
    r = -1 ∨ (8 ≤ r ∧ r ≤ 63) := by
  rcases findFreeBlockAux_range s 56 8 r h with h1 | h1
  · exact Or.inl h1
  · right
    push_cast at h1
    omega

theorem getQ_drop {α : Type} : ∀ (m : Nat) (l : List α) (n : Nat),
    (l.drop m).get? n = l.get? (m + n) := by
  intro m
  induction m with
  | zero => intro l n; simp
  | succ m ih =>
    intro l n
    cases l with
    | nil => simp
    | cons x xs => simpa [Nat.succ_add] using ih xs n

theorem setAt_succ_elim {α : Type} (l l' : List α) (j : Nat) (v : α)
    (h : setAt l (j + 1) v = some l') :
    ∃ x xs xs', l = x :: xs ∧ l' = x :: xs' ∧ setAt xs j v = some xs' := by
  cases l with
  | nil => simp [setAt] at h
  | cons x xs =>
    simp only [setAt, Option.map_eq_some'] at h
    obtain ⟨ys, hy, rfl⟩ := h
    exact ⟨x, xs, ys, rfl, rfl, hy⟩

theorem getDescField_of_cell (s : FS) (di : Int) (fields : List Int) (k : Int)
    (h : s.getDescCell di = some (.d fields)) :
    s.getDescField di k = pyGet fields k := by
  unfold FS.getDescField
  rw [h]

theorem setDescCell_spec (s : FS) (di : Int) (c : DescCell) (fields : List Int)
    (s' : FS) (hD : DOk s di fields) (h : s.setDescCell di c = some s') :
    s'.oft = s.oft ∧ s'.disk.length = s.disk.length ∧
    s'.getDescCell di = some c ∧
    s'.disk.get? 0 = s.disk.get? 0 ∧
    (∀ j : Nat, 7 ≤ j → s'.disk.get? j = s.disk.get? j) := by
  obtain ⟨hlen, h0, h192, hcell⟩ := hD
  have hfd : di.fdiv 32 = di / 32 := Int.fdiv_eq_ediv di (by omega)
  have hfd0 : (0:Int) ≤ di.fdiv 32 := by rw [hfd]; omega
  have hfd6 : di.fdiv 32 < 6 := by rw [hfd]; omega
  obtain ⟨cells, hbl, hcl⟩ := getDescCell_elim s di fields h0 hcell
  unfold FS.setDescCell at h
  simp only [show pyIdx 6 (di.fdiv 32) = some ((di.fdiv 32).toNat) from by
    unfold pyIdx
    rw [if_pos hfd0, if_pos (by omega)]] at h
  have hdisk : pyGet s.disk (((di.fdiv 32).toNat : Nat) + 1 : Nat) =
      some (.descBlock cells) := by
    rw [pyGet_nonneg _ _ (by positivity), Int.toNat_natCast]
    unfold FS.descBlocks at hbl
    rw [List.get?_take (by omega), getQ_drop] at hbl
    rw [Nat.add_comm]
    exact hbl
  simp only [hdisk] at h
  rw [Option.bind_eq_some] at h
  obtain ⟨cells', hcs, hds⟩ := h
  unfold FS.diskSet at hds
  rw [Option.map_eq_some'] at hds
  obtain ⟨d', hd', rfl⟩ := hds
  rw [pySet_nonneg _ _ _ (by positivity), Int.toNat_natCast] at hd'
  have hlen' : d'.length = s.disk.length := setAt_length _ _ _ _ hd'
  obtain ⟨x, xs, xs', hx, hx', hxset⟩ := setAt_succ_elim _ _ _ _ (by
    rw [show (di.fdiv 32).toNat + 1 = ((di.fdiv 32).toNat) + 1 from rfl] at hd'
    exact hd')
  refine ⟨rfl, hlen', ?_, ?_, ?_⟩
  · unfold FS.getDescCell FS.descBlocks
    have hdb' : (d'.drop 1).take 6 = xs'.take 6 := by rw [hx']; rfl
    have hsets : setAt (xs.take 6) ((di.fdiv 32).toNat) (Blk.descBlock cells') =
        some (xs'.take 6) := setAt_take_comm _ _ _ _ _ hxset (by omega)
    rw [hdb', pyGet_nonneg _ _ hfd0,
      setAt_get_same _ _ _ _ hsets]
    have hm : (0:Int) ≤ di.emod 32 := Int.emod_nonneg di (by omega)
    simp only [pyGet_nonneg _ _ hm]
    rw [pySet_nonneg _ _ _ hm] at hcs
    rw [setAt_get_same _ _ _ _ hcs]
  · rw [hx, hx']
    rfl
  · intro j hj
    rw [hx, hx']
    cases j with
    | zero => omega
    | succ j =>
      show xs'.get? j = xs.get? j
      exact setAt_get_other _ _ _ _ _ hxset (by omega)

theorem setDescField_spec (s : FS) (di k v : Int) (fields : List Int) (s' : FS)
    (hD : DOk s di fields) (h0k : 0 ≤ k)
    (h : s.setDescField di k v = some s') :
    ∃ fields', setAt fields k.toNat v = some fields' ∧
      s'.oft = s.oft ∧ s'.disk.length = s.disk.length ∧
      s'.getDescCell di = some (.d fields') ∧
      s'.disk.get? 0 = s.disk.get? 0 ∧
      (∀ j : Nat, 7 ≤ j → s'.disk.get? j = s.disk.get? j) := by
  unfold FS.setDescField at h
  simp only [hD.2.2.2] at h
  rw [pySet_nonneg _ _ _ h0k] at h
  rcases hf : setAt fields k.toNat v with _ | fields'
  · rw [hf] at h; simp at h
  · rw [hf] at h
    simp only [Option.some_bind] at h
    obtain ⟨ho, hl, hc, h0, h7⟩ := setDescCell_spec s di (.d fields') fields s' hD h
    exact ⟨fields', rfl, ho, hl, hc, h0, h7⟩

theorem descBlocks_congr_of_disk (s s' : FS) (h : s'.disk = s.disk) :
    s'.descBlocks = s.descBlocks := by
  unfold FS.descBlocks
  rw [h]

theorem oftGet_congr (s s' : FS) (i : Int) (h : s'.oft = s.oft) :
    s'.oftGet i = s.oftGet i := by
  unfold FS.oftGet
  rw [h]

theorem writeLoop_len (idx di : Int) (mem : List Int) (count : Int) (hidx : 0 ≤ idx) :
    ∀ (fuel : Nat) (s : FS) (bw w : Int) (s' : FS) (L b1 b2 b3 : Int),
    DOk s di [L, b1, b2, b3] → bOk b1 → bOk b2 → bOk b3 →
    (∀ e, s.oftGet idx = some e → 0 ≤ e.current_pos) →
    writeLoopAux idx di mem count fuel s bw = .ok w s' →
    (w = bw ∧ s' = s) ∨
    (bw < w ∧ ∀ e, s.oftGet idx = some e →
      ∃ e', s'.oftGet idx = some e' ∧
        e'.current_pos = e.current_pos + (w - bw) ∧
        s'.getDescField di 0 = some (max L (e.current_pos + (w - bw)))) := by
  intro fuel
  induction fuel with
  | zero =>
    intro s bw w s' L b1 b2 b3 hD hb1 hb2 hb3 hpos h
    unfold writeLoopAux at h
    cases h
    exact Or.inl ⟨rfl, rfl⟩
  | succ fuel ih =>
    intro s bw w s' L b1 b2 b3 hD hb1 hb2 hb3 hpos h
    simp only [writeLoopAux] at h
    rcases hoft : s.oftGet idx with _ | e
    · rw [hoft] at h; cases h
    simp only [hoft] at h
    rw [← hoft]
    have hep : 0 ≤ e.current_pos := hpos e hoft
    by_cases h3 : e.current_pos.fdiv 512 ≥ 3
    · rw [if_pos h3] at h
      cases h
      exact Or.inl ⟨rfl, rfl⟩
    rw [if_neg h3] at h
    have hcbi0 : 0 ≤ e.current_pos.fdiv 512 := Int.fdiv_nonneg hep (by omega)
    by_cases halloc : e.current_pos.emod 512 = 0 ∧ e.current_pos.fdiv 512 > 0
    · rw [if_pos halloc] at h
      rcases hffb : s.find_free_block with _ | nb
      · rw [hffb] at h; cases h
      simp only [hffb] at h
      by_cases hnb1 : nb = -1
      · rw [if_pos hnb1] at h
        simp only [] at h
        cases h
        exact Or.inl ⟨rfl, rfl⟩
      rw [if_neg hnb1] at h
      have hnbr : 8 ≤ nb ∧ nb ≤ 63 := by
        rcases find_free_block_range s nb hffb with h1 | h1
        · omega
        · exact h1
      rcases hsdf : s.setDescField di (1 + e.current_pos.fdiv 512) nb with _ | sA
      · rw [hsdf] at h; cases h
      simp only [hsdf] at h
      rcases hbs : sA.bitmapSet nb 1 with _ | sB
      · rw [hbs] at h; cases h
      simp only [hbs] at h
      rcases hogB : sB.oftGet idx with _ | eB
      · rw [hogB] at h; cases h
      simp only [hogB] at h
      rcases hosB : sB.oftSet idx
          { eB with buffer := .ints (List.replicate 512 0) } with _ | sC
      · rw [hosB] at h; simp at h
      simp only [hosB, Option.map_some'] at h
      obtain ⟨fieldsA, hfset, hoA, hlA, hcA, h0A, h7A⟩ :=
        setDescField_spec s di (1 + e.current_pos.fdiv 512) nb [L, b1, b2, b3] sA hD
          (by omega) hsdf
      obtain ⟨hoB, hlB, hdbB⟩ := bitmapSet_spec sA nb 1 sB hbs
      obtain ⟨hdC, hogC⟩ := oftSet_spec sB idx _ sC hosB hidx
      have heB : eB = e := by
        rw [oftGet_congr sA sB idx hoB, oftGet_congr s sA idx hoA, hoft] at hogB
        exact (Option.some_inj.mp hogB).symm
      have hcbi12 : e.current_pos.fdiv 512 = 1 ∨ e.current_pos.fdiv 512 = 2 := by
        rcases halloc with ⟨hz, hgt⟩
        omega
      have hcC : sC.getDescCell di = some (.d fieldsA) := by
        rw [getDescCell_congr sB sC di (descBlocks_congr_of_disk _ _ hdC),
          getDescCell_congr sA sB di hdbB]
        exact hcA
      have hDC0 : sC.disk.length = 64 := by
        rw [hdC, hlB, hlA]
        exact hD.1
      rcases hcbi12 with hc1 | hc1
      · rw [hc1] at hfset
        have hfA : fieldsA = [L, b1, nb, b3] := by
          simp [setAt, show ((1:Int) + 1).toNat = 2 from rfl] at hfset
          exact hfset.symm
        subst hfA
        have hDC : DOk sC di [L, b1, nb, b3] := ⟨hDC0, hD.2.1, hD.2.2.1, hcC⟩
        have he1C : ∀ e1, sC.oftGet idx = some e1 → e1.current_pos = e.current_pos := by
          intro e1 he1
          rw [hogC] at he1
          cases he1
          rw [heB]
        rcases hog1 : sC.oftGet idx with _ | e1
        · rw [hog1] at h; cases h
        simp only [hog1] at h
        have he1pos : e1.current_pos = e.current_pos := he1C e1 hog1
        rcases hmem : pyGet mem bw with _ | v
        · rw [hmem] at h; cases h
        simp only [hmem] at h
        rcases hsb : e1.buffer.setByte (e.current_pos.emod 512) v with _ | buf
        · rw [hsb] at h; cases h
        simp only [hsb] at h
        rcases hos2 : sC.oftSet idx
            { e1 with buffer := buf, current_pos := e1.current_pos + 1 } with _ | s2
        · rw [hos2] at h; cases h
        simp only [hos2] at h
        obtain ⟨hd2, hog2⟩ := oftSet_spec sC idx _ s2 hos2 hidx
        have hD2 : DOk s2 di [L, b1, nb, b3] := by
          refine ⟨?_, hDC.2.1, hDC.2.2.1, ?_⟩
          · rw [hd2]; exact hDC.1
          · rw [getDescCell_congr sC s2 di (descBlocks_congr_of_disk _ _ hd2)]
            exact hDC.2.2.2
        have hcbi012 : e.current_pos.fdiv 512 = 0 ∨ e.current_pos.fdiv 512 = 1 ∨
            e.current_pos.fdiv 512 = 2 := by omega
        obtain ⟨bn, hbn_eq, hbnOk⟩ : ∃ bn,
            pyGet [L, b1, nb, b3] (1 + e.current_pos.fdiv 512) = some bn ∧ bOk bn := by
          rcases hcbi012 with hcc | hcc | hcc <;> rw [hcc]
          · exact ⟨b1, rfl, hb1⟩
          · exact ⟨nb, rfl, (Or.inr (by omega))⟩
          · exact ⟨b3, rfl, hb3⟩
        have hfl_common : ∀ s3 : FS, s3.oft = s2.oft → s3.disk.length = 64 →
            s3.getDescCell di = some (.d [L, b1, nb, b3]) →
            (match s3.getDescField di 0 with
              | none => Res.fault s3
              | some flen =>
                match (if e1.current_pos + 1 > flen then
                         s3.setDescField di 0 (e1.current_pos + 1)
                       else some s3) with
                | none => Res.fault s3
                | some s4 => writeLoopAux idx di mem count fuel s4 (bw + 1)) = .ok w s' →
            (bw < w ∧ ∀ e0, s.oftGet idx = some e0 →
              ∃ e', s'.oftGet idx = some e' ∧
                e'.current_pos = e0.current_pos + (w - bw) ∧
                s'.getDescField di 0 = some (max L (e0.current_pos + (w - bw)))) := by
          intro s3 ho3 hl3 hc3 h
          have hD3 : DOk s3 di [L, b1, nb, b3] := ⟨hl3, hDC.2.1, hDC.2.2.1, hc3⟩
          have hlen3 : s3.getDescField di 0 = some L := by
            rw [getDescField_of_cell s3 di [L, b1, nb, b3] 0 hc3]
            rfl
          simp only [hlen3] at h
          have hog3 : s3.oftGet idx =
              some { e1 with buffer := buf, current_pos := e1.current_pos + 1 } := by
            rw [oftGet_congr s2 s3 idx ho3]
            exact hog2
          by_cases hcur : e1.current_pos + 1 > L
          · rw [if_pos hcur] at h
            rcases hsl : s3.setDescField di 0 (e1.current_pos + 1) with _ | s4
            · rw [hsl] at h; cases h
            simp only [hsl] at h
            obtain ⟨fields4, hf4, ho4, hl4, hc4, hx4, hy4⟩ :=
              setDescField_spec s3 di 0 (e1.current_pos + 1) [L, b1, nb, b3] s4 hD3
                (by omega) hsl
            have hf4' : fields4 = [e1.current_pos + 1, b1, nb, b3] := by
              simp [setAt] at hf4
              exact hf4.symm
            subst hf4'
            have hD4 : DOk s4 di [e1.current_pos + 1, b1, nb, b3] := by
              refine ⟨?_, hDC.2.1, hDC.2.2.1, hc4⟩
              rw [hl4]; exact hl3
            have hog4 : s4.oftGet idx =
                some { e1 with buffer := buf, current_pos := e1.current_pos + 1 } := by
              rw [oftGet_congr s3 s4 idx ho4]
              exact hog3
            rcases ih s4 (bw + 1) w s' (e1.current_pos + 1) b1 nb b3 hD4 hb1 (Or.inr (by omega)) hb3
                (by
                  intro e4 he4
                  rw [hog4] at he4
                  cases he4
                  simp only []
                  omega) h with ⟨hw, hs⟩ | ⟨hw, hex⟩
            · subst hw
              subst hs
              refine .intro (by omega) ?_
              intro e0 he0
              rw [hoft] at he0
              cases he0
              refine ⟨_, hog4, by simp only []; omega, ?_⟩
              rw [getDescField_of_cell _ di _ 0 hc4]
              have hmx : max L (e.current_pos + (bw + 1 - bw)) = e1.current_pos + 1 := by
                omega
              rw [hmx]
              rfl
            · refine .intro (by omega) ?_
              intro e0 he0
              rw [hoft] at he0
              cases he0
              obtain ⟨e', hog', hpos', hlen'⟩ := hex _ hog4
              refine ⟨e', hog', by rw [hpos']; simp only []; omega, ?_⟩
              rw [hlen']
              congr 1
              simp only []
              omega
          · rw [if_neg hcur] at h
            simp only [] at h
            rcases ih s3 (bw + 1) w s' L b1 nb b3 hD3 hb1 (Or.inr (by omega)) hb3
                (by
                  intro e4 he4
                  rw [hog3] at he4
                  cases he4
                  simp only []
                  omega) h with ⟨hw, hs⟩ | ⟨hw, hex⟩
            · subst hw
              subst hs
              refine .intro (by omega) ?_
              intro e0 he0
              rw [hoft] at he0
              cases he0
              refine ⟨_, hog3, by simp only []; omega, ?_⟩
              rw [hlen3]
              congr 1
              omega
            · refine .intro (by omega) ?_
              intro e0 he0
              rw [hoft] at he0
              cases he0
              obtain ⟨e', hog', hpos', hlen'⟩ := hex _ hog3
              refine ⟨e', hog', by rw [hpos']; simp only []; omega, ?_⟩
              rw [hlen']
              congr 1
              simp only []
              omega
        by_cases hfl : e.current_pos.emod 512 = 511 ∨ bw + 1 = count
        · rw [if_pos hfl] at h
          rw [getDescField_of_cell s2 di [L, b1, nb, b3] _ hD2.2.2.2, hbn_eq] at h
          simp only [] at h
          by_cases hbn0 : bn ≠ 0
          · rw [if_pos hbn0] at h
            rcases hwb : s2.write_block bn buf with _ | s3
            · rw [hwb] at h; cases h
            simp only [hwb] at h
            obtain ⟨ho3, hl3, hdb3⟩ := write_block_spec s2 bn buf s3 hwb
              (by rcases hbnOk with hq | hq
                  · omega
                  · omega)
              (by rcases hbnOk with hq | hq
                  · omega
                  · omega)
            refine Or.inr (hfl_common s3 ho3 (by rw [hl3]; exact hD2.1) ?_ h)
            rw [getDescCell_congr s2 s3 di hdb3]
            exact hD2.2.2.2
          · rw [if_neg hbn0] at h
            simp only [] at h
            exact Or.inr (hfl_common s2 rfl hD2.1 hD2.2.2.2 h)
        · rw [if_neg hfl] at h
          simp only [] at h
          exact Or.inr (hfl_common s2 rfl hD2.1 hD2.2.2.2 h)
      · rw [hc1] at hfset
        have hfA : fieldsA = [L, b1, b2, nb] := by
          simp [setAt, show ((1:Int) + 2).toNat = 3 from rfl] at hfset
          exact hfset.symm
        subst hfA
        have hDC : DOk sC di [L, b1, b2, nb] := ⟨hDC0, hD.2.1, hD.2.2.1, hcC⟩
        have he1C : ∀ e1, sC.oftGet idx = some e1 → e1.current_pos = e.current_pos := by
          intro e1 he1
          rw [hogC] at he1
          cases he1
          rw [heB]
        rcases hog1 : sC.oftGet idx with _ | e1
        · rw [hog1] at h; cases h
        simp only [hog1] at h
        have he1pos : e1.current_pos = e.current_pos := he1C e1 hog1
        rcases hmem : pyGet mem bw with _ | v
        · rw [hmem] at h; cases h
        simp only [hmem] at h
        rcases hsb : e1.buffer.setByte (e.current_pos.emod 512) v with _ | buf
        · rw [hsb] at h; cases h
        simp only [hsb] at h
        rcases hos2 : sC.oftSet idx
            { e1 with buffer := buf, current_pos := e1.current_pos + 1 } with _ | s2
        · rw [hos2] at h; cases h
        simp only [hos2] at h
        obtain ⟨hd2, hog2⟩ := oftSet_spec sC idx _ s2 hos2 hidx
        have hD2 : DOk s2 di [L, b1, b2, nb] := by
          refine ⟨?_, hDC.2.1, hDC.2.2.1, ?_⟩
          · rw [hd2]; exact hDC.1
          · rw [getDescCell_congr sC s2 di (descBlocks_congr_of_disk _ _ hd2)]
            exact hDC.2.2.2
        have hcbi012 : e.current_pos.fdiv 512 = 0 ∨ e.current_pos.fdiv 512 = 1 ∨
            e.current_pos.fdiv 512 = 2 := by omega
        obtain ⟨bn, hbn_eq, hbnOk⟩ : ∃ bn,
            pyGet [L, b1, b2, nb] (1 + e.current_pos.fdiv 512) = some bn ∧ bOk bn := by
          rcases hcbi012 with hcc | hcc | hcc <;> rw [hcc]
          · exact ⟨b1, rfl, hb1⟩
          · exact ⟨b2, rfl, hb2⟩
          · exact ⟨nb, rfl, (Or.inr (by omega))⟩
        have hfl_common : ∀ s3 : FS, s3.oft = s2.oft → s3.disk.length = 64 →
            s3.getDescCell di = some (.d [L, b1, b2, nb]) →
            (match s3.getDescField di 0 with
              | none => Res.fault s3
              | some flen =>
                match (if e1.current_pos + 1 > flen then
                         s3.setDescField di 0 (e1.current_pos + 1)
                       else some s3) with
                | none => Res.fault s3
                | some s4 => writeLoopAux idx di mem count fuel s4 (bw + 1)) = .ok w s' →
            (bw < w ∧ ∀ e0, s.oftGet idx = some e0 →
              ∃ e', s'.oftGet idx = some e' ∧
                e'.current_pos = e0.current_pos + (w - bw) ∧
                s'.getDescField di 0 = some (max L (e0.current_pos + (w - bw)))) := by
          intro s3 ho3 hl3 hc3 h
          have hD3 : DOk s3 di [L, b1, b2, nb] := ⟨hl3, hDC.2.1, hDC.2.2.1, hc3⟩
          have hlen3 : s3.getDescField di 0 = some L := by
            rw [getDescField_of_cell s3 di [L, b1, b2, nb] 0 hc3]
            rfl
          simp only [hlen3] at h
          have hog3 : s3.oftGet idx =
              some { e1 with buffer := buf, current_pos := e1.current_pos + 1 } := by
            rw [oftGet_congr s2 s3 idx ho3]
            exact hog2
          by_cases hcur : e1.current_pos + 1 > L
          · rw [if_pos hcur] at h
            rcases hsl : s3.setDescField di 0 (e1.current_pos + 1) with _ | s4
            · rw [hsl] at h; cases h
            simp only [hsl] at h
            obtain ⟨fields4, hf4, ho4, hl4, hc4, hx4, hy4⟩ :=
              setDescField_spec s3 di 0 (e1.current_pos + 1) [L, b1, b2, nb] s4 hD3
                (by omega) hsl
            have hf4' : fields4 = [e1.current_pos + 1, b1, b2, nb] := by
              simp [setAt] at hf4
              exact hf4.symm
            subst hf4'
            have hD4 : DOk s4 di [e1.current_pos + 1, b1, b2, nb] := by
              refine ⟨?_, hDC.2.1, hDC.2.2.1, hc4⟩
              rw [hl4]; exact hl3
            have hog4 : s4.oftGet idx =
                some { e1 with buffer := buf, current_pos := e1.current_pos + 1 } := by
              rw [oftGet_congr s3 s4 idx ho4]
              exact hog3
            rcases ih s4 (bw + 1) w s' (e1.current_pos + 1) b1 b2 nb hD4 hb1 hb2 (Or.inr (by omega))
                (by
                  intro e4 he4
                  rw [hog4] at he4
                  cases he4
                  simp only []
                  omega) h with ⟨hw, hs⟩ | ⟨hw, hex⟩
            · subst hw
              subst hs
              refine .intro (by omega) ?_
              intro e0 he0
              rw [hoft] at he0
              cases he0
              refine ⟨_, hog4, by simp only []; omega, ?_⟩
              rw [getDescField_of_cell _ di _ 0 hc4]
              have hmx : max L (e.current_pos + (bw + 1 - bw)) = e1.current_pos + 1 := by
                omega
              rw [hmx]
              rfl
            · refine .intro (by omega) ?_
              intro e0 he0
              rw [hoft] at he0
              cases he0
              obtain ⟨e', hog', hpos', hlen'⟩ := hex _ hog4
              refine ⟨e', hog', by rw [hpos']; simp only []; omega, ?_⟩
              rw [hlen']
              congr 1
              simp only []
              omega
          · rw [if_neg hcur] at h
            simp only [] at h
            rcases ih s3 (bw + 1) w s' L b1 b2 nb hD3 hb1 hb2 (Or.inr (by omega))
                (by
                  intro e4 he4
                  rw [hog3] at he4
                  cases he4
                  simp only []
                  omega) h with ⟨hw, hs⟩ | ⟨hw, hex⟩
            · subst hw
              subst hs
              refine .intro (by omega) ?_
              intro e0 he0
              rw [hoft] at he0
              cases he0
              refine ⟨_, hog3, by simp only []; omega, ?_⟩
              rw [hlen3]
              congr 1
              omega
            · refine .intro (by omega) ?_
              intro e0 he0
              rw [hoft] at he0
              cases he0
              obtain ⟨e', hog', hpos', hlen'⟩ := hex _ hog3
              refine ⟨e', hog', by rw [hpos']; simp only []; omega, ?_⟩
              rw [hlen']
              congr 1
              simp only []
              omega
        by_cases hfl : e.current_pos.emod 512 = 511 ∨ bw + 1 = count
        · rw [if_pos hfl] at h
          rw [getDescField_of_cell s2 di [L, b1, b2, nb] _ hD2.2.2.2, hbn_eq] at h
          simp only [] at h
          by_cases hbn0 : bn ≠ 0
          · rw [if_pos hbn0] at h
            rcases hwb : s2.write_block bn buf with _ | s3
            · rw [hwb] at h; cases h
            simp only [hwb] at h
            obtain ⟨ho3, hl3, hdb3⟩ := write_block_spec s2 bn buf s3 hwb
              (by rcases hbnOk with hq | hq
                  · omega
                  · omega)
              (by rcases hbnOk with hq | hq
                  · omega
                  · omega)
            refine Or.inr (hfl_common s3 ho3 (by rw [hl3]; exact hD2.1) ?_ h)
            rw [getDescCell_congr s2 s3 di hdb3]
            exact hD2.2.2.2
          · rw [if_neg hbn0] at h
            simp only [] at h
            exact Or.inr (hfl_common s2 rfl hD2.1 hD2.2.2.2 h)
        · rw [if_neg hfl] at h
          simp only [] at h
          exact Or.inr (hfl_common s2 rfl hD2.1 hD2.2.2.2 h)
    · rw [if_neg halloc] at h
      simp only [] at h
      have hDC : DOk s di [L, b1, b2, b3] := hD
      have he1C : ∀ e1, s.oftGet idx = some e1 → e1.current_pos = e.current_pos := by
        intro e1 he1
        rw [hoft] at he1
        cases he1
        rfl
      rcases hog1 : s.oftGet idx with _ | e1
      · rw [hog1] at h; cases h
      simp only [hog1] at h
      rw [← hog1]
      have he1pos : e1.current_pos = e.current_pos := he1C e1 hog1
      rcases hmem : pyGet mem bw with _ | v
      · rw [hmem] at h; cases h
      simp only [hmem] at h
      rcases hsb : e1.buffer.setByte (e.current_pos.emod 512) v with _ | buf
      · rw [hsb] at h; cases h
      simp only [hsb] at h
      rcases hos2 : s.oftSet idx
          { e1 with buffer := buf, current_pos := e1.current_pos + 1 } with _ | s2
      · rw [hos2] at h; cases h
      simp only [hos2] at h
      obtain ⟨hd2, hog2⟩ := oftSet_spec s idx _ s2 hos2 hidx
      have hD2 : DOk s2 di [L, b1, b2, b3] := by
        refine ⟨?_, hDC.2.1, hDC.2.2.1, ?_⟩
        · rw [hd2]; exact hDC.1
        · rw [getDescCell_congr s s2 di (descBlocks_congr_of_disk _ _ hd2)]
          exact hDC.2.2.2
      have hcbi012 : e.current_pos.fdiv 512 = 0 ∨ e.current_pos.fdiv 512 = 1 ∨
          e.current_pos.fdiv 512 = 2 := by omega
      obtain ⟨bn, hbn_eq, hbnOk⟩ : ∃ bn,
          pyGet [L, b1, b2, b3] (1 + e.current_pos.fdiv 512) = some bn ∧ bOk bn := by
        rcases hcbi012 with hcc | hcc | hcc <;> rw [hcc]
        · exact ⟨b1, rfl, hb1⟩
        · exact ⟨b2, rfl, hb2⟩
        · exact ⟨b3, rfl, hb3⟩
      have hfl_common : ∀ s3 : FS, s3.oft = s2.oft → s3.disk.length = 64 →
          s3.getDescCell di = some (.d [L, b1, b2, b3]) →
          (match s3.getDescField di 0 with
            | none => Res.fault s3
            | some flen =>
              match (if e1.current_pos + 1 > flen then
                       s3.setDescField di 0 (e1.current_pos + 1)
                     else some s3) with
              | none => Res.fault s3
              | some s4 => writeLoopAux idx di mem count fuel s4 (bw + 1)) = .ok w s' →
          (bw < w ∧ ∀ e0, s.oftGet idx = some e0 →
            ∃ e', s'.oftGet idx = some e' ∧
              e'.current_pos = e0.current_pos + (w - bw) ∧
              s'.getDescField di 0 = some (max L (e0.current_pos + (w - bw)))) := by
        intro s3 ho3 hl3 hc3 h
        have hD3 : DOk s3 di [L, b1, b2, b3] := ⟨hl3, hDC.2.1, hDC.2.2.1, hc3⟩
        have hlen3 : s3.getDescField di 0 = some L := by
          rw [getDescField_of_cell s3 di [L, b1, b2, b3] 0 hc3]
          rfl
        simp only [hlen3] at h
        have hog3 : s3.oftGet idx =
            some { e1 with buffer := buf, current_pos := e1.current_pos + 1 } := by
          rw [oftGet_congr s2 s3 idx ho3]
          exact hog2
        by_cases hcur : e1.current_pos + 1 > L
        · rw [if_pos hcur] at h
          rcases hsl : s3.setDescField di 0 (e1.current_pos + 1) with _ | s4
          · rw [hsl] at h; cases h
          simp only [hsl] at h
          obtain ⟨fields4, hf4, ho4, hl4, hc4, hx4, hy4⟩ :=
            setDescField_spec s3 di 0 (e1.current_pos + 1) [L, b1, b2, b3] s4 hD3
              (by omega) hsl
          have hf4' : fields4 = [e1.current_pos + 1, b1, b2, b3] := by
            simp [setAt] at hf4
            exact hf4.symm
          subst hf4'
          have hD4 : DOk s4 di [e1.current_pos + 1, b1, b2, b3] := by
            refine ⟨?_, hDC.2.1, hDC.2.2.1, hc4⟩
            rw [hl4]; exact hl3
          have hog4 : s4.oftGet idx =
              some { e1 with buffer := buf, current_pos := e1.current_pos + 1 } := by
            rw [oftGet_congr s3 s4 idx ho4]
            exact hog3
          rcases ih s4 (bw + 1) w s' (e1.current_pos + 1) b1 b2 b3 hD4 hb1 hb2 hb3
              (by
                intro e4 he4
                rw [hog4] at he4
                cases he4
                simp only []
                omega) h with ⟨hw, hs⟩ | ⟨hw, hex⟩
          · subst hw
            subst hs
            refine .intro (by omega) ?_
            intro e0 he0
            rw [hoft] at he0
            cases he0
            refine ⟨_, hog4, by simp only []; omega, ?_⟩
            rw [getDescField_of_cell _ di _ 0 hc4]
            have hmx : max L (e.current_pos + (bw + 1 - bw)) = e1.current_pos + 1 := by
              omega
            rw [hmx]
            rfl
          · refine .intro (by omega) ?_
            intro e0 he0
            rw [hoft] at he0
            cases he0
            obtain ⟨e', hog', hpos', hlen'⟩ := hex _ hog4
            refine ⟨e', hog', by rw [hpos']; simp only []; omega, ?_⟩
            rw [hlen']
            congr 1
            simp only []
            omega
        · rw [if_neg hcur] at h
          simp only [] at h
          rcases ih s3 (bw + 1) w s' L b1 b2 b3 hD3 hb1 hb2 hb3
              (by
                intro e4 he4
                rw [hog3] at he4
                cases he4
                simp only []
                omega) h with ⟨hw, hs⟩ | ⟨hw, hex⟩
          · subst hw
            subst hs
            refine .intro (by omega) ?_
            intro e0 he0
            rw [hoft] at he0
            cases he0
            refine ⟨_, hog3, by simp only []; omega, ?_⟩
            rw [hlen3]
            congr 1
            omega
          · refine .intro (by omega) ?_
            intro e0 he0
            rw [hoft] at he0
            cases he0
            obtain ⟨e', hog', hpos', hlen'⟩ := hex _ hog3
            refine ⟨e', hog', by rw [hpos']; simp only []; omega, ?_⟩
            rw [hlen']
            congr 1
            simp only []
            omega
      by_cases hfl : e.current_pos.emod 512 = 511 ∨ bw + 1 = count
      · rw [if_pos hfl] at h
        rw [getDescField_of_cell s2 di [L, b1, b2, b3] _ hD2.2.2.2, hbn_eq] at h
        simp only [] at h
        by_cases hbn0 : bn ≠ 0
        · rw [if_pos hbn0] at h
          rcases hwb : s2.write_block bn buf with _ | s3
          · rw [hwb] at h; cases h
          simp only [hwb] at h
          obtain ⟨ho3, hl3, hdb3⟩ := write_block_spec s2 bn buf s3 hwb
            (by rcases hbnOk with hq | hq
                · omega
                · omega)
            (by rcases hbnOk with hq | hq
                · omega
                · omega)
          refine Or.inr (hfl_common s3 ho3 (by rw [hl3]; exact hD2.1) ?_ h)
          rw [getDescCell_congr s2 s3 di hdb3]
          exact hD2.2.2.2
        · rw [if_neg hbn0] at h
          simp only [] at h
          exact Or.inr (hfl_common s2 rfl hD2.1 hD2.2.2.2 h)
      · rw [if_neg hfl] at h
        simp only [] at h
        exact Or.inr (hfl_common s2 rfl hD2.1 hD2.2.2.2 h)

/-- C6 (amended): for a successful `write` on a valid open handle with
cursor `c ≥ 0` whose descriptor cell holds `[L, b1, b2, b3]` with each
block field either 0 or a data-block number in [7, 63], the call never
decreases the descriptor length, and the new length is `L` itself when
the returned count `w` is 0 (state unchanged) and `max L (c + w)` when
`w > 0` — `w` being the bytes actually written, not the requested count. -/
theorem C6_amended_length_max_written (s : FS) (idx : Int) (mem : List Int)
    (count : Int) (e : Oft) (L b1 b2 b3 w : Int) (s' : FS)
    (hidx : 0 ≤ idx) (hidx3 : idx ≤ 3)
    (hoe : s.oftGet idx = some e)
    (hopen : ¬e.current_pos = -1) (hc : 0 ≤ e.current_pos)
    (hD : DOk s e.descriptor_index [L, b1, b2, b3])
    (hb1 : bOk b1) (hb2 : bOk b2) (hb3 : bOk b3)
    (hw : s.write idx mem count = .ok w s') :
    (∃ lenNew, s'.getDescField e.descriptor_index 0 = some lenNew ∧ L ≤ lenNew) ∧
    ((w = 0 ∧ s' = s ∧ s'.getDescField e.descriptor_index 0 = some L) ∨
     (0 < w ∧ s'.getDescField e.descriptor_index 0 =
        some (max L (e.current_pos + w)))) := by
  unfold FS.write at hw
  have hir : ¬(idx < 0 ∨ idx > 3) := by omega
  rw [if_neg hir] at hw
  simp only [hoe] at hw
  rw [if_neg hopen] at hw
  simp only [hD.2.2.2] at hw
  have hpos : ∀ e0 : Oft, s.oftGet idx = some e0 → 0 ≤ e0.current_pos := by
    intro e0 he0
    rw [hoe] at he0
    cases he0
    exact hc
  rcases writeLoop_len idx e.descriptor_index mem count hidx count.toNat s 0 w s'
      L b1 b2 b3 hD hb1 hb2 hb3 hpos hw with ⟨hw0, hs0⟩ | ⟨hwpos, hex⟩
  · subst hw0
    have hL : s'.getDescField e.descriptor_index 0 = some L := by
      rw [hs0, getDescField_of_cell s e.descriptor_index _ 0 hD.2.2.2]
      rfl
    exact ⟨⟨L, hL, le_refl L⟩, Or.inl ⟨rfl, hs0, hL⟩⟩
  · obtain ⟨e', he', hp', hl'⟩ := hex e hoe
    rw [sub_zero] at hl'
    exact ⟨⟨max L (e.current_pos + w), hl', le_max_left _ _⟩,
      Or.inr ⟨hwpos, hl'⟩⟩

/-- Closed instance of the amended C6 statement: one byte written to the
freshly opened file takes the length from 0 to `max 0 (0 + 1) = 1`. -/
theorem C6_amended_length_max_written_witness :
    (∃ lenNew, (S 1 1).getDescField 1 0 = some lenNew ∧ (0 : Int) ≤ lenNew) ∧
    (((1 : Int) = 0 ∧ S 1 1 = SZero ∧ (S 1 1).getDescField 1 0 = some 0) ∨
     (0 < (1 : Int) ∧ (S 1 1).getDescField 1 0 = some (max 0 (0 + 1)))) :=
  C6_amended_length_max_written SZero 1 [7] 1
    ⟨.ints (List.replicate 512 0), 0, 0, 1⟩ 0 8 0 0 1 (S 1 1)
    (by decide) (by decide) (by decide) (by decide) (by decide)
    ⟨by decide, by decide, by decide, by decide⟩
        (Or.inr ⟨by decide, by decide⟩) (Or.inl rfl) (Or.inl rfl) (by decide)

theorem openFreeSlotAux_ge (s : FS) :
    ∀ (n i j : Nat), openFreeSlotAux s n i = some (some j) → i ≤ j := by
  intro n
  induction n with
  | zero =>
    intro i j h
    simp [openFreeSlotAux] at h
  | succ n ih =>
    intro i j h
    simp only [openFreeSlotAux] at h
    rcases hg : s.oftGet i with _ | e
    · rw [hg] at h; cases h
    simp only [hg] at h
    by_cases hc : e.current_pos = -1
    · rw [if_pos hc] at h
      cases h
      omega
    · rw [if_neg hc] at h
      exact le_trans (by omega) (ih (i + 1) j h)

/-- C4 counterexample: `close(0)` is not rejected — from the initial
state it returns 0 and leaves OFT slot 0 closed (`current_pos = -1`),
so slot 0 is not permanently open in every reachable state. -/
theorem C4_counterexample :
    Reachable (initFS.close 0).state ∧
    (initFS.close 0).val = some 0 ∧
    ((initFS.close 0).state.oftGet 0).map Oft.current_pos = some (-1) :=
  ⟨Reachable.close initFS 0 Reachable.init, by decide, by decide⟩

/-- C4 (amended): at initialisation OFT slot 0 is open (cursor 0) and
bound to descriptor 0, and `open` never returns handle 0 (the free-slot
scan starts at slot 1); but nothing protects slot 0 from `close(0)`. -/
theorem C4_amended :
    ((initFS.oftGet 0).map Oft.current_pos = some 0 ∧
     (initFS.oftGet 0).map Oft.descriptor_index = some 0) ∧
    (∀ (s : FS) (name : String) (r : Int) (s' : FS),
      s.open_ name = .ok r s' → r ≠ 0) := by
  constructor
  · exact ⟨by decide, by decide⟩
  · intro s name r s' h
    unfold FS.open_ at h
    rcases hdf : s.dirFind name with _ | od
    · rw [hdf] at h; cases h
    rcases od with _ | p
    · simp only [hdf] at h
      cases h
      decide
    rcases p with ⟨nm, di⟩
    simp only [hdf] at h
    by_cases hdi : di = -1
    · rw [if_pos hdi] at h
      cases h
      decide
    rw [if_neg hdi] at h
    rcases hoc : openCheckAux s di 4 0 with _ | b
    · rw [hoc] at h; cases h
    simp only [hoc] at h
    cases b with
    | true =>
      cases h
      decide
    | false =>
      rcases hfs : openFreeSlotAux s 3 1 with _ | oj
      · rw [hfs] at h; cases h
      rcases oj with _ | j
      · simp only [hfs] at h
        cases h
        decide
      simp only [hfs] at h
      rcases hdc : s.getDescCell di with _ | cell
      · rw [hdc] at h; cases h
      simp only [hdc] at h
      rcases hf1 : cell.field 1 with _ | b1
      · rw [hf1] at h; cases h
      simp only [hf1] at h
      rcases hrb : s.read_block b1 with _ | buf
      · rw [hrb] at h; cases h
      simp only [hrb] at h
      rcases hf0 : cell.field 0 with _ | len0
      · rw [hf0] at h; cases h
      simp only [hf0] at h
      rcases hos : s.oftSet (↑j : Int) { buffer := buf, current_pos := 0, file_size := len0, descriptor_index := di } with _ | s1
      · rw [hos] at h; cases h
      simp only [hos] at h
      cases h
      have hj := openFreeSlotAux_ge s 3 1 j hfs
      omega

/-- Closed instance of the amended C4 statement: opening `"f"` right
after creating it hands out handle 1, not 0. -/
theorem C4_amended_witness : (1 : Int) ≠ 0 :=
  C4_amended.2 sCreate "f" 1 SZero (by decide)

theorem dirFindAux_entries (name : String) :
    ∀ (l : List DirCell) (i : Nat),
      (∀ c ∈ l, ∃ nm idx, c = DirCell.entry nm idx) →
      dirFindAux name l i ≠ none := by
  intro l
  induction l with
  | nil =>
    intro i _ h
    simp [dirFindAux] at h
  | cons c rest ih =>
    intro i hent h
    obtain ⟨nm, idx, rfl⟩ := hent c (by simp)
    simp only [dirFindAux] at h
    by_cases he : nm = name
    · rw [if_pos he] at h
      cases h
    · rw [if_neg he] at h
      exact ih (i + 1) (fun c hc => hent c (by simp [hc])) h

/-- C10 (amended): in a state whose directory block is intact (64
name/index entries), `create("")` always returns -1 and leaves the
state unchanged: if any free slot exists its empty name already matches
the existence scan, and otherwise the free-slot scan itself fails.  The
intactness hypothesis cannot be dropped: a reachable state with a raw
int in the directory block makes `create("")` fault instead. -/
theorem C10_create_empty_errors (s : FS) (l : List DirCell)
    (hdc : s.dirCells = some l)
    (hent : ∀ c ∈ l, ∃ nm idx, c = DirCell.entry nm idx) :
    s.create "" = .ok (-1) s := by
  unfold FS.create
  rw [if_neg (by decide)]
  simp only [FS.dirFind, hdc]
  rcases hda : dirFindAux "" l 0 with _ | or
  · exact absurd hda (dirFindAux_entries "" l 0 hent)
  rcases or with _ | p
  · simp only [hda]
  · simp only [hda]

/-- Closed instance of C10 at the initial state: its directory is the
64 blank entries, and `create("")` returns -1 without touching it. -/
theorem C10_create_empty_errors_witness :
    initFS.create "" = .ok (-1) initFS :=
  C10_create_empty_errors initFS (List.replicate 64 (DirCell.entry "" 0))
    (by decide)
    (fun c hc => ⟨"", 0, List.eq_of_mem_replicate hc⟩)

/-- C10 counterexample: the claim quantifies over every reachable
state, but after `init; write(0, [5], 1)` (the write through the
always-open directory handle faults at the flush, leaving the raw int 5
in the slot-0 buffer) and `close(0)` (which flushes that corrupted
buffer into directory block 7), `create ""` hits the raw directory cell
(`entry[0]` on an int) and faults instead of returning the error
value -1. -/
theorem C10_counterexample :
    Reachable sDirCorrupt ∧
    sDirCorrupt.disk.get? 7 =
      some (.dirBlock (.raw 5 :: List.replicate 63 (.entry "" 0))) ∧
    sDirCorrupt.create "" = .fault sDirCorrupt ∧
    (∀ s', sDirCorrupt.create "" ≠ .ok (-1) s') := by
  refine ⟨?_, by decide, by decide, ?_⟩
  · exact Reachable.close (initFS.write 0 [5] 1).state 0
      (Reachable.write initFS 0 [5] 1 Reachable.init)
  · intro s' hcontra
    have hf : sDirCorrupt.create "" = .fault sDirCorrupt := by decide
    rw [hf] at hcontra
    cases hcontra

theorem read_block_ok (s : FS) (bn : Int) (hlen : s.disk.length = 64)
    (h0 : 0 ≤ bn) (h63 : bn ≤ 63) : ∃ buf, s.read_block bn = some buf := by
  unfold FS.read_block
  rw [if_neg (by omega)]
  unfold pyGet
  rw [if_pos h0]
  have hlt : bn.toNat < s.disk.length := by omega
  exact ⟨_, List.get?_eq_get hlt⟩

theorem oftSet_ok (s : FS) (idx : Int) (e0 e' : Oft) (h0 : 0 ≤ idx)
    (hoe : s.oftGet idx = some e0) : ∃ s1, s.oftSet idx e' = some s1 := by
  unfold FS.oftGet pyGet at hoe
  rw [if_pos h0] at hoe
  have hlt : idx.toNat < s.oft.length := by
    rcases List.get?_eq_some.mp hoe with ⟨hl, _⟩
    exact hl
  unfold FS.oftSet pySet
  rw [if_pos h0]
  obtain ⟨o', ho'⟩ := (setAt_some_iff s.oft idx.toNat e').mpr hlt
  exact ⟨_, by rw [ho']; rfl⟩

/-- C9: `seek` returns -1 exactly on an invalid handle (outside
`[0, 3]`), a closed slot, a position outside `[0, length]`, a block
index `pos // 512 ≥ 3`, or an unallocated (0) block slot of a
structurally sound descriptor; otherwise it reloads the target block
into the buffer, sets the cursor to `pos` and returns `pos`, leaving
the disk (descriptor length and bitmap included) untouched. -/
theorem C9_seek_spec (s : FS) (idx pos : Int) :
    ((idx < 0 ∨ idx > 3) → s.seek idx pos = .ok (-1) s) ∧
    (∀ (e : Oft) (L b1 b2 b3 : Int),
      0 ≤ idx → idx ≤ 3 →
      s.oftGet idx = some e →
      DOk s e.descriptor_index [L, b1, b2, b3] →
      bOk b1 → bOk b2 → bOk b3 →
      (e.current_pos = -1 → s.seek idx pos = .ok (-1) s) ∧
      (¬e.current_pos = -1 →
        ((pos < 0 ∨ pos > L) → s.seek idx pos = .ok (-1) s) ∧
        (0 ≤ pos → pos ≤ L → 3 ≤ pos.fdiv 512 → s.seek idx pos = .ok (-1) s) ∧
        (∀ bn, 0 ≤ pos → pos ≤ L → pos.fdiv 512 < 3 →
          pyGet [L, b1, b2, b3] (1 + pos.fdiv 512) = some bn →
          (bn = 0 → s.seek idx pos = .ok (-1) s) ∧
          (bn ≠ 0 → ∃ buf s1, s.read_block bn = some buf ∧
            s.seek idx pos = .ok pos s1 ∧
            s1.oftGet idx = some { e with buffer := buf, current_pos := pos } ∧
            s1.disk = s.disk)))) := by
  refine ⟨?_, ?_⟩
  · intro hbad
    unfold FS.seek
    rw [if_pos hbad]
  intro e L b1 b2 b3 hidx hidx3 hoe hD hb1 hb2 hb3
  have hf0 : (DescCell.d [L, b1, b2, b3]).field 0 = some L := rfl
  have hir : ¬(idx < 0 ∨ idx > 3) := by omega
  constructor
  · intro hcl
    unfold FS.seek
    rw [if_neg hir]
    simp only [hoe]
    rw [if_pos hcl]
  · intro hop
    refine ⟨?_, ?_, ?_⟩
    · intro hbad
      unfold FS.seek
      rw [if_neg hir]
      simp only [hoe, hD.2.2.2, hf0]
      rw [if_neg hop, if_pos hbad]
    · intro hp0 hpL h3
      unfold FS.seek
      rw [if_neg hir]
      simp only [hoe, hD.2.2.2, hf0]
      rw [if_neg hop, if_neg (by omega : ¬(pos < 0 ∨ pos > L)),
        if_neg (by omega : ¬pos.fdiv 512 < 3)]
    · intro bn hp0 hpL h3 hbn
      have hfb : (DescCell.d [L, b1, b2, b3]).field (1 + pos.fdiv 512) = some bn := hbn
      constructor
      · intro hbz
        unfold FS.seek
        rw [if_neg hir]
        simp only [hoe, hD.2.2.2, hf0]
        rw [if_neg hop, if_neg (by omega : ¬(pos < 0 ∨ pos > L)), if_pos h3]
        simp only [hfb]
        rw [if_neg (by simp [hbz])]
      · intro hbnz
        have hbrange : 7 ≤ bn ∧ bn ≤ 63 := by
          have hsel : bn = b1 ∨ bn = b2 ∨ bn = b3 := by
            have h012 : pos.fdiv 512 = 0 ∨ pos.fdiv 512 = 1 ∨ pos.fdiv 512 = 2 := by
              have := Int.fdiv_nonneg hp0 (by omega : (0:Int) ≤ 512)
              omega
            rcases h012 with hc | hc | hc <;> rw [hc] at hbn <;>
              cases hbn
            · exact Or.inl rfl
            · exact Or.inr (Or.inl rfl)
            · exact Or.inr (Or.inr rfl)
          rcases hsel with rfl | rfl | rfl
          · rcases hb1 with h | h
            · exact absurd h hbnz
            · exact h
          · rcases hb2 with h | h
            · exact absurd h hbnz
            · exact h
          · rcases hb3 with h | h
            · exact absurd h hbnz
            · exact h
        obtain ⟨buf, hrb⟩ := read_block_ok s bn hD.1 (by omega) (by omega)
        obtain ⟨s1, hos⟩ := oftSet_ok s idx e
          { e with buffer := buf, current_pos := pos } hidx hoe
        obtain ⟨hd1, hog1⟩ := oftSet_spec s idx _ s1 hos hidx
        refine ⟨buf, s1, hrb, ?_, hog1, hd1⟩
        unfold FS.seek
        rw [if_neg hir]
        simp only [hoe, hD.2.2.2, hf0]
        rw [if_neg hop, if_neg (by omega : ¬(pos < 0 ∨ pos > L)), if_pos h3]
        simp only [hfb]
        rw [if_pos (by simp [hbnz])]
        simp only [hrb, hos]

/-- Closed instance of C9 at the freshly opened file: the out-of-range
handle 9 is rejected with -1, and seeking handle 1 to position 0
succeeds, reloading block 8 and leaving the disk untouched. -/
theorem C9_seek_spec_witness :
    SZero.seek 9 0 = .ok (-1) SZero ∧
    (∃ buf s1, SZero.read_block 8 = some buf ∧
      SZero.seek 1 0 = .ok 0 s1 ∧
      s1.oftGet 1 = some { buffer := buf, current_pos := 0, file_size := 0, descriptor_index := 1 } ∧
      s1.disk = SZero.disk) := by
  constructor
  · exact (C9_seek_spec SZero 9 0).1 (by decide)
  · have h := (C9_seek_spec SZero 1 0).2 ⟨.ints (List.replicate 512 0), 0, 0, 1⟩ 0 8 0 0
      (by decide) (by decide) (by decide)
      ⟨by decide, by decide, by decide, by decide⟩
      (Or.inr ⟨by decide, by decide⟩) (Or.inl rfl) (Or.inl rfl)
    exact ((h.2 (by decide)).2.2 8 (by decide) (by decide) (by decide)
      (by decide)).2 (by decide)

theorem invC8_congr (s s' : FS) (h : s'.oft = s.oft) (hI : InvC8 s) : InvC8 s' := by
  refine ⟨?_, ?_, ?_⟩
  · intro i j ei ej hne hi hj
    rw [h] at hi hj
    exact hI.1 i j ei ej hne hi hj
  · intro i e hi
    rw [h] at hi
    exact hI.2.1 i e hi
  · rw [h]
    exact hI.2.2

theorem invC8_set (s s' : FS) (idx : Int) (e' : Oft) (h0 : 0 ≤ idx)
    (hset : s.oftSet idx e' = some s')
    (hI : InvC8 s)
    (hcase :
      e'.current_pos = -1 ∨
      (0 ≤ e'.current_pos ∧
        ((∃ e, s.oftGet idx = some e ∧ 0 ≤ e.current_pos ∧
           e'.descriptor_index = e.descriptor_index) ∨
         (∀ (j : Nat) (ej : Oft), s.oft.get? j = some ej →
           ej.current_pos ≠ -1 → ej.descriptor_index ≠ e'.descriptor_index)))) :
    InvC8 s' := by
  unfold FS.oftSet pySet at hset
  rw [if_pos h0, Option.map_eq_some'] at hset
  obtain ⟨o', ho', rfl⟩ := hset
  have hsame : o'.get? idx.toNat = some e' := setAt_get_same s.oft idx.toNat e' o' ho'
  have hother : ∀ (k : Nat), k ≠ idx.toNat → o'.get? k = s.oft.get? k :=
    fun k hk => setAt_get_other s.oft idx.toNat e' o' k ho' hk
  have hgetold : s.oftGet idx = s.oft.get? idx.toNat := by
    unfold FS.oftGet pyGet
    rw [if_pos h0]
  refine ⟨?_, ?_, ?_⟩
  · intro i j ei ej hne hi hj hoi hoj
    simp only [] at hi hj
    by_cases hii : i = idx.toNat
    · subst hii
      rw [hsame] at hi
      cases hi
      have hj' : s.oft.get? j = some ej := by rw [← hother j (by omega)]; exact hj
      rcases hcase with hcl | ⟨hnn, hx⟩
      · exact absurd hcl hoi
      rcases hx with ⟨e, hoe, hecp, hdesc⟩ | hfresh
      · rw [hgetold] at hoe
        rw [hdesc]
        exact hI.1 idx.toNat j e ej hne hoe hj' (by omega) hoj
      · exact (hfresh j ej hj' hoj).symm
    · by_cases hjj : j = idx.toNat
      · subst hjj
        rw [hsame] at hj
        cases hj
        have hi' : s.oft.get? i = some ei := by rw [← hother i hii]; exact hi
        rcases hcase with hcl | ⟨hnn, hx⟩
        · exact absurd hcl hoj
        rcases hx with ⟨e, hoe, hecp, hdesc⟩ | hfresh
        · rw [hgetold] at hoe
          rw [hdesc]
          exact hI.1 i idx.toNat ei e hne hi' hoe hoi (by omega)
        · exact hfresh i ei hi' hoi
      · rw [hother i hii] at hi
        rw [hother j hjj] at hj
        exact hI.1 i j ei ej hne hi hj hoi hoj
  · intro i e hi
    simp only [] at hi
    by_cases hii : i = idx.toNat
    · subst hii
      rw [hsame] at hi
      cases hi
      rcases hcase with hcl | ⟨hnn, _⟩
      · exact Or.inl hcl
      · exact Or.inr hnn
    · rw [hother i hii] at hi
      exact hI.2.1 i e hi
  · simp only []
    rw [setAt_length s.oft idx.toNat e' o' ho']
    exact hI.2.2

theorem diskSet_oft (s : FS) (i : Int) (b : Blk) (s' : FS)
    (h : s.diskSet i b = some s') : s'.oft = s.oft := by
  unfold FS.diskSet at h
  rw [Option.map_eq_some'] at h
  obtain ⟨d, _, rfl⟩ := h
  rfl

theorem write_block_oft (s : FS) (i : Int) (data : Blk) (s' : FS)
    (h : s.write_block i data = some s') : s'.oft = s.oft := by
  unfold FS.write_block at h
  by_cases h1 : i < 0 ∨ i > 63
  · rw [if_pos h1] at h; cases h
  rw [if_neg h1] at h
  by_cases h2 : data.len ≠ 512
  · rw [if_pos h2] at h; cases h
  rw [if_neg h2, Option.map_eq_some'] at h
  obtain ⟨d, _, rfl⟩ := h
  rfl

theorem bitmapSet_oft (s : FS) (i v : Int) (s' : FS)
    (h : s.bitmapSet i v = some s') : s'.oft = s.oft := by
  unfold FS.bitmapSet at h
  rcases hpg : pyGet s.disk 0 with _ | b
  · rw [hpg] at h; cases h
  rcases b with l | cells | cells
  · simp only [hpg] at h
    rw [Option.bind_eq_some] at h
    obtain ⟨l', _, hds⟩ := h
    exact diskSet_oft s 0 _ s' hds
  · rw [hpg] at h; cases h
  · rw [hpg] at h; cases h

theorem setDescCell_oft (s : FS) (di : Int) (c : DescCell) (s' : FS)
    (h : s.setDescCell di c = some s') : s'.oft = s.oft := by
  unfold FS.setDescCell at h
  rcases hpi : pyIdx 6 (di.fdiv 32) with _ | j
  · rw [hpi] at h; cases h
  simp only [hpi] at h
  rcases hpg : pyGet s.disk (j + 1 : Nat) with _ | b
  · rw [hpg] at h; cases h
  rcases b with l | cells | cells
  · rw [hpg] at h; cases h
  · simp only [hpg] at h
    rw [Option.bind_eq_some] at h
    obtain ⟨cells', _, hds⟩ := h
    exact diskSet_oft s _ _ s' hds
  · rw [hpg] at h; cases h

theorem setDescField_oft (s : FS) (di k v : Int) (s' : FS)
    (h : s.setDescField di k v = some s') : s'.oft = s.oft := by
  unfold FS.setDescField at h
  rcases hgc : s.getDescCell di with _ | c
  · rw [hgc] at h; cases h
  rcases c with fields | r
  · simp only [hgc] at h
    rw [Option.bind_eq_some] at h
    obtain ⟨fields', _, hsc⟩ := h
    exact setDescCell_oft s di _ s' hsc
  · rw [hgc] at h; cases h

theorem dirSet_oft (s : FS) (i : Int) (c : DirCell) (s' : FS)
    (h : s.dirSet i c = some s') : s'.oft = s.oft := by
  unfold FS.dirSet at h
  rcases hdc : s.dirCells with _ | l
  · rw [hdc] at h; cases h
  simp only [hdc] at h
  rw [Option.bind_eq_some] at h
  obtain ⟨l', _, hds⟩ := h
  exact diskSet_oft s 7 _ s' hds

theorem createFindBlock_oft (s : FS) : ∀ (n i : Nat) (bn : Int) (s1 : FS),
    createFindBlock s n i = some (some (bn, s1)) → s1.oft = s.oft := by
  intro n
  induction n with
  | zero =>
    intro i bn s1 h
    simp [createFindBlock] at h
  | succ n ih =>
    intro i bn s1 h
    simp only [createFindBlock] at h
    rcases hbg : s.bitmapGet i with _ | v
    · rw [hbg] at h; cases h
    simp only [hbg] at h
    by_cases hv : v = 0
    · rw [if_pos hv, Option.map_eq_some'] at h
      obtain ⟨sB, hsB, hinj⟩ := h
      cases hinj
      exact bitmapSet_oft s i 1 s1 hsB
    · rw [if_neg hv] at h
      exact ih (i + 1) bn s1 h

theorem freeBlocksAux_state_oft : ∀ (l : List Int) (s : FS),
    (freeBlocksAux s l).state.oft = s.oft := by
  intro l
  induction l with
  | nil => intro s; rfl
  | cons bn rest ih =>
    intro s
    simp only [freeBlocksAux]
    by_cases hbn : bn ≠ 0
    · rw [if_pos hbn]
      rcases hbs : s.bitmapSet bn 0 with _ | s1
      · rfl
      · rw [ih s1, bitmapSet_oft s bn 0 s1 hbs]
    · rw [if_neg hbn]
      exact ih s

theorem listDirAux_state (s : FS) : ∀ (l : List DirCell) (acc : List (String × Int)),
    (listDirAux s l acc).state = s := by
  intro l
  induction l with
  | nil => intro acc; rfl
  | cons c rest ih =>
    intro acc
    rcases c with ⟨nm, idx⟩ | v
    · simp only [listDirAux]
      by_cases hnm : nm ≠ ""
      · rw [if_pos hnm]
        rcases hgc : s.getDescCell idx with _ | cell
        · rfl
        simp only [hgc]
        rcases hf0 : cell.field 0 with _ | len0
        · rfl
        simp only [hf0]
        exact ih _
      · rw [if_neg hnm]
        exact ih _
    · rfl

theorem oftGet_get? (s : FS) (i : Int) (e : Oft) (h0 : 0 ≤ i)
    (h : s.oftGet i = some e) : s.oft.get? i.toNat = some e := by
  unfold FS.oftGet pyGet at h
  rw [if_pos h0] at h
  exact h

theorem create_state_oft (s : FS) (name : String) :
    (s.create name).state.oft = s.oft := by
  unfold FS.create
  by_cases hl : name.length > 3
  · rw [if_pos hl]
    rfl
  rw [if_neg hl]
  rcases hdf : s.dirFind name with _ | (_ | p) <;> try rfl
  simp only []
  rcases hdf2 : s.dirFind "" with _ | (_ | ⟨dirIndex, z⟩) <;> try rfl
  simp only []
  rcases hfd : findFreeDescAux s 192 0 with _ | (_ | descIndex) <;> try rfl
  simp only []
  rcases hcf : createFindBlock s 56 8 with _ | (_ | ⟨blockNum, s1⟩) <;> try rfl
  simp only []
  have h1 : s1.oft = s.oft := createFindBlock_oft s 56 8 blockNum s1 hcf
  rcases hsc : s1.setDescCell descIndex (.d [0, blockNum, 0, 0]) with _ | s2
  · exact h1
  simp only []
  have h2 : s2.oft = s1.oft := setDescCell_oft s1 _ _ s2 hsc
  rcases hds : s2.dirSet dirIndex (.entry name descIndex) with _ | s3
  · exact h2.trans h1
  exact (dirSet_oft s2 _ _ s3 hds).trans (h2.trans h1)

theorem destroy_state_oft (s : FS) (name : String) :
    (s.destroy name).state.oft = s.oft := by
  unfold FS.destroy
  rcases hdf : s.dirFind name with _ | (_ | ⟨dirIndex, descIndex⟩) <;> try rfl
  simp only []
  rcases hgc : s.getDescCell descIndex with _ | (fields | r) <;> try rfl
  simp only []
  rcases hfb : freeBlocksAux s ((fields.drop 1).take 3) with ⟨v, s1⟩ | s1
  · simp only []
    have h1 : s1.oft = s.oft := by
      have hh := freeBlocksAux_state_oft ((fields.drop 1).take 3) s
      rw [hfb] at hh
      exact hh
    rcases hsc : s1.setDescCell descIndex (.d [-1, 0, 0, 0]) with _ | s2
    · exact h1
    simp only []
    have h2 : s2.oft = s1.oft := setDescCell_oft s1 _ _ s2 hsc
    rcases hds : s2.dirSet dirIndex (.entry "" 0) with _ | s3
    · exact h2.trans h1
    exact (dirSet_oft s2 _ _ s3 hds).trans (h2.trans h1)
  · have hh := freeBlocksAux_state_oft ((fields.drop 1).take 3) s
    rw [hfb] at hh
    exact hh

theorem list_state (s : FS) : s.list_directory.state = s := by
  unfold FS.list_directory
  rcases hdc : s.dirCells with _ | l
  · rfl
  · exact listDirAux_state s l []

theorem openCheckAux_false (s : FS) (d : Int) :
    ∀ (n i : Nat), openCheckAux s d n i = some false →
      ∀ (j : Nat), i ≤ j → j < i + n → ∀ (ej : Oft), s.oft.get? j = some ej →
        ej.current_pos ≠ -1 → ej.descriptor_index ≠ d := by
  intro n
  induction n with
  | zero =>
    intro i h j hij hjn
    omega
  | succ n ih =>
    intro i h j hij hjn ej hj hopen
    simp only [openCheckAux] at h
    rcases hg : s.oftGet (↑i : Int) with _ | e
    · rw [hg] at h; cases h
    simp only [hg] at h
    by_cases hcond : e.descriptor_index = d ∧ e.current_pos ≠ -1
    · rw [if_pos hcond] at h
      cases h
    rw [if_neg hcond] at h
    by_cases hji : j = i
    · subst hji
      have hj' : s.oft.get? j = some e := by
        unfold FS.oftGet pyGet at hg
        rw [if_pos (by omega)] at hg
        exact hg
      rw [hj'] at hj
      cases hj
      intro hd
      exact hcond ⟨hd, hopen⟩
    · exact ih (i + 1) h j (by omega) (by omega) ej hj hopen

theorem create_inv (s : FS) (name : String) (hI : InvC8 s) :
    InvC8 (s.create name).state :=
  invC8_congr s _ (create_state_oft s name) hI

theorem destroy_inv (s : FS) (name : String) (hI : InvC8 s) :
    InvC8 (s.destroy name).state :=
  invC8_congr s _ (destroy_state_oft s name) hI

theorem list_inv (s : FS) (hI : InvC8 s) : InvC8 s.list_directory.state := by
  rw [list_state]
  exact hI

theorem close_inv (s : FS) (i : Int) (hI : InvC8 s) : InvC8 (s.close i).state := by
  unfold FS.close
  by_cases hir : i < 0 ∨ i > 3
  · rw [if_pos hir]
    exact hI
  rw [if_neg hir]
  rcases hoe : s.oftGet i with _ | e
  · exact hI
  simp only []
  by_cases hcp : e.current_pos = -1
  · rw [if_pos hcp]
    exact hI
  rw [if_neg hcp]
  rcases hgc : s.getDescCell e.descriptor_index with _ | cell
  · exact hI
  simp only []
  rcases hcf : cell.field (if e.current_pos.fdiv 512 = 0 then 1
      else 1 + e.current_pos.fdiv 512) with _ | cb
  · exact hI
  simp only []
  rcases hds : (if cb ≠ 0 then s.diskSet cb e.buffer else some s) with _ | s1
  · exact hI
  simp only []
  have h1 : s1.oft = s.oft := by
    by_cases hcb : cb ≠ 0
    · rw [if_pos hcb] at hds
      exact diskSet_oft s cb e.buffer s1 hds
    · rw [if_neg hcb] at hds
      cases hds
      rfl
  rcases hos : s1.oftSet i closedOft with _ | s2
  · exact invC8_congr s s1 h1 hI
  simp only []
  exact invC8_set s1 s2 i closedOft (by omega) hos
    (invC8_congr s s1 h1 hI) (Or.inl rfl)

theorem open_inv (s : FS) (name : String) (hI : InvC8 s) :
    InvC8 (s.open_ name).state := by
  unfold FS.open_
  rcases hdf : s.dirFind name with _ | (_ | ⟨nm, di⟩) <;> try exact hI
  simp only []
  by_cases hdi : di = -1
  · rw [if_pos hdi]
    exact hI
  rw [if_neg hdi]
  rcases hoc : openCheckAux s di 4 0 with _ | b
  · exact hI
  cases b with
  | true => exact hI
  | false =>
    rcases hfs : openFreeSlotAux s 3 1 with _ | (_ | j) <;> try exact hI
    simp only []
    rcases hgc : s.getDescCell di with _ | cell
    · exact hI
    simp only []
    rcases hf1 : cell.field 1 with _ | b1
    · exact hI
    simp only []
    rcases hrb : s.read_block b1 with _ | buf
    · exact hI
    simp only []
    rcases hf0 : cell.field 0 with _ | len0
    · exact hI
    simp only []
    rcases hos : s.oftSet (↑j : Int) { buffer := buf, current_pos := 0, file_size := len0, descriptor_index := di } with _ | s1
    · exact hI
    simp only []
    refine invC8_set s s1 (↑j) _ (by omega) hos hI
      (Or.inr ⟨show (0 : Int) ≤ 0 from le_refl 0, Or.inr ?_⟩)
    intro k ek hk hopen
    have hk4 : k < 4 := by
      rcases List.get?_eq_some.mp hk with ⟨hlt, _⟩
      rw [hI.2.2] at hlt
      exact hlt
    exact openCheckAux_false s di 4 0 hoc k (by omega) (by omega) ek hk hopen

theorem seek_inv (s : FS) (i pos : Int) (hI : InvC8 s) :
    InvC8 (s.seek i pos).state := by
  unfold FS.seek
  by_cases hir : i < 0 ∨ i > 3
  · rw [if_pos hir]
    exact hI
  rw [if_neg hir]
  rcases hoe : s.oftGet i with _ | e
  · exact hI
  simp only []
  by_cases hcp : e.current_pos = -1
  · rw [if_pos hcp]
    exact hI
  rw [if_neg hcp]
  rcases hgc : s.getDescCell e.descriptor_index with _ | cell
  · exact hI
  simp only []
  rcases hf0 : cell.field 0 with _ | flen
  · exact hI
  simp only []
  by_cases hpr : pos < 0 ∨ pos > flen
  · rw [if_pos hpr]
    exact hI
  rw [if_neg hpr]
  by_cases h3 : pos.fdiv 512 < 3
  · rw [if_pos h3]
    rcases hfb : cell.field (1 + pos.fdiv 512) with _ | bn
    · exact hI
    simp only []
    by_cases hbn : bn ≠ 0
    · rw [if_pos hbn]
      rcases hrb : s.read_block bn with _ | buf
      · exact hI
      simp only []
      rcases hos : s.oftSet i { e with buffer := buf, current_pos := pos } with _ | s1
      · exact hI
      simp only []
      refine invC8_set s s1 i _ (by omega) hos hI
        (Or.inr ⟨show (0 : Int) ≤ pos by omega, Or.inl ⟨e, hoe, ?_, rfl⟩⟩)
      rcases hI.2.1 i.toNat e (oftGet_get? s i e (by omega) hoe) with h | h
      · exact absurd h hcp
      · exact h
    · rw [if_neg hbn]
      exact hI
  · rw [if_neg h3]
    exact hI

theorem readLoop_inv (idx : Int) (cell : DescCell) (count : Int) (hidx : 0 ≤ idx) :
    ∀ (fuel : Nat) (s : FS) (mem : List Int) (br : Int),
      InvC8 s → (∀ e0, s.oftGet idx = some e0 → 0 ≤ e0.current_pos) →
      InvC8 (readLoopAux idx cell count fuel s mem br).state := by
  intro fuel
  induction fuel with
  | zero =>
    intro s mem br hI hpos
    exact hI
  | succ fuel ih =>
    intro s mem br hI hpos
    simp only [readLoopAux]
    rcases hoe : s.oftGet idx with _ | e
    · exact hI
    simp only []
    rcases hf0 : cell.field 0 with _ | flen
    · exact hI
    simp only []
    by_cases hge : e.current_pos ≥ flen
    · rw [if_pos hge]
      exact hI
    rw [if_neg hge]
    by_cases hmid : e.current_pos.fdiv 512 > 0 ∧ br = 0
    · rw [if_pos hmid]
      rcases hfbm : cell.field (1 + e.current_pos.fdiv 512) with _ | bnm
      · exact hI
      simp only []
      by_cases hbnm : bnm ≠ 0
      · rw [if_pos hbnm]
        rcases hrbm : s.read_block bnm with _ | buf
        · exact hI
        simp only []
        rcases hos1 : s.oftSet idx { e with buffer := buf } with _ | sA
        · exact hI
        simp only [Option.map_some']
        have hIA : InvC8 sA := invC8_set s sA idx { e with buffer := buf } hidx hos1 hI
          (Or.inr ⟨show (0 : Int) ≤ e.current_pos from hpos e hoe,
            Or.inl ⟨e, hoe, hpos e hoe, rfl⟩⟩)
        have hogA : sA.oftGet idx = some { e with buffer := buf } :=
          (oftSet_spec s idx { e with buffer := buf } sA hos1 hidx).2
        rcases hbuf : buf with bl | cs1 | cs2
        · simp only []
          rw [hbuf] at hogA
          rcases hpg : pyGet bl (e.current_pos.emod 512) with _ | v
          · exact hIA
          simp only []
          rcases hps : pySet mem br v with _ | mem1
          · exact hIA
          simp only []
          rcases hos2 : sA.oftSet idx { e with buffer := .ints bl, current_pos := e.current_pos + 1 } with _ | s2
          · exact hIA
          simp only []
          have hI2 : InvC8 s2 := invC8_set sA s2 idx { e with buffer := .ints bl, current_pos := e.current_pos + 1 } hidx hos2 hIA
            (Or.inr ⟨show (0 : Int) ≤ e.current_pos + 1 from by have := hpos e hoe; omega,
              Or.inl ⟨{ e with buffer := .ints bl }, hogA, show (0 : Int) ≤ e.current_pos from hpos e hoe, rfl⟩⟩)
          have hog2 : s2.oftGet idx = some { e with buffer := .ints bl, current_pos := e.current_pos + 1 } := (oftSet_spec sA idx { e with buffer := .ints bl, current_pos := e.current_pos + 1 } s2 hos2 hidx).2
          by_cases hnb : (e.current_pos + 1).emod 512 = 0 ∧ br + 1 < count
          · rw [if_pos hnb]
            by_cases h3 : (e.current_pos + 1).fdiv 512 < 3
            · rw [if_pos h3]
              rcases hfb : cell.field (1 + (e.current_pos + 1).fdiv 512) with _ | bn
              · exact hI2
              simp only []
              by_cases hbn : bn ≠ 0
              · rw [if_pos hbn]
                rcases hrb : s2.read_block bn with _ | buf2
                · exact hI2
                simp only []
                rcases hos3 : s2.oftSet idx { e with buffer := buf2, current_pos := e.current_pos + 1 } with _ | s3
                · exact hI2
                simp only []
                have hI3 : InvC8 s3 := invC8_set s2 s3 idx { e with buffer := buf2, current_pos := e.current_pos + 1 } hidx hos3 hI2
                  (Or.inr ⟨show (0 : Int) ≤ e.current_pos + 1 from by have := hpos e hoe; omega,
                    Or.inl ⟨{ e with buffer := .ints bl, current_pos := e.current_pos + 1 }, hog2,
                      show (0 : Int) ≤ e.current_pos + 1 from by have := hpos e hoe; omega, rfl⟩⟩)
                refine ih s3 mem1 (br + 1) hI3 ?_
                intro e0 he0
                rw [(oftSet_spec s2 idx { e with buffer := buf2, current_pos := e.current_pos + 1 } s3 hos3 hidx).2] at he0
                cases he0
                show (0 : Int) ≤ e.current_pos + 1
                have := hpos e hoe
                omega
              · rw [if_neg hbn]
                exact hI2
            · rw [if_neg h3]
              exact hI2
          · rw [if_neg hnb]
            refine ih s2 mem1 (br + 1) hI2 ?_
            intro e0 he0
            rw [hog2] at he0
            cases he0
            show (0 : Int) ≤ e.current_pos + 1
            have := hpos e hoe
            omega
        · exact hIA
        · exact hIA
      · rw [if_neg hbnm]
        simp only []
        rcases hbuf : e.buffer with bl | cs1 | cs2
        · simp only []
          rcases hpg : pyGet bl (e.current_pos.emod 512) with _ | v
          · exact hI
          simp only []
          rcases hps : pySet mem br v with _ | mem1
          · exact hI
          simp only []
          rcases hos2 : s.oftSet idx { e with buffer := .ints bl, current_pos := e.current_pos + 1 } with _ | s2
          · exact hI
          simp only []
          have hI2 : InvC8 s2 := invC8_set s s2 idx { e with buffer := .ints bl, current_pos := e.current_pos + 1 } hidx hos2 hI
            (Or.inr ⟨show (0 : Int) ≤ e.current_pos + 1 from by have := hpos e hoe; omega,
              Or.inl ⟨e, hoe, show (0 : Int) ≤ e.current_pos from hpos e hoe, rfl⟩⟩)
          have hog2 : s2.oftGet idx = some { e with buffer := .ints bl, current_pos := e.current_pos + 1 } := (oftSet_spec s idx { e with buffer := .ints bl, current_pos := e.current_pos + 1 } s2 hos2 hidx).2
          by_cases hnb : (e.current_pos + 1).emod 512 = 0 ∧ br + 1 < count
          · rw [if_pos hnb]
            by_cases h3 : (e.current_pos + 1).fdiv 512 < 3
            · rw [if_pos h3]
              rcases hfb : cell.field (1 + (e.current_pos + 1).fdiv 512) with _ | bn
              · exact hI2
              simp only []
              by_cases hbn : bn ≠ 0
              · rw [if_pos hbn]
                rcases hrb : s2.read_block bn with _ | buf2
                · exact hI2
                simp only []
                rcases hos3 : s2.oftSet idx { e with buffer := buf2, current_pos := e.current_pos + 1 } with _ | s3
                · exact hI2
                simp only []
                have hI3 : InvC8 s3 := invC8_set s2 s3 idx { e with buffer := buf2, current_pos := e.current_pos + 1 } hidx hos3 hI2
                  (Or.inr ⟨show (0 : Int) ≤ e.current_pos + 1 from by have := hpos e hoe; omega,
                    Or.inl ⟨{ e with buffer := .ints bl, current_pos := e.current_pos + 1 }, hog2,
                      show (0 : Int) ≤ e.current_pos + 1 from by have := hpos e hoe; omega, rfl⟩⟩)
                refine ih s3 mem1 (br + 1) hI3 ?_
                intro e0 he0
                rw [(oftSet_spec s2 idx { e with buffer := buf2, current_pos := e.current_pos + 1 } s3 hos3 hidx).2] at he0
                cases he0
                show (0 : Int) ≤ e.current_pos + 1
                have := hpos e hoe
                omega
              · rw [if_neg hbn]
                exact hI2
            · rw [if_neg h3]
              exact hI2
          · rw [if_neg hnb]
            refine ih s2 mem1 (br + 1) hI2 ?_
            intro e0 he0
            rw [hog2] at he0
            cases he0
            show (0 : Int) ≤ e.current_pos + 1
            have := hpos e hoe
            omega
        · exact hI
        · exact hI
    · rw [if_neg hmid]
      simp only []
      rcases hbuf : e.buffer with bl | cs1 | cs2
      · simp only []
        rcases hpg : pyGet bl (e.current_pos.emod 512) with _ | v
        · exact hI
        simp only []
        rcases hps : pySet mem br v with _ | mem1
        · exact hI
        simp only []
        rcases hos2 : s.oftSet idx { e with buffer := .ints bl, current_pos := e.current_pos + 1 } with _ | s2
        · exact hI
        simp only []
        have hI2 : InvC8 s2 := invC8_set s s2 idx { e with buffer := .ints bl, current_pos := e.current_pos + 1 } hidx hos2 hI
          (Or.inr ⟨show (0 : Int) ≤ e.current_pos + 1 from by have := hpos e hoe; omega,
            Or.inl ⟨e, hoe, show (0 : Int) ≤ e.current_pos from hpos e hoe, rfl⟩⟩)
        have hog2 : s2.oftGet idx = some { e with buffer := .ints bl, current_pos := e.current_pos + 1 } := (oftSet_spec s idx { e with buffer := .ints bl, current_pos := e.current_pos + 1 } s2 hos2 hidx).2
        by_cases hnb : (e.current_pos + 1).emod 512 = 0 ∧ br + 1 < count
        · rw [if_pos hnb]
          by_cases h3 : (e.current_pos + 1).fdiv 512 < 3
          · rw [if_pos h3]
            rcases hfb : cell.field (1 + (e.current_pos + 1).fdiv 512) with _ | bn
            · exact hI2
            simp only []
            by_cases hbn : bn ≠ 0
            · rw [if_pos hbn]
              rcases hrb : s2.read_block bn with _ | buf2
              · exact hI2
              simp only []
              rcases hos3 : s2.oftSet idx { e with buffer := buf2, current_pos := e.current_pos + 1 } with _ | s3
              · exact hI2
              simp only []
              have hI3 : InvC8 s3 := invC8_set s2 s3 idx { e with buffer := buf2, current_pos := e.current_pos + 1 } hidx hos3 hI2
                (Or.inr ⟨show (0 : Int) ≤ e.current_pos + 1 from by have := hpos e hoe; omega,
                  Or.inl ⟨{ e with buffer := .ints bl, current_pos := e.current_pos + 1 }, hog2,
                    show (0 : Int) ≤ e.current_pos + 1 from by have := hpos e hoe; omega, rfl⟩⟩)
              refine ih s3 mem1 (br + 1) hI3 ?_
              intro e0 he0
              rw [(oftSet_spec s2 idx { e with buffer := buf2, current_pos := e.current_pos + 1 } s3 hos3 hidx).2] at he0
              cases he0
              show (0 : Int) ≤ e.current_pos + 1
              have := hpos e hoe
              omega
            · rw [if_neg hbn]
              exact hI2
          · rw [if_neg h3]
            exact hI2
        · rw [if_neg hnb]
          refine ih s2 mem1 (br + 1) hI2 ?_
          intro e0 he0
          rw [hog2] at he0
          cases he0
          show (0 : Int) ≤ e.current_pos + 1
          have := hpos e hoe
          omega
      · exact hI
      · exact hI

theorem read_inv (s : FS) (i : Int) (mem : List Int) (count : Int) (hI : InvC8 s) :
    InvC8 (s.read i mem count).state := by
  unfold FS.read
  by_cases hir : i < 0 ∨ i > 3
  · rw [if_pos hir]
    exact hI
  rw [if_neg hir]
  rcases hoe : s.oftGet i with _ | e
  · exact hI
  simp only []
  by_cases hcp : e.current_pos = -1
  · rw [if_pos hcp]
    exact hI
  rw [if_neg hcp]
  rcases hgc : s.getDescCell e.descriptor_index with _ | cell
  · exact hI
  simp only []
  refine readLoop_inv i cell count (by omega) count.toNat s mem 0 hI ?_
  intro e0 he0
  rw [hoe] at he0
  cases he0
  rcases hI.2.1 i.toNat e (oftGet_get? s i e (by omega) hoe) with h | h
  · exact absurd h hcp
  · exact h

theorem writeLoop_inv (idx di : Int) (mem : List Int) (count : Int) (hidx : 0 ≤ idx) :
    ∀ (fuel : Nat) (s : FS) (bw : Int),
      InvC8 s → (∀ e0, s.oftGet idx = some e0 → 0 ≤ e0.current_pos) →
      InvC8 (writeLoopAux idx di mem count fuel s bw).state := by
  intro fuel
  induction fuel with
  | zero =>
    intro s bw hI hpos
    exact hI
  | succ fuel ih =>
    intro s bw hI hpos
    simp only [writeLoopAux]
    rcases hoe : s.oftGet idx with _ | e
    · exact hI
    simp only []
    by_cases h3 : e.current_pos.fdiv 512 ≥ 3
    · rw [if_pos h3]
      exact hI
    rw [if_neg h3]
    by_cases halloc : e.current_pos.emod 512 = 0 ∧ e.current_pos.fdiv 512 > 0
    · rw [if_pos halloc]
      rcases hffb : s.find_free_block with _ | nb
      · exact hI
      simp only []
      by_cases hnb1 : nb = -1
      · rw [if_pos hnb1]
        simp only []
        exact hI
      rw [if_neg hnb1]
      rcases hsdf : s.setDescField di (1 + e.current_pos.fdiv 512) nb with _ | sA
      · exact hI
      simp only []
      rcases hbs : sA.bitmapSet nb 1 with _ | sB
      · exact hI
      simp only []
      rcases hogB : sB.oftGet idx with _ | eB
      · exact hI
      simp only []
      rcases hosB : sB.oftSet idx { eB with buffer := .ints (List.replicate 512 0) } with _ | sC
      · exact hI
      simp only [Option.map_some']
      have hBA : sB.oft = s.oft := by
        rw [bitmapSet_oft sA nb 1 sB hbs,
          setDescField_oft s di (1 + e.current_pos.fdiv 512) nb sA hsdf]
      have heB : eB = e := by
        have hh := hogB
        rw [oftGet_congr s sB idx hBA, hoe] at hh
        exact (Option.some_inj.mp hh).symm
      have hIC : InvC8 sC := invC8_set sB sC idx
          { eB with buffer := .ints (List.replicate 512 0) } hidx hosB
          (invC8_congr s sB hBA hI)
        (Or.inr ⟨show (0 : Int) ≤ eB.current_pos from by rw [heB]; exact hpos e hoe,
          Or.inl ⟨eB, hogB, by rw [heB]; exact hpos e hoe, rfl⟩⟩)
      have hogC : sC.oftGet idx = some { eB with buffer := .ints (List.replicate 512 0) } :=
        (oftSet_spec sB idx _ sC hosB hidx).2
      have hposC : ∀ e0, sC.oftGet idx = some e0 → 0 ≤ e0.current_pos := by
        intro e0 he0
        rw [hogC] at he0
        cases he0
        show (0 : Int) ≤ eB.current_pos
        rw [heB]
        exact hpos e hoe
      rcases hog1 : sC.oftGet idx with _ | e1
      · exact hIC
      simp only []
      rcases hpgv : pyGet mem bw with _ | v
      · exact hIC
      simp only []
      rcases hsb : e1.buffer.setByte (e.current_pos.emod 512) v with _ | buf
      · exact hIC
      simp only []
      rcases hos2 : sC.oftSet idx { e1 with buffer := buf, current_pos := e1.current_pos + 1 } with _ | s2
      · exact hIC
      simp only []
      have he1cp : 0 ≤ e1.current_pos := hposC e1 hog1
      have hI2 : InvC8 s2 := invC8_set sC s2 idx
          { e1 with buffer := buf, current_pos := e1.current_pos + 1 } hidx hos2 hIC
        (Or.inr ⟨show (0 : Int) ≤ e1.current_pos + 1 from by omega,
          Or.inl ⟨e1, hog1, he1cp, rfl⟩⟩)
      have hog2 : s2.oftGet idx =
          some { e1 with buffer := buf, current_pos := e1.current_pos + 1 } :=
        (oftSet_spec sC idx _ s2 hos2 hidx).2
      have hcont : ∀ s3 : FS, s3.oft = s2.oft →
          InvC8 (match s3.getDescField di 0 with
            | none => Res.fault s3
            | some flen =>
              match (if e1.current_pos + 1 > flen then
                       s3.setDescField di 0 (e1.current_pos + 1)
                     else some s3) with
              | none => Res.fault s3
              | some s4 => writeLoopAux idx di mem count fuel s4 (bw + 1)).state := by
        intro s3 h32
        have hI3 : InvC8 s3 := invC8_congr s2 s3 h32 hI2
        have hog3 : s3.oftGet idx =
            some { e1 with buffer := buf, current_pos := e1.current_pos + 1 } := by
          rw [oftGet_congr s2 s3 idx h32]
          exact hog2
        rcases hgf : s3.getDescField di 0 with _ | flen
        · exact hI3
        simp only []
        by_cases hgt : e1.current_pos + 1 > flen
        · rw [if_pos hgt]
          rcases hsl : s3.setDescField di 0 (e1.current_pos + 1) with _ | s4
          · exact hI3
          simp only []
          refine ih s4 (bw + 1) (invC8_congr s3 s4
            (setDescField_oft s3 di 0 (e1.current_pos + 1) s4 hsl) hI3) ?_
          intro e0 he0
          rw [oftGet_congr s3 s4 idx
            (setDescField_oft s3 di 0 (e1.current_pos + 1) s4 hsl), hog3] at he0
          cases he0
          show (0 : Int) ≤ e1.current_pos + 1
          omega
        · rw [if_neg hgt]
          simp only []
          refine ih s3 (bw + 1) hI3 ?_
          intro e0 he0
          rw [hog3] at he0
          cases he0
          show (0 : Int) ≤ e1.current_pos + 1
          omega
      by_cases hflc : e.current_pos.emod 512 = 511 ∨ bw + 1 = count
      · rw [if_pos hflc]
        rcases hgfb : s2.getDescField di (1 + e.current_pos.fdiv 512) with _ | bn
        · exact hI2
        simp only []
        by_cases hbn : bn ≠ 0
        · rw [if_pos hbn]
          rcases hwb : s2.write_block bn buf with _ | sw
          · exact hI2
          simp only []
          exact hcont sw (write_block_oft s2 bn buf sw hwb)
        · rw [if_neg hbn]
          simp only []
          exact hcont s2 rfl
      · rw [if_neg hflc]
        simp only []
        exact hcont s2 rfl
    · rw [if_neg halloc]
      simp only []
      rcases hog1 : s.oftGet idx with _ | e1
      · exact hI
      simp only []
      rcases hpgv : pyGet mem bw with _ | v
      · exact hI
      simp only []
      rcases hsb : e1.buffer.setByte (e.current_pos.emod 512) v with _ | buf
      · exact hI
      simp only []
      rcases hos2 : s.oftSet idx { e1 with buffer := buf, current_pos := e1.current_pos + 1 } with _ | s2
      · exact hI
      simp only []
      have he1cp : 0 ≤ e1.current_pos := hpos e1 hog1
      have hI2 : InvC8 s2 := invC8_set s s2 idx
          { e1 with buffer := buf, current_pos := e1.current_pos + 1 } hidx hos2 hI
        (Or.inr ⟨show (0 : Int) ≤ e1.current_pos + 1 from by omega,
          Or.inl ⟨e1, hog1, he1cp, rfl⟩⟩)
      have hog2 : s2.oftGet idx =
          some { e1 with buffer := buf, current_pos := e1.current_pos + 1 } :=
        (oftSet_spec s idx _ s2 hos2 hidx).2
      have hcont : ∀ s3 : FS, s3.oft = s2.oft →
          InvC8 (match s3.getDescField di 0 with
            | none => Res.fault s3
            | some flen =>
              match (if e1.current_pos + 1 > flen then
                       s3.setDescField di 0 (e1.current_pos + 1)
                     else some s3) with
              | none => Res.fault s3
              | some s4 => writeLoopAux idx di mem count fuel s4 (bw + 1)).state := by
        intro s3 h32
        have hI3 : InvC8 s3 := invC8_congr s2 s3 h32 hI2
        have hog3 : s3.oftGet idx =
            some { e1 with buffer := buf, current_pos := e1.current_pos + 1 } := by
          rw [oftGet_congr s2 s3 idx h32]
          exact hog2
        rcases hgf : s3.getDescField di 0 with _ | flen
        · exact hI3
        simp only []
        by_cases hgt : e1.current_pos + 1 > flen
        · rw [if_pos hgt]
          rcases hsl : s3.setDescField di 0 (e1.current_pos + 1) with _ | s4
          · exact hI3
          simp only []
          refine ih s4 (bw + 1) (invC8_congr s3 s4
            (setDescField_oft s3 di 0 (e1.current_pos + 1) s4 hsl) hI3) ?_
          intro e0 he0
          rw [oftGet_congr s3 s4 idx
            (setDescField_oft s3 di 0 (e1.current_pos + 1) s4 hsl), hog3] at he0
          cases he0
          show (0 : Int) ≤ e1.current_pos + 1
          omega
        · rw [if_neg hgt]
          simp only []
          refine ih s3 (bw + 1) hI3 ?_
          intro e0 he0
          rw [hog3] at he0
          cases he0
          show (0 : Int) ≤ e1.current_pos + 1
          omega
      by_cases hflc : e.current_pos.emod 512 = 511 ∨ bw + 1 = count
      · rw [if_pos hflc]
        rcases hgfb : s2.getDescField di (1 + e.current_pos.fdiv 512) with _ | bn
        · exact hI2
        simp only []
        by_cases hbn : bn ≠ 0
        · rw [if_pos hbn]
          rcases hwb : s2.write_block bn buf with _ | sw
          · exact hI2
          simp only []
          exact hcont sw (write_block_oft s2 bn buf sw hwb)
        · rw [if_neg hbn]
          simp only []
          exact hcont s2 rfl
      · rw [if_neg hflc]
        simp only []
        exact hcont s2 rfl

theorem write_inv (s : FS) (i : Int) (mem : List Int) (count : Int) (hI : InvC8 s) :
    InvC8 (s.write i mem count).state := by
  unfold FS.write
  by_cases hir : i < 0 ∨ i > 3
  · rw [if_pos hir]
    exact hI
  rw [if_neg hir]
  rcases hoe : s.oftGet i with _ | e
  · exact hI
  simp only []
  by_cases hcp : e.current_pos = -1
  · rw [if_pos hcp]
    exact hI
  rw [if_neg hcp]
  rcases hgc : s.getDescCell e.descriptor_index with _ | cell
  · exact hI
  simp only []
  refine writeLoop_inv i e.descriptor_index mem count (by omega) count.toNat s 0 hI ?_
  intro e0 he0
  rw [hoe] at he0
  cases he0
  rcases hI.2.1 i.toNat e (oftGet_get? s i e (by omega) hoe) with h | h
  · exact absurd h hcp
  · exact h

theorem inv_init : InvC8 initFS := by
  have hslot : ∀ (j : Nat) (ej : Oft), initFS.oft.get? j = some ej →
      (j = 0 ∧ ej.current_pos = 0) ∨ ej = closedOft := by
    intro j ej hj
    match j, hj with
    | 0, hj =>
      cases hj
      exact Or.inl ⟨rfl, rfl⟩
    | (n + 1), hj =>
      have hj' : (List.replicate 3 closedOft).get? n = some ej := hj
      exact Or.inr (List.eq_of_mem_replicate (List.get?_mem hj'))
  refine ⟨?_, ?_, by decide⟩
  · intro i j ei ej hne hi hj hoi hoj
    rcases hslot i ei hi with ⟨hi0, _⟩ | hic
    · rcases hslot j ej hj with ⟨hj0, _⟩ | hjc
      · exact absurd (hi0.trans hj0.symm) hne
      · exact absurd (show ej.current_pos = -1 by rw [hjc]; rfl) hoj
    · exact absurd (show ei.current_pos = -1 by rw [hic]; rfl) hoi
  · intro i e0 hi
    rcases hslot i e0 hi with ⟨_, hcp⟩ | hic
    · right
      rw [hcp]
    · left
      rw [hic]
      rfl

theorem reachable_invC8 (s : FS) (h : Reachable s) : InvC8 s := by
  induction h with
  | init => exact inv_init
  | create s name _ ih => exact create_inv s name ih
  | destroy s name _ ih => exact destroy_inv s name ih
  | open_ s name _ ih => exact open_inv s name ih
  | close s i _ ih => exact close_inv s i ih
  | read s i mem count _ ih => exact read_inv s i mem count ih
  | write s i mem count _ ih => exact write_inv s i mem count ih
  | seek s i pos _ ih => exact seek_inv s i pos ih
  | list s _ ih => exact list_inv s ih

/-- C8: in every reachable state, at most one OFT slot is open on any
given descriptor: two distinct slots that are both open (`current_pos ≠
-1`) always carry different descriptor indices — preserved by every
operation, including destroy-then-create descriptor reuse with a stale
open handle. -/
theorem C8_at_most_one_open (s : FS) (h : Reachable s) :
    ∀ (i j : Nat) (ei ej : Oft), i ≠ j →
      s.oft.get? i = some ei → s.oft.get? j = some ej →
      ei.current_pos ≠ -1 → ej.current_pos ≠ -1 →
      ei.descriptor_index ≠ ej.descriptor_index :=
  (reachable_invC8 s h).1

/-- Closed instance of C8 after `init; create "f"; open "f"`: OFT slots
0 (the directory session) and 1 (the fresh file session) are both open,
and they carry different descriptor indices. -/
theorem C8_at_most_one_open_witness :
    Reachable SZero ∧
    SZero.oft.get? 0 = some slot0S ∧
    SZero.oft.get? 1 = some (Oft.mk (.ints (tb 0)) 0 0 1) ∧
    slot0S.descriptor_index ≠ (Oft.mk (.ints (tb 0)) 0 0 1).descriptor_index := by
  have h1 : Reachable sCreate := by
    have h := Reachable.create initFS "f" Reachable.init
    rw [create_eval] at h
    exact h
  have h2 : Reachable SZero := by
    have h := Reachable.open_ sCreate "f" h1
    rw [open_eval] at h
    exact h
  refine ⟨h2, rfl, rfl, ?_⟩
  exact C8_at_most_one_open SZero h2 0 1 slot0S (Oft.mk (.ints (tb 0)) 0 0 1)
    (by decide) rfl rfl (by decide) (by decide)

theorem count_one_set_zero : ∀ (l : List Int) (i : Nat), l.get? i = some 1 →
    (l.set i 0).count 1 + 1 = l.count 1 := by
  intro l
  induction l with
  | nil =>
    intro i h
    simp at h
  | cons x xs ih =>
    intro i h
    cases i with
    | zero =>
      cases h
      simp [List.count_cons]
    | succ n =>
      have h' : xs.get? n = some 1 := h
      simp only [List.set_cons_succ, List.count_cons]
      have := ih n h'
      omega

theorem ones_prefix_bound : ∀ (bm : List Int) (n : Nat),
    (∀ k : Nat, k < n → bm.get? k = some 1) → n ≤ bm.count 1 := by
  intro bm
  induction bm with
  | nil =>
    intro n h
    cases n with
    | zero => exact le_refl 0
    | succ m => cases h 0 (by omega)
  | cons x xs ih =>
    intro n h
    cases n with
    | zero => exact Nat.zero_le _
    | succ m =>
      have hx : x = 1 := by
        have hh := h 0 (by omega)
        cases hh
        rfl
      subst hx
      have hm := ih m (fun k hk => h (k + 1) (by omega))
      simp [List.count_cons]
      omega

theorem refs_count_bound : ∀ (refs : List Int) (bm : List Int), refs.Nodup →
    (∀ r ∈ refs, 7 ≤ r ∧ r ≤ 63 ∧ bm.get? r.toNat = some 1) →
    (∀ k : Nat, k ≤ 6 → bm.get? k = some 1) →
    7 + refs.length ≤ bm.count 1 := by
  intro refs
  induction refs with
  | nil =>
    intro bm _ _ h06
    simp only [List.length_nil, Nat.add_zero]
    exact ones_prefix_bound bm 7 (fun k hk => h06 k (by omega))
  | cons r rs ih =>
    intro bm hnd hall h06
    obtain ⟨hr7, hr63, hrbit⟩ := hall r (by simp)
    have hcount := count_one_set_zero bm r.toNat hrbit
    have hih := ih (bm.set r.toNat 0) (List.Nodup.of_cons hnd) ?_ ?_
    · simp only [List.length_cons]
      omega
    · intro r' hr'
      obtain ⟨h7, h63, hbit⟩ := hall r' (by simp [hr'])
      refine ⟨h7, h63, ?_⟩
      rw [List.get?_set_ne]
      · exact hbit
      · intro hEq
        have hne : r' ≠ r := by
          intro hh
          rw [hh] at hr'
          exact (List.nodup_cons.mp hnd).1 hr'
        omega
    · intro k hk
      rw [List.get?_set_ne]
      · exact h06 k hk
      · omega

theorem set_decomp {α : Type} : ∀ (l : List α) (m : Nat) (x : α), l.get? m = some x →
    ∃ A B, l = A ++ (x :: B) ∧ ∀ y, l.set m y = A ++ (y :: B) := by
  intro l
  induction l with
  | nil =>
    intro m x h
    simp at h
  | cons a as ih =>
    intro m x h
    cases m with
    | zero =>
      cases h
      exact ⟨[], as, rfl, fun y => rfl⟩
    | succ n =>
      obtain ⟨A, B, h1, h2⟩ := ih n x h
      refine ⟨a :: A, B, by rw [List.cons_append, ← h1], fun y => ?_⟩
      rw [List.set_cons_succ, h2 y, List.cons_append]

theorem setAt_eq_set {α : Type} : ∀ (l : List α) (n : Nat) (v : α) (l' : List α),
    setAt l n v = some l' → l' = l.set n v := by
  intro l
  induction l with
  | nil =>
    intro n v l' h
    simp [setAt] at h
  | cons a as ih =>
    intro n v l' h
    cases n with
    | zero =>
      simp [setAt] at h
      rw [← h]
      rfl
    | succ m =>
      simp only [setAt, Option.map_eq_some'] at h
      obtain ⟨t, ht, rfl⟩ := h
      rw [List.set_cons_succ, ih m v t ht]

theorem drop_one_set {α : Type} : ∀ (l : List α) (j : Nat) (b : α),
    (l.set (j + 1) b).drop 1 = (l.drop 1).set j b := by
  intro l j b
  cases l with
  | nil => rfl
  | cons x xs => rfl

theorem take_set_lt {α : Type} : ∀ (l : List α) (j n : Nat) (b : α), j < n →
    (l.set j b).take n = (l.take n).set j b := by
  intro l
  induction l with
  | nil =>
    intro j n b _
    cases n <;> rfl
  | cons x xs ih =>
    intro j n b hjn
    cases j with
    | zero =>
      cases n with
      | zero => omega
      | succ m => rfl
    | succ jj =>
      cases n with
      | zero => omega
      | succ m =>
        simp only [List.set_cons_succ, List.take_cons_succ]
        rw [ih jj m b (by omega)]

theorem sublist_bind {α β : Type} (g : α → List β) :
    ∀ {L1 L2 : List α}, List.Sublist L1 L2 → List.Sublist (L1.bind g) (L2.bind g) := by
  intro L1 L2 h
  induction h with
  | slnil => exact List.Sublist.refl _
  | cons a h ih =>
    simp only [List.cons_bind]
    exact ih.trans (List.sublist_append_right _ _)
  | cons₂ a h ih =>
    simp only [List.cons_bind]
    exact ih.append_left _

theorem descBlocks_get? (s : FS) (j : Nat) (hj : j < 6) :
    s.descBlocks.get? j = s.disk.get? (j + 1) := by
  unfold FS.descBlocks
  rw [List.get?_take hj, List.get?_drop]
  congr 1
  omega

theorem invC1_bound (s : FS) (h : InvC1 s) :
    ∃ bm, s.disk.get? 0 = some (.ints bm) ∧
      7 + (liveRefs s).length ≤ bm.count 1 := by
  obtain ⟨hlen, ⟨bm, hbm, hbml, hv, h06, hrefs⟩, hblocks, hnd⟩ := h
  refine ⟨bm, hbm, ?_⟩
  have hsub : List.Sublist (liveRefs s) (allRefs s) :=
    sublist_bind cellRefs (List.filter_sublist _)
  exact refs_count_bound (liveRefs s) bm (List.Nodup.sublist hsub hnd)
    (fun r hr => hrefs r (hsub.subset hr)) h06

theorem pyIdx_lt (n : Nat) (i : Int) (j : Nat) (h : pyIdx n i = some j) : j < n := by
  unfold pyIdx at h
  by_cases h0 : 0 ≤ i
  · rw [if_pos h0] at h
    by_cases hlt : i.toNat < n
    · rw [if_pos hlt] at h
      cases h
      exact hlt
    · rw [if_neg hlt] at h
      cases h
  · rw [if_neg h0] at h
    by_cases hle : (-i).toNat ≤ n
    · rw [if_pos hle] at h
      cases h
      omega
    · rw [if_neg hle] at h
      cases h

theorem setDescCell_dCells (s : FS) (di : Int) (c : DescCell) (s' : FS)
    (h : s.setDescCell di c = some s') (hlen : s.disk.length = 64)
    (hblocks : ∀ b ∈ s.descBlocks, ∃ cs, b = Blk.descBlock cs ∧ cs.length = 32 ∧
      ∀ cc ∈ cs, ∃ f0 f1 f2 f3, cc = DescCell.d [f0, f1, f2, f3])
    (hc : ∃ f0 f1 f2 f3, c = DescCell.d [f0, f1, f2, f3]) :
    s'.disk.get? 0 = s.disk.get? 0 ∧ s'.disk.length = 64 ∧ s'.oft = s.oft ∧
    (∀ b ∈ s'.descBlocks, ∃ cs, b = Blk.descBlock cs ∧ cs.length = 32 ∧
      ∀ cc ∈ cs, ∃ f0 f1 f2 f3, cc = DescCell.d [f0, f1, f2, f3]) ∧
    ∃ (pre post : List DescCell) (old : DescCell),
      s.getDescCell di = some old ∧
      dCells s = pre ++ (old :: post) ∧ dCells s' = pre ++ (c :: post) := by
  unfold FS.setDescCell at h
  rcases hpi : pyIdx 6 (di.fdiv 32) with _ | j
  · rw [hpi] at h; cases h
  simp only [hpi] at h
  have hj6 : j < 6 := pyIdx_lt 6 _ j hpi
  rcases hpg : pyGet s.disk ((j + 1 : Nat) : Int) with _ | b
  · rw [hpg] at h; cases h
  rcases b with l | cells | cells2
  · rw [hpg] at h; cases h
  · simp only [hpg] at h
    rw [Option.bind_eq_some] at h
    obtain ⟨cells', hset, hds⟩ := h
    have hget : s.disk.get? (j + 1) = some (.descBlock cells) := by
      have hh := hpg
      unfold pyGet at hh
      rw [if_pos (by omega : (0 : Int) ≤ ((j + 1 : Nat) : Int))] at hh
      exact hh
    have hmem : Blk.descBlock cells ∈ s.descBlocks := by
      rw [← descBlocks_get? s j hj6] at hget
      exact List.get?_mem hget
    obtain ⟨cs, hcseq, hcslen, hcstruct⟩ := hblocks _ hmem
    injection hcseq with hinj
    subst hinj
    rw [pySet_nonneg cells (di.emod 32) c (Int.emod_nonneg di (by omega))] at hset
    have hm32 : (di.emod 32).toNat < 32 := by
      have h1 : di.emod 32 < 32 := Int.emod_lt_of_pos di (by omega)
      have h2 : (0 : Int) ≤ di.emod 32 := Int.emod_nonneg di (by omega)
      omega
    have hcells' : cells' = cells.set (di.emod 32).toNat c := setAt_eq_set _ _ _ _ hset
    obtain ⟨old, holdg⟩ : ∃ old, cells.get? (di.emod 32).toNat = some old :=
      ⟨_, List.get?_eq_get (by omega : (di.emod 32).toNat < cells.length)⟩
    unfold FS.diskSet at hds
    rw [Option.map_eq_some'] at hds
    obtain ⟨d', hd', rfl⟩ := hds
    rw [pySet_nonneg _ _ _ (by omega : (0 : Int) ≤ ((j + 1 : Nat) : Int))] at hd'
    have htn : (((j + 1 : Nat) : Int)).toNat = j + 1 := rfl
    rw [htn] at hd'
    have hd'set : d' = s.disk.set (j + 1) (.descBlock cells') := setAt_eq_set _ _ _ _ hd'
    have hdb' : (FS.mk d' s.oft).descBlocks = s.descBlocks.set j (.descBlock cells') := by
      show ((d'.drop 1).take 6) = _
      rw [hd'set, drop_one_set, take_set_lt _ _ _ _ hj6]
      rfl
    obtain ⟨A, B, hAB, hABset⟩ := set_decomp s.descBlocks j (.descBlock cells)
      (by rw [descBlocks_get? s j hj6]; exact hget)
    obtain ⟨A2, B2, hA2, hA2set⟩ := set_decomp cells (di.emod 32).toNat old holdg
    refine ⟨?_, ?_, rfl, ?_, ?_⟩
    · rw [hd'set]
      rw [List.get?_set_ne]
      omega
    · show d'.length = 64
      rw [hd'set, List.length_set]
      exact hlen
    · intro b hb
      rw [hdb'] at hb
      rcases List.mem_or_eq_of_mem_set hb with hbo | hbe
      · exact hblocks b hbo
      · subst hbe
        refine ⟨cells', rfl, ?_, ?_⟩
        · rw [hcells', List.length_set]
          exact hcslen
        · intro cc hcc
          rw [hcells'] at hcc
          rcases List.mem_or_eq_of_mem_set hcc with hco | hce
          · exact hcstruct cc hco
          · subst hce
            exact hc
    · refine ⟨A.bind descCellsOf ++ A2, B2 ++ B.bind descCellsOf, old, ?_, ?_, ?_⟩
      · unfold FS.getDescCell
        have hdbg : pyGet s.descBlocks (di.fdiv 32) = some (Blk.descBlock cells) := by
          unfold pyGet
          by_cases h0 : (0 : Int) ≤ di.fdiv 32
          · rw [if_pos h0]
            have hjj : (di.fdiv 32).toNat = j := by
              unfold pyIdx at hpi
              rw [if_pos h0] at hpi
              by_cases hlt : (di.fdiv 32).toNat < 6
              · rw [if_pos hlt] at hpi
                cases hpi
                rfl
              · rw [if_neg hlt] at hpi
                cases hpi
            rw [hjj]
            rw [← descBlocks_get? s j hj6] at hget
            exact hget
          · rw [if_neg h0]
            have hdblen : s.descBlocks.length = 6 := by
              unfold FS.descBlocks
              rw [List.length_take, List.length_drop, hlen]
              omega
            have hpieq : pyIdx s.descBlocks.length (di.fdiv 32) = some j := by
              rw [hdblen]
              exact hpi
            rw [hpieq]
            rw [← descBlocks_get? s j hj6] at hget
            exact hget
        rw [hdbg]
        show pyGet cells (di.emod 32) = some old
        unfold pyGet
        rw [if_pos (show (0 : Int) ≤ di.emod 32 from Int.emod_nonneg di (by omega))]
        exact holdg
      · unfold dCells
        rw [hAB]
        simp only [List.append_bind, List.cons_bind, descCellsOf]
        rw [hA2]
        simp [List.append_assoc]
      · unfold dCells
        rw [hdb', hABset (.descBlock cells')]
        simp only [List.append_bind, List.cons_bind, descCellsOf]
        rw [hcells', hA2set c]
        simp [List.append_assoc]
  · rw [hpg] at h; cases h

theorem invC1_congr (s s' : FS) (h0 : s'.disk.get? 0 = s.disk.get? 0)
    (hdb : s'.descBlocks = s.descBlocks) (hlen : s'.disk.length = 64)
    (hI : InvC1 s) : InvC1 s' := by
  obtain ⟨_, ⟨bm, hbm, hbml, hv, h06, hrefs⟩, hblocks, hnd⟩ := hI
  have har : allRefs s' = allRefs s := by
    unfold allRefs dCells
    rw [hdb]
  refine ⟨hlen, ⟨bm, by rw [h0]; exact hbm, hbml, hv, h06, ?_⟩, ?_, ?_⟩
  · rw [har]
    exact hrefs
  · rw [hdb]
    exact hblocks
  · rw [har]
    exact hnd

theorem diskSet_ge7_get0 (s : FS) (i : Int) (b : Blk) (s' : FS)
    (h : s.diskSet i b = some s') (h7 : 7 ≤ i) :
    s'.disk.get? 0 = s.disk.get? 0 := by
  unfold FS.diskSet at h
  rw [Option.map_eq_some'] at h
  obtain ⟨d', hd', rfl⟩ := h
  rw [pySet_nonneg _ _ _ (by omega)] at hd'
  show d'.get? 0 = _
  rw [setAt_eq_set _ _ _ _ hd', List.get?_set_ne]
  omega

theorem pyGet_mem {α : Type} (l : List α) (i : Int) (x : α) (h : pyGet l i = some x) :
    x ∈ l := by
  unfold pyGet at h
  by_cases h0 : 0 ≤ i
  · rw [if_pos h0] at h
    exact List.get?_mem h
  · rw [if_neg h0] at h
    rw [Option.bind_eq_some] at h
    obtain ⟨j, _, hj⟩ := h
    exact List.get?_mem hj

theorem getDescCell_mem_dCells (s : FS) (di : Int) (c : DescCell)
    (h : s.getDescCell di = some c)
    (hblocks : ∀ b ∈ s.descBlocks, ∃ cs, b = Blk.descBlock cs ∧ cs.length = 32 ∧
      ∀ cc ∈ cs, ∃ f0 f1 f2 f3, cc = DescCell.d [f0, f1, f2, f3]) :
    c ∈ dCells s := by
  unfold FS.getDescCell at h
  rcases hpg : pyGet s.descBlocks (di.fdiv 32) with _ | b
  · rw [hpg] at h; cases h
  have hmem : b ∈ s.descBlocks := pyGet_mem _ _ _ hpg
  rcases b with l | cells | cells2
  · obtain ⟨cs, hcs, _, _⟩ := hblocks _ hmem
    cases hcs
  · simp only [hpg] at h
    exact List.mem_bind.mpr ⟨Blk.descBlock cells, hmem, pyGet_mem _ _ _ h⟩
  · rw [hpg] at h; cases h

theorem cellRefs_field_mem (f0 f1 f2 f3 : Int) (k : Int) (r : Int)
    (hk : k = 1 ∨ k = 2 ∨ k = 3)
    (h : pyGet [f0, f1, f2, f3] k = some r) (hr : r ≠ 0) :
    r ∈ cellRefs (DescCell.d [f0, f1, f2, f3]) := by
  have hrl : r ∈ [f1, f2, f3] := by
    rcases hk with hk | hk | hk <;> subst hk <;> cases h <;> simp
  show r ∈ ([f1, f2, f3].filter fun v => !(v == 0))
  rw [List.mem_filter]
  refine ⟨hrl, ?_⟩
  simp [hr]

theorem allRefs_of_cell (s : FS) (c : DescCell) (r : Int)
    (hc : c ∈ dCells s) (hr : r ∈ cellRefs c) : r ∈ allRefs s :=
  List.mem_bind.mpr ⟨c, hc, hr⟩

theorem bitmapSet_c1 (s : FS) (i v : Int) (s' : FS) (bm : List Int)
    (h : s.bitmapSet i v = some s') (hbm : s.disk.get? 0 = some (.ints bm))
    (h0 : 0 ≤ i) :
    ∃ bm', s'.disk.get? 0 = some (.ints bm') ∧ bm' = bm.set i.toNat v ∧
      i.toNat < bm.length ∧
      s'.disk.length = s.disk.length ∧ s'.descBlocks = s.descBlocks := by
  obtain ⟨_, hlen, hdb⟩ := bitmapSet_spec s i v s' h
  unfold FS.bitmapSet at h
  have hpg : pyGet s.disk 0 = some (.ints bm) := by
    unfold pyGet
    rw [if_pos (le_refl 0)]
    exact hbm
  simp only [hpg] at h
  rw [Option.bind_eq_some] at h
  obtain ⟨bm', hset, hds⟩ := h
  rw [pySet_nonneg _ _ _ h0] at hset
  have hlt : i.toNat < bm.length := (setAt_some_iff bm i.toNat v).mp ⟨bm', hset⟩
  refine ⟨bm', ?_, setAt_eq_set _ _ _ _ hset, hlt, hlen, hdb⟩
  unfold FS.diskSet at hds
  rw [Option.map_eq_some'] at hds
  obtain ⟨d', hd', rfl⟩ := hds
  rw [pySet_nonneg _ _ _ (le_refl 0)] at hd'
  show d'.get? 0 = _
  exact setAt_get_same s.disk 0 _ d' hd'

theorem get?_set_self {α : Type} : ∀ (l : List α) (n : Nat) (a : α),
    n < l.length → (l.set n a).get? n = some a := by
  intro l
  induction l with
  | nil =>
    intro n a h
    simp at h
  | cons x xs ih =>
    intro n a h
    cases n with
    | zero => rfl
    | succ m =>
      simp only [List.set_cons_succ]
      exact ih m a (by simpa using h)

theorem bitmapSet_one_invC1 (s : FS) (i : Int) (s' : FS)
    (h : s.bitmapSet i 1 = some s') (h0 : 0 ≤ i) (hI : InvC1 s) : InvC1 s' := by
  obtain ⟨hlen, ⟨bm, hbm, hbml, hv, h06, hrefs⟩, hblocks, hnd⟩ := hI
  obtain ⟨bm', hbm', hbm'eq, hlt, hlen', hdb⟩ := bitmapSet_c1 s i 1 s' bm h hbm h0
  have har : allRefs s' = allRefs s := by
    unfold allRefs dCells
    rw [hdb]
  refine ⟨by rw [hlen']; exact hlen, ⟨bm', hbm', ?_, ?_, ?_, ?_⟩, ?_, ?_⟩
  · rw [hbm'eq, List.length_set]
    exact hbml
  · intro w hw
    rw [hbm'eq] at hw
    rcases List.mem_or_eq_of_mem_set hw with hwo | hwe
    · exact hv w hwo
    · right
      exact hwe
  · intro k hk
    rw [hbm'eq]
    by_cases hke : k = i.toNat
    · subst hke
      rw [get?_set_self _ _ _ hlt]
    · rw [List.get?_set_ne]
      · exact h06 k hk
      · omega
  · intro r hr
    rw [har] at hr
    obtain ⟨h7, h63, hbit⟩ := hrefs r hr
    refine ⟨h7, h63, ?_⟩
    rw [hbm'eq]
    by_cases hke : r.toNat = i.toNat
    · rw [hke, get?_set_self _ _ _ hlt]
    · rw [List.get?_set_ne]
      · exact hbit
      · omega
  · rw [hdb]
    exact hblocks
  · rw [har]
    exact hnd

theorem nodup_middle_replace {α : Type} (A M M' B : List α)
    (h : (A ++ (M ++ B)).Nodup) (hM' : M'.Nodup)
    (hdisj : ∀ r ∈ M', r ∉ A ∧ r ∉ B) :
    (A ++ (M' ++ B)).Nodup := by
  rw [List.nodup_append] at h ⊢
  obtain ⟨hA, hMB, hAMB⟩ := h
  rw [List.nodup_append] at hMB
  obtain ⟨hM, hB, hMBd⟩ := hMB
  refine ⟨hA, ?_, ?_⟩
  · rw [List.nodup_append]
    exact ⟨hM', hB, fun a ha hb => (hdisj a ha).2 hb⟩
  · intro a ha hmem
    rw [List.mem_append] at hmem
    rcases hmem with hm | hb
    · exact (hdisj a hm).1 ha
    · exact hAMB ha (List.mem_append.mpr (Or.inr hb))

theorem invC1_replace (s s' : FS) (pre post : List DescCell) (old c : DescCell)
    (bm : List Int)
    (hdecomp : dCells s = pre ++ (old :: post))
    (hdecomp' : dCells s' = pre ++ (c :: post))
    (h0 : s'.disk.get? 0 = s.disk.get? 0) (hlen : s'.disk.length = 64)
    (hblocks' : ∀ b ∈ s'.descBlocks, ∃ cs, b = Blk.descBlock cs ∧ cs.length = 32 ∧
      ∀ cc ∈ cs, ∃ f0 f1 f2 f3, cc = DescCell.d [f0, f1, f2, f3])
    (hI : InvC1 s)
    (hbm : s.disk.get? 0 = some (.ints bm))
    (hnewrefs : ∀ r ∈ cellRefs c, 7 ≤ r ∧ r ≤ 63 ∧ bm.get? r.toNat = some 1)
    (hnd_new : (cellRefs c).Nodup)
    (hfresh : ∀ r ∈ cellRefs c,
      r ∉ pre.bind cellRefs ∧ r ∉ post.bind cellRefs) :
    InvC1 s' := by
  obtain ⟨_, ⟨bm0, hbm0, hbml, hv, h06, hrefs⟩, hblocks, hnd⟩ := hI
  have hbmeq : bm0 = bm := by
    rw [hbm0] at hbm
    injection hbm with hh
    injection hh
  subst hbmeq
  have har : allRefs s = pre.bind cellRefs ++ (cellRefs old ++ post.bind cellRefs) := by
    unfold allRefs
    rw [hdecomp]
    simp [List.append_bind, List.cons_bind]
  have har' : allRefs s' = pre.bind cellRefs ++ (cellRefs c ++ post.bind cellRefs) := by
    unfold allRefs
    rw [hdecomp']
    simp [List.append_bind, List.cons_bind]
  refine ⟨hlen, ⟨bm0, by rw [h0]; exact hbm0, hbml, hv, h06, ?_⟩, hblocks', ?_⟩
  · intro r hr
    rw [har'] at hr
    rw [List.mem_append] at hr
    rcases hr with hrp | hr
    · exact hrefs r (by rw [har]; exact List.mem_append.mpr (Or.inl hrp))
    rw [List.mem_append] at hr
    rcases hr with hrc | hrq
    · exact hnewrefs r hrc
    · exact hrefs r (by
        rw [har]
        exact List.mem_append.mpr (Or.inr (List.mem_append.mpr (Or.inr hrq))))
  · rw [har']
    rw [har] at hnd
    exact nodup_middle_replace _ _ _ _ hnd hnd_new hfresh

theorem findFreeBlockAux_zero (s : FS) :
    ∀ (fuel i : Nat) (r : Int), findFreeBlockAux s fuel i = some r →
    r = -1 ∨ s.bitmapGet r = some 0 := by
  intro fuel
  induction fuel with
  | zero =>
    intro i r h
    cases h
    exact Or.inl rfl
  | succ n ih =>
    intro i r h
    simp only [findFreeBlockAux] at h
    rcases hbg : s.bitmapGet (↑i : Int) with _ | v
    · rw [hbg] at h; cases h
    simp only [hbg] at h
    by_cases hv : v = 0
    · rw [if_pos hv] at h
      cases h
      subst hv
      exact Or.inr hbg
    · rw [if_neg hv] at h
      exact ih (i + 1) r h

theorem bitmapGet_eq (s : FS) (bm : List Int) (i : Int)
    (hbm : s.disk.get? 0 = some (.ints bm)) (h0 : 0 ≤ i) :
    s.bitmapGet i = bm.get? i.toNat := by
  unfold FS.bitmapGet
  have hpg : pyGet s.disk 0 = some (.ints bm) := by
    unfold pyGet
    rw [if_pos (le_refl 0)]
    exact hbm
  rw [hpg]
  show pyGet bm i = bm.get? i.toNat
  unfold pyGet
  rw [if_pos h0]

theorem createFindBlock_c1 (s : FS) :
    ∀ (n i : Nat) (bn : Int) (s1 : FS), createFindBlock s n i = some (some (bn, s1)) →
    8 ≤ i → (8 : Int) ≤ bn ∧ bn ≤ (i : Int) + n - 1 ∧ s.bitmapGet bn = some 0 ∧
      s.bitmapSet bn 1 = some s1 := by
  intro n
  induction n with
  | zero =>
    intro i bn s1 h
    simp [createFindBlock] at h
  | succ n ih =>
    intro i bn s1 h hi
    simp only [createFindBlock] at h
    rcases hbg : s.bitmapGet (↑i : Int) with _ | v
    · rw [hbg] at h; cases h
    simp only [hbg] at h
    by_cases hv : v = 0
    · rw [if_pos hv, Option.map_eq_some'] at h
      obtain ⟨sB, hsB, hinj⟩ := h
      injection hinj with hinj2
      injection hinj2 with ha hb
      subst ha
      subst hb
      subst hv
      refine ⟨by omega, by omega, hbg, hsB⟩
    · rw [if_neg hv] at h
      obtain ⟨h1, h2, h3, h4⟩ := ih (i + 1) bn s1 h (by omega)
      refine ⟨h1, by push_cast at h2 ⊢; omega, h3, h4⟩

theorem take_set_ge {α : Type} : ∀ (l : List α) (j n : Nat) (b : α), n ≤ j →
    (l.set j b).take n = l.take n := by
  intro l
  induction l with
  | nil =>
    intro j n b _
    cases n <;> rfl
  | cons x xs ih =>
    intro j n b hnj
    cases n with
    | zero => rfl
    | succ m =>
      cases j with
      | zero => omega
      | succ jj =>
        simp only [List.set_cons_succ, List.take_cons_succ]
        rw [ih jj m b (by omega)]

theorem write_block_eq_diskSet (s : FS) (i : Int) (data : Blk)
    (hr : ¬(i < 0 ∨ i > 63)) (hlen : ¬data.len ≠ 512) :
    s.write_block i data = s.diskSet i data := by
  unfold FS.write_block FS.diskSet
  rw [if_neg hr, if_neg hlen]

theorem dCells_struct (s : FS) (c : DescCell)
    (hblocks : ∀ b ∈ s.descBlocks, ∃ cs, b = Blk.descBlock cs ∧ cs.length = 32 ∧
      ∀ cc ∈ cs, ∃ f0 f1 f2 f3, cc = DescCell.d [f0, f1, f2, f3])
    (hc : c ∈ dCells s) : ∃ f0 f1 f2 f3, c = DescCell.d [f0, f1, f2, f3] := by
  obtain ⟨b, hb, hcb⟩ := List.mem_bind.mp hc
  obtain ⟨cs, hcs, _, hstruct⟩ := hblocks b hb
  subst hcs
  exact hstruct c hcb

theorem pyGet_4_bound (f0 f1 f2 f3 : Int) (k : Int) (r : Int)
    (h : pyGet [f0, f1, f2, f3] k = some r) (h0 : 0 ≤ k) : k ≤ 3 := by
  unfold pyGet at h
  rw [if_pos h0] at h
  have hlt : k.toNat < 4 := by
    rcases List.get?_eq_some.mp h with ⟨hl, _⟩
    simpa using hl
  omega

theorem nodup_middle_facts {α : Type} (A M B : List α)
    (h : (A ++ (M ++ B)).Nodup) :
    M.Nodup ∧ ∀ r ∈ M, r ∉ A ∧ r ∉ B := by
  rw [List.nodup_append] at h
  obtain ⟨hA, hMB, hAMB⟩ := h
  rw [List.nodup_append] at hMB
  obtain ⟨hM, hB, hMBd⟩ := hMB
  refine ⟨hM, fun r hr => ⟨?_, ?_⟩⟩
  · intro hra
    exact hAMB hra (List.mem_append.mpr (Or.inl hr))
  · intro hrb
    exact hMBd hr hrb

theorem setDescField_dCells (s : FS) (di k v : Int) (s' : FS)
    (h : s.setDescField di k v = some s') (hlen : s.disk.length = 64)
    (hblocks : ∀ b ∈ s.descBlocks, ∃ cs, b = Blk.descBlock cs ∧ cs.length = 32 ∧
      ∀ cc ∈ cs, ∃ f0 f1 f2 f3, cc = DescCell.d [f0, f1, f2, f3])
    (h0k : 0 ≤ k) :
    s'.disk.get? 0 = s.disk.get? 0 ∧ s'.disk.length = 64 ∧ s'.oft = s.oft ∧
    (∀ b ∈ s'.descBlocks, ∃ cs, b = Blk.descBlock cs ∧ cs.length = 32 ∧
      ∀ cc ∈ cs, ∃ f0 f1 f2 f3, cc = DescCell.d [f0, f1, f2, f3]) ∧
    ∃ (pre post : List DescCell) (fields : List Int),
      s.getDescCell di = some (.d fields) ∧ fields.length = 4 ∧
      dCells s = pre ++ (DescCell.d fields :: post) ∧
      dCells s' = pre ++ (DescCell.d (fields.set k.toNat v) :: post) := by
  unfold FS.setDescField at h
  rcases hgc : s.getDescCell di with _ | c
  · rw [hgc] at h; cases h
  rcases c with fields | r
  · simp only [hgc] at h
    rw [Option.bind_eq_some] at h
    obtain ⟨fields', hset, hsc⟩ := h
    rw [pySet_nonneg _ _ _ h0k] at hset
    have hf' : fields' = fields.set k.toNat v := setAt_eq_set _ _ _ _ hset
    have hflen : fields.length = 4 := by
      obtain ⟨g0, g1, g2, g3, hg⟩ := dCells_struct s (.d fields) hblocks
        (getDescCell_mem_dCells s di _ hgc hblocks)
      injection hg with hg2
      rw [hg2]
      rfl
    obtain ⟨hg0, hlen', hoft, hblocks', pre, post, old, holdg, hd, hd'⟩ :=
      setDescCell_dCells s di (.d fields') s' hsc hlen hblocks
        (by
          obtain ⟨g0, g1, g2, g3, hg⟩ := dCells_struct s (.d fields) hblocks
            (getDescCell_mem_dCells s di _ hgc hblocks)
          injection hg with hg2
          rw [hf', hg2]
          have hkn : k.toNat = 0 ∨ k.toNat = 1 ∨ k.toNat = 2 ∨ k.toNat = 3 ∨ 4 ≤ k.toNat := by
            omega
          rcases hkn with hh | hh | hh | hh | hh
          · rw [hh]
            exact ⟨v, g1, g2, g3, rfl⟩
          · rw [hh]
            exact ⟨g0, v, g2, g3, rfl⟩
          · rw [hh]
            exact ⟨g0, g1, v, g3, rfl⟩
          · rw [hh]
            exact ⟨g0, g1, g2, v, rfl⟩
          · rw [List.set_eq_of_length_le (by simp; omega)]
            exact ⟨g0, g1, g2, g3, rfl⟩)
    have hold : old = DescCell.d fields := by
      rw [hgc] at holdg
      injection holdg with hh
      exact hh.symm
    subst hold
    exact ⟨hg0, hlen', hoft, hblocks', pre, post, fields, rfl, hflen, hd,
      by rw [← hf']; exact hd'⟩
  · rw [hgc] at h; cases h

theorem invC1_disk_congr (s s' : FS) (h : s'.disk = s.disk) (hI : InvC1 s) : InvC1 s' := by
  refine invC1_congr s s' (by rw [h]) ?_ ?_ hI
  · unfold FS.descBlocks
    rw [h]
  · rw [h]
    exact hI.1

theorem open_state_disk (s : FS) (name : String) :
    (s.open_ name).state.disk = s.disk := by
  unfold FS.open_
  rcases hdf : s.dirFind name with _ | (_ | ⟨nm, di⟩) <;> try rfl
  simp only []
  by_cases hdi : di = -1
  · rw [if_pos hdi]
    rfl
  rw [if_neg hdi]
  rcases hoc : openCheckAux s di 4 0 with _ | b
  · rfl
  cases b with
  | true => rfl
  | false =>
    rcases hfs : openFreeSlotAux s 3 1 with _ | (_ | j) <;> try rfl
    simp only []
    rcases hgc : s.getDescCell di with _ | cell
    · rfl
    simp only []
    rcases hf1 : cell.field 1 with _ | b1
    · rfl
    simp only []
    rcases hrb : s.read_block b1 with _ | buf
    · rfl
    simp only []
    rcases hf0 : cell.field 0 with _ | len0
    · rfl
    simp only []
    rcases hos : s.oftSet (↑j : Int) { buffer := buf, current_pos := 0, file_size := len0, descriptor_index := di } with _ | s1
    · rfl
    simp only []
    exact (oftSet_spec s _ _ s1 hos (by omega)).1

theorem seek_state_disk (s : FS) (i pos : Int) :
    (s.seek i pos).state.disk = s.disk := by
  unfold FS.seek
  by_cases hir : i < 0 ∨ i > 3
  · rw [if_pos hir]
    rfl
  rw [if_neg hir]
  rcases hoe : s.oftGet i with _ | e
  · rfl
  simp only []
  by_cases hcp : e.current_pos = -1
  · rw [if_pos hcp]
    rfl
  rw [if_neg hcp]
  rcases hgc : s.getDescCell e.descriptor_index with _ | cell
  · rfl
  simp only []
  rcases hf0 : cell.field 0 with _ | flen
  · rfl
  simp only []
  by_cases hpr : pos < 0 ∨ pos > flen
  · rw [if_pos hpr]
    rfl
  rw [if_neg hpr]
  by_cases h3 : pos.fdiv 512 < 3
  · rw [if_pos h3]
    rcases hfb : cell.field (1 + pos.fdiv 512) with _ | bn
    · rfl
    simp only []
    by_cases hbn : bn ≠ 0
    · rw [if_pos hbn]
      rcases hrb : s.read_block bn with _ | buf
      · rfl
      simp only []
      rcases hos : s.oftSet i { e with buffer := buf, current_pos := pos } with _ | s1
      · rfl
      simp only []
      exact (oftSet_spec s _ _ s1 hos (by omega)).1
    · rw [if_neg hbn]
      rfl
  · rw [if_neg h3]
    rfl

theorem readLoop_disk (idx : Int) (cell : DescCell) (count : Int) (hidx : 0 ≤ idx) :
    ∀ (fuel : Nat) (s : FS) (mem : List Int) (br : Int),
      (readLoopAux idx cell count fuel s mem br).state.disk = s.disk := by
  intro fuel
  induction fuel with
  | zero =>
    intro s mem br
    rfl
  | succ fuel ih =>
    intro s mem br
    simp only [readLoopAux]
    rcases hoe : s.oftGet idx with _ | e
    · rfl
    simp only []
    rcases hf0 : cell.field 0 with _ | flen
    · rfl
    simp only []
    by_cases hge : e.current_pos ≥ flen
    · rw [if_pos hge]
      rfl
    rw [if_neg hge]
    by_cases hmid : e.current_pos.fdiv 512 > 0 ∧ br = 0
    · rw [if_pos hmid]
      rcases hfbm : cell.field (1 + e.current_pos.fdiv 512) with _ | bnm
      · rfl
      simp only []
      by_cases hbnm : bnm ≠ 0
      · rw [if_pos hbnm]
        rcases hrbm : s.read_block bnm with _ | buf
        · rfl
        simp only []
        rcases hos1 : s.oftSet idx { e with buffer := buf } with _ | sA
        · rfl
        simp only [Option.map_some']
        have hdA : sA.disk = s.disk :=
          (oftSet_spec s idx { e with buffer := buf } sA hos1 hidx).1
        rcases hbuf : buf with bl | cs1 | cs2
        · simp only []
          rcases hpg : pyGet bl (e.current_pos.emod 512) with _ | v
          · exact hdA
          simp only []
          rcases hps : pySet mem br v with _ | mem1
          · exact hdA
          simp only []
          rcases hos2 : sA.oftSet idx { e with buffer := .ints bl, current_pos := e.current_pos + 1 } with _ | s2
          · exact hdA
          simp only []
          have hd2 : s2.disk = s.disk := by
            rw [(oftSet_spec sA idx { e with buffer := .ints bl, current_pos := e.current_pos + 1 } s2 hos2 hidx).1]
            exact hdA
          by_cases hnb : (e.current_pos + 1).emod 512 = 0 ∧ br + 1 < count
          · rw [if_pos hnb]
            by_cases h3 : (e.current_pos + 1).fdiv 512 < 3
            · rw [if_pos h3]
              rcases hfb : cell.field (1 + (e.current_pos + 1).fdiv 512) with _ | bn
              · exact hd2
              simp only []
              by_cases hbn : bn ≠ 0
              · rw [if_pos hbn]
                rcases hrb : s2.read_block bn with _ | buf2
                · exact hd2
                simp only []
                rcases hos3 : s2.oftSet idx { e with buffer := buf2, current_pos := e.current_pos + 1 } with _ | s3
                · exact hd2
                simp only []
                rw [ih s3 mem1 (br + 1), (oftSet_spec s2 idx { e with buffer := buf2, current_pos := e.current_pos + 1 } s3 hos3 hidx).1]
                exact hd2
              · rw [if_neg hbn]
                exact hd2
            · rw [if_neg h3]
              exact hd2
          · rw [if_neg hnb]
            rw [ih s2 mem1 (br + 1)]
            exact hd2
        · exact hdA
        · exact hdA
      · rw [if_neg hbnm]
        simp only []
        rcases hbuf : e.buffer with bl | cs1 | cs2
        · simp only []
          rcases hpg : pyGet bl (e.current_pos.emod 512) with _ | v
          · exact rfl
          simp only []
          rcases hps : pySet mem br v with _ | mem1
          · exact rfl
          simp only []
          rcases hos2 : s.oftSet idx { e with buffer := .ints bl, current_pos := e.current_pos + 1 } with _ | s2
          · exact rfl
          simp only []
          have hd2 : s2.disk = s.disk :=
            (oftSet_spec s idx { e with buffer := .ints bl, current_pos := e.current_pos + 1 } s2 hos2 hidx).1
          by_cases hnb : (e.current_pos + 1).emod 512 = 0 ∧ br + 1 < count
          · rw [if_pos hnb]
            by_cases h3 : (e.current_pos + 1).fdiv 512 < 3
            · rw [if_pos h3]
              rcases hfb : cell.field (1 + (e.current_pos + 1).fdiv 512) with _ | bn
              · exact hd2
              simp only []
              by_cases hbn : bn ≠ 0
              · rw [if_pos hbn]
                rcases hrb : s2.read_block bn with _ | buf2
                · exact hd2
                simp only []
                rcases hos3 : s2.oftSet idx { e with buffer := buf2, current_pos := e.current_pos + 1 } with _ | s3
                · exact hd2
                simp only []
                rw [ih s3 mem1 (br + 1), (oftSet_spec s2 idx { e with buffer := buf2, current_pos := e.current_pos + 1 } s3 hos3 hidx).1]
                exact hd2
              · rw [if_neg hbn]
                exact hd2
            · rw [if_neg h3]
              exact hd2
          · rw [if_neg hnb]
            rw [ih s2 mem1 (br + 1)]
            exact hd2
        · exact rfl
        · exact rfl
    · rw [if_neg hmid]
      simp only []
      rcases hbuf : e.buffer with bl | cs1 | cs2
      · simp only []
        rcases hpg : pyGet bl (e.current_pos.emod 512) with _ | v
        · exact rfl
        simp only []
        rcases hps : pySet mem br v with _ | mem1
        · exact rfl
        simp only []
        rcases hos2 : s.oftSet idx { e with buffer := .ints bl, current_pos := e.current_pos + 1 } with _ | s2
        · exact rfl
        simp only []
        have hd2 : s2.disk = s.disk :=
          (oftSet_spec s idx { e with buffer := .ints bl, current_pos := e.current_pos + 1 } s2 hos2 hidx).1
        by_cases hnb : (e.current_pos + 1).emod 512 = 0 ∧ br + 1 < count
        · rw [if_pos hnb]
          by_cases h3 : (e.current_pos + 1).fdiv 512 < 3
          · rw [if_pos h3]
            rcases hfb : cell.field (1 + (e.current_pos + 1).fdiv 512) with _ | bn
            · exact hd2
            simp only []
            by_cases hbn : bn ≠ 0
            · rw [if_pos hbn]
              rcases hrb : s2.read_block bn with _ | buf2
              · exact hd2
              simp only []
              rcases hos3 : s2.oftSet idx { e with buffer := buf2, current_pos := e.current_pos + 1 } with _ | s3
              · exact hd2
              simp only []
              rw [ih s3 mem1 (br + 1), (oftSet_spec s2 idx { e with buffer := buf2, current_pos := e.current_pos + 1 } s3 hos3 hidx).1]
              exact hd2
            · rw [if_neg hbn]
              exact hd2
          · rw [if_neg h3]
            exact hd2
        · rw [if_neg hnb]
          rw [ih s2 mem1 (br + 1)]
          exact hd2
      · exact rfl
      · exact rfl

theorem read_state_disk (s : FS) (i : Int) (mem : List Int) (count : Int) :
    (s.read i mem count).state.disk = s.disk := by
  unfold FS.read
  by_cases hir : i < 0 ∨ i > 3
  · rw [if_pos hir]
    rfl
  rw [if_neg hir]
  rcases hoe : s.oftGet i with _ | e
  · rfl
  simp only []
  by_cases hcp : e.current_pos = -1
  · rw [if_pos hcp]
    rfl
  rw [if_neg hcp]
  rcases hgc : s.getDescCell e.descriptor_index with _ | cell
  · rfl
  simp only []
  exact readLoop_disk i cell count (by omega) count.toNat s mem 0

theorem open_invC1 (s : FS) (name : String) (hI : InvC1 s) :
    InvC1 (s.open_ name).state :=
  invC1_disk_congr s _ (open_state_disk s name) hI

theorem seek_invC1 (s : FS) (i pos : Int) (hI : InvC1 s) :
    InvC1 (s.seek i pos).state :=
  invC1_disk_congr s _ (seek_state_disk s i pos) hI

theorem read_invC1 (s : FS) (i : Int) (mem : List Int) (count : Int) (hI : InvC1 s) :
    InvC1 (s.read i mem count).state :=
  invC1_disk_congr s _ (read_state_disk s i mem count) hI

theorem list_invC1 (s : FS) (hI : InvC1 s) : InvC1 s.list_directory.state := by
  rw [list_state]
  exact hI

theorem dirSet_c1 (s : FS) (i : Int) (c : DirCell) (s' : FS)
    (h : s.dirSet i c = some s') (hI : InvC1 s) : InvC1 s' := by
  unfold FS.dirSet at h
  rcases hdc : s.dirCells with _ | l
  · rw [hdc] at h; cases h
  simp only [hdc] at h
  rw [Option.bind_eq_some] at h
  obtain ⟨l', _, hds⟩ := h
  refine invC1_congr s s' (diskSet_ge7_get0 s 7 _ s' hds (by omega))
    (diskSet_ge7_spec s 7 _ s' hds (by omega)).2.2 ?_ hI
  rw [(diskSet_ge7_spec s 7 _ s' hds (by omega)).2.1]
  exact hI.1

theorem close_invC1 (s : FS) (i : Int) (hI : InvC1 s) (hI8 : InvC8 s) :
    InvC1 (s.close i).state := by
  unfold FS.close
  by_cases hir : i < 0 ∨ i > 3
  · rw [if_pos hir]
    exact hI
  rw [if_neg hir]
  rcases hoe : s.oftGet i with _ | e
  · exact hI
  simp only []
  by_cases hcp : e.current_pos = -1
  · rw [if_pos hcp]
    exact hI
  rw [if_neg hcp]
  rcases hgc : s.getDescCell e.descriptor_index with _ | cell
  · exact hI
  simp only []
  rcases hcf : cell.field (if e.current_pos.fdiv 512 = 0 then 1
      else 1 + e.current_pos.fdiv 512) with _ | cb
  · exact hI
  simp only []
  rcases hds : (if cb ≠ 0 then s.diskSet cb e.buffer else some s) with _ | s1
  · exact hI
  simp only []
  have hI1 : InvC1 s1 := by
    by_cases hcb : cb ≠ 0
    · rw [if_pos hcb] at hds
      have hcp0 : (0 : Int) ≤ e.current_pos := by
        rcases hI8.2.1 i.toNat e (oftGet_get? s i e (by omega) hoe) with h | h
        · exact absurd h hcp
        · exact h
      obtain ⟨f0, f1, f2, f3, hcell⟩ := dCells_struct s cell hI.2.2.1
        (getDescCell_mem_dCells s e.descriptor_index cell hgc hI.2.2.1)
      subst hcell
      have hfd0 : (0 : Int) ≤ e.current_pos.fdiv 512 :=
        Int.fdiv_nonneg hcp0 (by omega)
      have hcbref : cb ∈ cellRefs (DescCell.d [f0, f1, f2, f3]) := by
        by_cases hz : e.current_pos.fdiv 512 = 0
        · rw [if_pos hz] at hcf
          exact cellRefs_field_mem f0 f1 f2 f3 1 cb (Or.inl rfl) hcf hcb
        · rw [if_neg hz] at hcf
          have hk3 : 1 + e.current_pos.fdiv 512 ≤ 3 :=
            pyGet_4_bound f0 f1 f2 f3 _ cb hcf (by omega)
          have h23 : 1 + e.current_pos.fdiv 512 = 2 ∨
              1 + e.current_pos.fdiv 512 = 3 := by omega
          rcases h23 with hh | hh
          · rw [hh] at hcf
            exact cellRefs_field_mem f0 f1 f2 f3 2 cb (Or.inr (Or.inl rfl)) hcf hcb
          · rw [hh] at hcf
            exact cellRefs_field_mem f0 f1 f2 f3 3 cb (Or.inr (Or.inr rfl)) hcf hcb
      have hcbar : cb ∈ allRefs s := allRefs_of_cell s _ cb
        (getDescCell_mem_dCells s e.descriptor_index _ hgc hI.2.2.1) hcbref
      obtain ⟨h7, h63, _⟩ := hI.2.1.choose_spec.2.2.2.2 cb hcbar
      exact invC1_congr s s1 (diskSet_ge7_get0 s cb _ s1 hds (by omega))
        (diskSet_ge7_spec s cb _ s1 hds (by omega)).2.2
        (by rw [(diskSet_ge7_spec s cb _ s1 hds (by omega)).2.1]; exact hI.1) hI
    · rw [if_neg hcb] at hds
      cases hds
      exact hI
  rcases hos : s1.oftSet i closedOft with _ | s2
  · exact hI1
  simp only []
  exact invC1_disk_congr s1 s2 (oftSet_spec s1 i closedOft s2 hos (by omega)).1 hI1

theorem create_invC1 (s : FS) (name : String) (hI : InvC1 s) :
    InvC1 (s.create name).state := by
  unfold FS.create
  by_cases hl : name.length > 3
  · rw [if_pos hl]
    exact hI
  rw [if_neg hl]
  rcases hdf : s.dirFind name with _ | (_ | p) <;> try exact hI
  simp only []
  rcases hdf2 : s.dirFind "" with _ | (_ | ⟨dirIndex, z⟩) <;> try exact hI
  simp only []
  rcases hfd : findFreeDescAux s 192 0 with _ | (_ | descIndex) <;> try exact hI
  simp only []
  rcases hcf : createFindBlock s 56 8 with _ | (_ | ⟨blockNum, s1⟩) <;> try exact hI
  simp only []
  obtain ⟨hbn8, hbn63, hbit0, hbs⟩ := createFindBlock_c1 s 56 8 blockNum s1 hcf (by omega)
  have hI1 : InvC1 s1 := bitmapSet_one_invC1 s blockNum s1 hbs (by omega) hI
  obtain ⟨hlen0, ⟨bm, hbm, hbml, hv, h06, hrefs⟩, hblocks0, hnd0⟩ := id hI
  have hfresh0 : blockNum ∉ allRefs s := by
    intro hmem
    obtain ⟨_, _, hbit1⟩ := hrefs blockNum hmem
    rw [bitmapGet_eq s bm blockNum hbm (by omega)] at hbit0
    rw [hbit0] at hbit1
    cases hbit1
  have har1 : allRefs s1 = allRefs s := by
    unfold allRefs dCells
    rw [(bitmapSet_spec s blockNum 1 s1 hbs).2.2]
  rcases hsc : s1.setDescCell descIndex (.d [0, blockNum, 0, 0]) with _ | s2
  · exact hI1
  simp only []
  have hI2 : InvC1 s2 := by
    obtain ⟨hg0, hlen2, _, hblocks2, pre, post, old, _, hd, hd'⟩ :=
      setDescCell_dCells s1 (↑descIndex) (.d [0, blockNum, 0, 0]) s2 hsc hI1.1 hI1.2.2.1
        ⟨0, blockNum, 0, 0, rfl⟩
    obtain ⟨hlen1, ⟨bm1, hbm1, hbm1l, hv1, h061, hrefs1⟩, hblocks1, hnd1⟩ := id hI1
    obtain ⟨bm', hbm', hbm'eq, hlt', _, _⟩ := bitmapSet_c1 s blockNum 1 s1 bm hbs hbm (by omega)
    have hbm1' : bm1 = bm' := by
      rw [hbm1] at hbm'
      injection hbm' with hh
      injection hh
    subst hbm1'
    have hcr : cellRefs (DescCell.d [0, blockNum, 0, 0]) = [blockNum] := by
      show ([blockNum, 0, 0].filter fun v => !(v == 0)) = [blockNum]
      have hne : (blockNum == 0) = false := by
        simp
        omega
      simp [List.filter, hne]
    refine invC1_replace s1 s2 pre post old (.d [0, blockNum, 0, 0]) bm1
      hd hd' hg0 hlen2 hblocks2 hI1 hbm1 ?_ ?_ ?_
    · intro r hr
      rw [hcr, List.mem_singleton] at hr
      subst hr
      refine ⟨by omega, by omega, ?_⟩
      rw [hbm'eq]
      exact get?_set_self bm r.toNat 1 hlt'
    · rw [hcr]
      simp
    · intro r hr
      rw [hcr, List.mem_singleton] at hr
      subst hr
      constructor
      · intro hrp
        refine hfresh0 ?_
        rw [← har1]
        unfold allRefs
        rw [hd]
        simp only [List.append_bind, List.cons_bind]
        exact List.mem_append.mpr (Or.inl hrp)
      · intro hrq
        refine hfresh0 ?_
        rw [← har1]
        unfold allRefs
        rw [hd]
        simp only [List.append_bind, List.cons_bind]
        refine List.mem_append.mpr (Or.inr ?_)
        exact List.mem_append.mpr (Or.inr hrq)
  rcases hds : s2.dirSet (↑dirIndex) (.entry name (↑descIndex)) with _ | s3
  · exact hI2
  simp only []
  exact dirSet_c1 s2 _ _ s3 hds hI2

theorem pyGet_pyIdx {α : Type} (l : List α) (i : Int) (x : α) (h : pyGet l i = some x) :
    ∃ j, pyIdx l.length i = some j ∧ l.get? j = some x := by
  unfold pyGet at h
  by_cases h0 : 0 ≤ i
  · rw [if_pos h0] at h
    have hlt : i.toNat < l.length := by
      rcases List.get?_eq_some.mp h with ⟨hl, _⟩
      exact hl
    refine ⟨i.toNat, ?_, h⟩
    unfold pyIdx
    rw [if_pos h0, if_pos hlt]
  · rw [if_neg h0] at h
    rw [Option.bind_eq_some] at h
    obtain ⟨j, hj, hg⟩ := h
    exact ⟨j, hj, hg⟩

theorem setDescCell_ok (s : FS) (di : Int) (c c0 : DescCell)
    (hgc : s.getDescCell di = some c0) (hlen : s.disk.length = 64)
    (hblocks : ∀ b ∈ s.descBlocks, ∃ cs, b = Blk.descBlock cs ∧ cs.length = 32 ∧
      ∀ cc ∈ cs, ∃ f0 f1 f2 f3, cc = DescCell.d [f0, f1, f2, f3]) :
    ∃ s', s.setDescCell di c = some s' := by
  unfold FS.getDescCell at hgc
  rcases hpg : pyGet s.descBlocks (di.fdiv 32) with _ | b
  · rw [hpg] at hgc
    cases hgc
  have hbmem : b ∈ s.descBlocks := pyGet_mem _ _ _ hpg
  obtain ⟨cs, hcs, hcsl, _⟩ := hblocks b hbmem
  subst hcs
  have hdblen : s.descBlocks.length = 6 := by
    unfold FS.descBlocks
    rw [List.length_take, List.length_drop, hlen]
    omega
  obtain ⟨j, hpidx, hgj⟩ := pyGet_pyIdx s.descBlocks (di.fdiv 32) _ hpg
  rw [hdblen] at hpidx
  have hj6 : j < 6 := pyIdx_lt 6 _ j hpidx
  unfold FS.setDescCell
  simp only [hpidx]
  have hdg : pyGet s.disk ((j + 1 : Nat) : Int) = some (.descBlock cs) := by
    unfold pyGet
    rw [if_pos (by omega : (0 : Int) ≤ ((j + 1 : Nat) : Int))]
    show s.disk.get? (j + 1) = _
    rw [← descBlocks_get? s j hj6]
    exact hgj
  simp only [hdg]
  have hm32 : (di.emod 32).toNat < cs.length := by
    have h1 : di.emod 32 < 32 := Int.emod_lt_of_pos di (by omega)
    have h2 : (0 : Int) ≤ di.emod 32 := Int.emod_nonneg di (by omega)
    omega
  obtain ⟨cs', hcs'⟩ := (setAt_some_iff cs (di.emod 32).toNat c).mpr hm32
  rw [pySet_nonneg cs (di.emod 32) c (Int.emod_nonneg di (by omega)), hcs']
  show ∃ s', (s.diskSet ((j + 1 : Nat) : Int) (.descBlock cs')) = some s'
  unfold FS.diskSet
  rw [pySet_nonneg _ _ _ (by omega : (0 : Int) ≤ ((j + 1 : Nat) : Int))]
  obtain ⟨d', hd'⟩ := (setAt_some_iff s.disk (((j + 1 : Nat) : Int)).toNat
    (.descBlock cs')).mpr (by
      show j + 1 < s.disk.length
      omega)
  rw [hd']
  exact ⟨_, rfl⟩

theorem bitmapSet_ok (s : FS) (i v : Int) (bm : List Int)
    (hbm : s.disk.get? 0 = some (.ints bm)) (h0 : 0 ≤ i) (hlt : i.toNat < bm.length) :
    ∃ s', s.bitmapSet i v = some s' := by
  unfold FS.bitmapSet
  have hpg : pyGet s.disk 0 = some (.ints bm) := by
    unfold pyGet
    rw [if_pos (le_refl 0)]
    exact hbm
  rw [hpg]
  show ∃ s', (pySet bm i v).bind (fun l' => s.diskSet 0 (.ints l')) = some s'
  rw [pySet_nonneg _ _ _ h0]
  obtain ⟨bm', hbm'⟩ := (setAt_some_iff bm i.toNat v).mpr hlt
  rw [hbm']
  show ∃ s', s.diskSet 0 (.ints bm') = some s'
  unfold FS.diskSet
  rw [pySet_nonneg _ _ _ (le_refl 0)]
  obtain ⟨d', hd'⟩ := (setAt_some_iff s.disk (0 : Int).toNat (.ints bm')).mpr (by
    show 0 < s.disk.length
    rcases List.get?_eq_some.mp hbm with ⟨hl, _⟩
    omega)
  rw [hd']
  exact ⟨_, rfl⟩

theorem freeBlocksAux_c1 : ∀ (l : List Int) (s : FS) (bm : List Int),
    (∀ r ∈ l, r = 0 ∨ (7 ≤ r ∧ r ≤ 63)) →
    s.disk.get? 0 = some (.ints bm) → bm.length = 64 → s.disk.length = 64 →
    ∃ s1 bm1, freeBlocksAux s l = .ok () s1 ∧
      s1.disk.get? 0 = some (.ints bm1) ∧ bm1.length = 64 ∧
      s1.descBlocks = s.descBlocks ∧ s1.disk.length = 64 ∧
      (∀ k : Nat, bm1.get? k = bm.get? k ∨ bm1.get? k = some 0) ∧
      (∀ k : Nat, ((k : Int) ∉ l ∨ (k : Int) = 0) → bm1.get? k = bm.get? k) := by
  intro l
  induction l with
  | nil =>
    intro s bm _ hbm hbml hdl
    exact ⟨s, bm, rfl, hbm, hbml, rfl, hdl, fun k => Or.inl rfl, fun k _ => rfl⟩
  | cons bn rest ih =>
    intro s bm hall hbm hbml hdl
    simp only [freeBlocksAux]
    by_cases hbn : bn ≠ 0
    · rw [if_pos hbn]
      have hbn763 : 7 ≤ bn ∧ bn ≤ 63 := by
        rcases hall bn (by simp) with hz | hr
        · exact absurd hz hbn
        · exact hr
      obtain ⟨sA, hsA⟩ := bitmapSet_ok s bn 0 bm hbm (by omega) (by omega)
      rw [hsA]
      obtain ⟨bmA, hbmA, hbmAeq, hltA, hlenA, hdbA⟩ := bitmapSet_c1 s bn 0 sA bm hsA hbm (by omega)
      obtain ⟨s1, bm1, hfb, hbm1, hbm1l, hdb1, hdl1, hor1, hkeep1⟩ :=
        ih sA bmA (fun r hr => hall r (by simp [hr])) hbmA
          (by rw [hbmAeq, List.length_set]; exact hbml) (by rw [hlenA]; exact hdl)
      refine ⟨s1, bm1, hfb, hbm1, hbm1l, by rw [hdb1, hdbA], hdl1, ?_, ?_⟩
      · intro k
        rcases hor1 k with hh | hh
        · rw [hh, hbmAeq]
          by_cases hke : k = bn.toNat
          · subst hke
            right
            exact get?_set_self bm bn.toNat 0 (by omega)
          · left
            rw [List.get?_set_ne]
            omega
        · exact Or.inr hh
      · intro k hk
        have hknotbn : (k : Int) ≠ bn ∨ (k : Int) = 0 := by
          rcases hk with hk | hk
          · left
            intro hh
            exact hk (by rw [hh]; simp)
          · exact Or.inr hk
        have hkeep : bm1.get? k = bmA.get? k := by
          refine hkeep1 k ?_
          rcases hk with hk | hk
          · left
            intro hh
            exact hk (by simp [hh])
          · exact Or.inr hk
        rw [hkeep, hbmAeq]
        rcases hknotbn with hh | hh
        · rw [List.get?_set_ne]
          omega
        · rw [List.get?_set_ne]
          omega
    · rw [if_neg hbn]
      obtain ⟨s1, bm1, hfb, hbm1, hbm1l, hdb1, hdl1, hor1, hkeep1⟩ :=
        ih s bm (fun r hr => hall r (by simp [hr])) hbm hbml hdl
      refine ⟨s1, bm1, hfb, hbm1, hbm1l, hdb1, hdl1, hor1, ?_⟩
      intro k hk
      refine hkeep1 k ?_
      rcases hk with hk | hk
      · left
        intro hh
        exact hk (by simp [hh])
      · exact Or.inr hk

theorem destroy_invC1 (s : FS) (name : String) (hI : InvC1 s) :
    InvC1 (s.destroy name).state := by
  unfold FS.destroy
  rcases hdf : s.dirFind name with _ | (_ | ⟨dirIndex, descIndex⟩) <;> try exact hI
  simp only []
  rcases hgc : s.getDescCell descIndex with _ | (fields | rr) <;> try exact hI
  simp only []
  obtain ⟨hlen0, ⟨bm, hbm, hbml, hv, h06, hrefs⟩, hblocks0, hnd0⟩ := id hI
  obtain ⟨f0, f1, f2, f3, hfe⟩ := dCells_struct s (.d fields) hblocks0
    (getDescCell_mem_dCells s descIndex _ hgc hblocks0)
  injection hfe with hfe2
  subst hfe2
  have hlref : ∀ r ∈ (([f0, f1, f2, f3].drop 1).take 3), r = 0 ∨ (7 ≤ r ∧ r ≤ 63) := by
    intro r hr
    by_cases hz : r = 0
    · exact Or.inl hz
    · right
      have hcr : r ∈ cellRefs (DescCell.d [f0, f1, f2, f3]) := by
        show r ∈ ([f1, f2, f3].filter fun v => !(v == 0))
        rw [List.mem_filter]
        exact ⟨hr, by simp [hz]⟩
      obtain ⟨h7, h63, _⟩ := hrefs r (allRefs_of_cell s _ r
        (getDescCell_mem_dCells s descIndex _ hgc hblocks0) hcr)
      exact ⟨h7, h63⟩
  obtain ⟨s1, bm1, hfb, hbm1, hbm1l, hdb1, hdl1, hor1, hkeep1⟩ :=
    freeBlocksAux_c1 _ s bm hlref hbm hbml hlen0
  rw [hfb]
  simp only []
  have hblocks1 : ∀ b ∈ s1.descBlocks, ∃ cs, b = Blk.descBlock cs ∧ cs.length = 32 ∧
      ∀ cc ∈ cs, ∃ g0 g1 g2 g3, cc = DescCell.d [g0, g1, g2, g3] := by
    rw [hdb1]
    exact hblocks0
  have hgc1 : s1.getDescCell descIndex = some (.d [f0, f1, f2, f3]) := by
    rw [getDescCell_congr s s1 descIndex hdb1]
    exact hgc
  obtain ⟨s2, hsc⟩ := setDescCell_ok s1 descIndex (.d [-1, 0, 0, 0]) _ hgc1 hdl1 hblocks1
  rw [hsc]
  simp only []
  obtain ⟨hg0, hlen2, _, hblocks2, pre, post, old, holdg, hd, hd'⟩ :=
    setDescCell_dCells s1 descIndex (.d [-1, 0, 0, 0]) s2 hsc hdl1 hblocks1
      ⟨-1, 0, 0, 0, rfl⟩
  have hold : old = .d [f0, f1, f2, f3] := by
    rw [hgc1] at holdg
    injection holdg with hh
    exact hh.symm
  subst hold
  have hI2 : InvC1 s2 := by
    have har1 : allRefs s1 = pre.bind cellRefs ++
        (cellRefs (DescCell.d [f0, f1, f2, f3]) ++ post.bind cellRefs) := by
      unfold allRefs
      rw [hd]
      simp [List.append_bind, List.cons_bind]
    have har2 : allRefs s2 = pre.bind cellRefs ++ ([] ++ post.bind cellRefs) := by
      unfold allRefs
      rw [hd']
      simp [List.append_bind, List.cons_bind]
      rfl
    have har0 : allRefs s = allRefs s1 := by
      unfold allRefs dCells
      rw [hdb1]
    have hnd1 : (allRefs s1).Nodup := by
      rw [← har0]
      exact hnd0
    have hndDec : (pre.bind cellRefs ++ (cellRefs (DescCell.d [f0, f1, f2, f3]) ++
        post.bind cellRefs)).Nodup := by
      rw [← har1]
      exact hnd1
    obtain ⟨hndM, hdisjM⟩ := nodup_middle_facts (pre.bind cellRefs) _
      (post.bind cellRefs) hndDec
    refine ⟨hlen2, ⟨bm1, by rw [hg0]; exact hbm1, hbm1l, ?_, ?_, ?_⟩, hblocks2, ?_⟩
    · intro v hv1
      rcases List.mem_iff_get?.mp hv1 with ⟨k, hk⟩
      rcases hor1 k with hh | hh
      · rw [hh] at hk
        exact hv v (List.get?_mem hk)
      · rw [hh] at hk
        injection hk with hk2
        exact Or.inl hk2.symm
    · intro k hk
      have hkeep : bm1.get? k = bm.get? k := by
        refine hkeep1 k ?_
        by_cases hk0 : (k : Int) = 0
        · exact Or.inr hk0
        · left
          intro hmem
          rcases hlref _ hmem with hz | hr
          · exact hk0 hz
          · omega
      rw [hkeep]
      exact h06 k hk
    · intro r hr
      rw [har2] at hr
      have hr' : r ∈ pre.bind cellRefs ∨ r ∈ post.bind cellRefs := by
        rcases List.mem_append.mp hr with hh | hh
        · exact Or.inl hh
        · rcases List.mem_append.mp hh with hh2 | hh2
          · cases hh2
          · exact Or.inr hh2
      have hrs : r ∈ allRefs s := by
        rw [har0, har1]
        rcases hr' with hh | hh
        · exact List.mem_append.mpr (Or.inl hh)
        · exact List.mem_append.mpr (Or.inr (List.mem_append.mpr (Or.inr hh)))
      obtain ⟨h7, h63, hbit⟩ := hrefs r hrs
      refine ⟨h7, h63, ?_⟩
      have hkeep : bm1.get? r.toNat = bm.get? r.toNat := by
        refine hkeep1 r.toNat ?_
        left
        intro hmem
        have hrZ : ((r.toNat : Nat) : Int) = r := by omega
        rw [hrZ] at hmem
        have hcr : r ∈ cellRefs (DescCell.d [f0, f1, f2, f3]) := by
          show r ∈ ([f1, f2, f3].filter fun v => !(v == 0))
          rw [List.mem_filter]
          refine ⟨hmem, by simp; omega⟩
        rcases hr' with hh | hh
        · exact (hdisjM r hcr).1 hh
        · exact (hdisjM r hcr).2 hh
      rw [hkeep]
      exact hbit
    · rw [har2]
      refine nodup_middle_replace _ _ [] _ hndDec List.nodup_nil ?_
      intro r hr
      cases hr
  rcases hds : s2.dirSet (↑dirIndex) (.entry "" 0) with _ | s3
  · exact hI2
  simp only []
  exact dirSet_c1 s2 _ _ s3 hds hI2

theorem filter_cons_append {α : Type} (p : α → Bool) (a : α) (l : List α) :
    (a :: l).filter p = [a].filter p ++ l.filter p := by
  by_cases h : p a <;> simp [List.filter_cons, h]

theorem mem_filter_set {α : Type} (l : List α) (j : Nat) (v : α) (p : α → Bool)
    (x : α) (old : α) (hold : l.get? j = some old)
    (hx : x ∈ (l.set j v).filter p) : x = v ∨ x ∈ l.filter p := by
  obtain ⟨A, B, hAB, hset⟩ := set_decomp l j old hold
  rw [hset v, List.filter_append, filter_cons_append] at hx
  rcases List.mem_append.mp hx with hh | hh
  · right
    rw [hAB, List.filter_append]
    exact List.mem_append.mpr (Or.inl hh)
  rcases List.mem_append.mp hh with hh2 | hh2
  · left
    rcases List.mem_filter.mp hh2 with ⟨hm, _⟩
    rw [List.mem_singleton] at hm
    exact hm
  · right
    rw [hAB, List.filter_append, filter_cons_append]
    exact List.mem_append.mpr (Or.inr (List.mem_append.mpr (Or.inr hh2)))

theorem nodup_filter_set {α : Type} (l : List α) (j : Nat) (v : α) (p : α → Bool)
    (old : α) (hold : l.get? j = some old)
    (hnd : (l.filter p).Nodup) (hv : v ∉ l.filter p) :
    ((l.set j v).filter p).Nodup := by
  obtain ⟨A, B, hAB, hset⟩ := set_decomp l j old hold
  rw [hset v, List.filter_append, filter_cons_append]
  rw [hAB, List.filter_append, filter_cons_append] at hnd hv
  refine nodup_middle_replace _ _ _ _ hnd ?_ ?_
  · by_cases h : p v
    · simp [List.filter_cons, h]
    · simp [List.filter_cons, h]
  · intro r hr
    have hrv : r = v := by
      rcases List.mem_filter.mp hr with ⟨hm, _⟩
      rw [List.mem_singleton] at hm
      exact hm
    subst hrv
    constructor
    · intro hra
      exact hv (List.mem_append.mpr (Or.inl hra))
    · intro hrb
      exact hv (List.mem_append.mpr (Or.inr (List.mem_append.mpr (Or.inr hrb))))

theorem write_block_ge7_c1 (s : FS) (i : Int) (data : Blk) (s' : FS)
    (h : s.write_block i data = some s') (h7 : 7 ≤ i) :
    s'.disk.get? 0 = s.disk.get? 0 ∧ s'.descBlocks = s.descBlocks ∧
    s'.disk.length = s.disk.length := by
  unfold FS.write_block at h
  by_cases h1 : i < 0 ∨ i > 63
  · rw [if_pos h1] at h
    cases h
  rw [if_neg h1] at h
  by_cases h2 : data.len ≠ 512
  · rw [if_pos h2] at h
    cases h
  rw [if_neg h2] at h
  have hds : s.diskSet i data = some s' := by
    unfold FS.diskSet
    exact h
  exact ⟨diskSet_ge7_get0 s i data s' hds h7,
    (diskSet_ge7_spec s i data s' hds h7).2.2,
    (diskSet_ge7_spec s i data s' hds h7).2.1⟩

theorem getDescField_ref_bound (s : FS) (di k bn : Int) (hI : InvC1 s)
    (hk : k = 1 ∨ k = 2 ∨ k = 3) (h : s.getDescField di k = some bn)
    (hbn : bn ≠ 0) : 7 ≤ bn ∧ bn ≤ 63 := by
  unfold FS.getDescField at h
  rcases hgc : s.getDescCell di with _ | c
  · rw [hgc] at h
    cases h
  rcases c with fields | rr
  · simp only [hgc] at h
    obtain ⟨f0, f1, f2, f3, hfe⟩ := dCells_struct s (.d fields) hI.2.2.1
      (getDescCell_mem_dCells s di _ hgc hI.2.2.1)
    injection hfe with hfe2
    subst hfe2
    have hcr : bn ∈ cellRefs (DescCell.d [f0, f1, f2, f3]) :=
      cellRefs_field_mem f0 f1 f2 f3 k bn hk h hbn
    obtain ⟨h7, h63, _⟩ := hI.2.1.choose_spec.2.2.2.2 bn
      (allRefs_of_cell s _ bn (getDescCell_mem_dCells s di _ hgc hI.2.2.1) hcr)
    exact ⟨h7, h63⟩
  · rw [hgc] at h
    cases h

theorem setDescField0_invC1 (s : FS) (di v : Int) (s' : FS)
    (h : s.setDescField di 0 v = some s') (hI : InvC1 s) : InvC1 s' := by
  obtain ⟨hg0, hlen', _, hblocks', pre, post, fields, hgc, hflen, hd, hd'⟩ :=
    setDescField_dCells s di 0 v s' h hI.1 hI.2.2.1 (le_refl 0)
  obtain ⟨f0, f1, f2, f3, hfe⟩ := dCells_struct s (.d fields) hI.2.2.1
    (getDescCell_mem_dCells s di _ hgc hI.2.2.1)
  injection hfe with hfe2
  subst hfe2
  have hcreq : cellRefs (DescCell.d ([f0, f1, f2, f3].set (0 : Int).toNat v)) =
      cellRefs (DescCell.d [f0, f1, f2, f3]) := rfl
  obtain ⟨hlen0, ⟨bm, hbm, hbml, hv, h06, hrefs⟩, hblocks0, hnd0⟩ := id hI
  have har : allRefs s = pre.bind cellRefs ++
      (cellRefs (DescCell.d [f0, f1, f2, f3]) ++ post.bind cellRefs) := by
    unfold allRefs
    rw [hd]
    simp [List.append_bind, List.cons_bind]
  obtain ⟨hndM, hdisjM⟩ := nodup_middle_facts (pre.bind cellRefs) _
    (post.bind cellRefs) (by rw [← har]; exact hnd0)
  exact invC1_replace s s' pre post (DescCell.d [f0, f1, f2, f3])
    (DescCell.d ([f0, f1, f2, f3].set (0 : Int).toNat v)) bm hd hd' hg0 hlen' hblocks' hI hbm
    (by
      rw [hcreq]
      intro r hr
      refine hrefs r ?_
      rw [har]
      exact List.mem_append.mpr (Or.inr (List.mem_append.mpr (Or.inl hr))))
    (by rw [hcreq]; exact hndM)
    (by rw [hcreq]; exact hdisjM)

theorem alloc_step_invC1 (s : FS) (di k nb : Int) (sA sB : FS)
    (hI : InvC1 s) (hk : k = 2 ∨ k = 3)
    (hffb : s.find_free_block = some nb) (hnb1 : ¬nb = -1)
    (hsdf : s.setDescField di k nb = some sA)
    (hbs : sA.bitmapSet nb 1 = some sB) :
    InvC1 sB := by
  obtain ⟨hlen0, ⟨bm, hbm, hbml, hv, h06, hrefs⟩, hblocks0, hnd0⟩ := id hI
  have hnbr : 8 ≤ nb ∧ nb ≤ 63 := by
    rcases find_free_block_range s nb hffb with h1 | h1
    · exact absurd h1 hnb1
    · exact h1
  have hbit0 : bm.get? nb.toNat = some 0 := by
    rcases findFreeBlockAux_zero s 56 8 nb hffb with h1 | h1
    · exact absurd h1 hnb1
    · rw [bitmapGet_eq s bm nb hbm (by omega)] at h1
      exact h1
  have hfresh0 : nb ∉ allRefs s := by
    intro hmem
    obtain ⟨_, _, hbit1⟩ := hrefs nb hmem
    rw [hbit0] at hbit1
    cases hbit1
  obtain ⟨hg0, hlenA, _, hblocksA, pre, post, fields, hgc, hflen, hd, hd'⟩ :=
    setDescField_dCells s di k nb sA hsdf hI.1 hI.2.2.1 (by rcases hk with hk | hk <;> omega)
  obtain ⟨f0, f1, f2, f3, hfe⟩ := dCells_struct s (.d fields) hI.2.2.1
    (getDescCell_mem_dCells s di _ hgc hI.2.2.1)
  injection hfe with hfe2
  subst hfe2
  obtain ⟨bmB, hbmB, hbmBeq, hltB, hlenB, hdbB⟩ :=
    bitmapSet_c1 sA nb 1 sB bm hbs (by rw [hg0]; exact hbm) (by omega)
  have hblocksB : ∀ b ∈ sB.descBlocks, ∃ cs, b = Blk.descBlock cs ∧ cs.length = 32 ∧
      ∀ cc ∈ cs, ∃ g0 g1 g2 g3, cc = DescCell.d [g0, g1, g2, g3] := by
    rw [hdbB]
    exact hblocksA
  have hdCB : dCells sB = dCells sA := by
    unfold dCells
    rw [hdbB]
  have hshape : cellRefs (DescCell.d ([f0, f1, f2, f3].set k.toNat nb)) =
      (([f1, f2, f3].set (k.toNat - 1) nb).filter fun v => !(v == 0)) := by
    rcases hk with hk | hk <;> subst hk <;> rfl
  obtain ⟨oldf, hget⟩ : ∃ oldf, [f1, f2, f3].get? (k.toNat - 1) = some oldf := by
    rcases hk with hk | hk <;> subst hk
    · exact ⟨f2, rfl⟩
    · exact ⟨f3, rfl⟩
  have hMeq : cellRefs (DescCell.d [f0, f1, f2, f3]) =
      ([f1, f2, f3].filter fun v => !(v == 0)) := rfl
  have har : allRefs s = pre.bind cellRefs ++
      (cellRefs (DescCell.d [f0, f1, f2, f3]) ++ post.bind cellRefs) := by
    unfold allRefs
    rw [hd]
    simp [List.append_bind, List.cons_bind]
  obtain ⟨hndM, hdisjM⟩ := nodup_middle_facts (pre.bind cellRefs) _
    (post.bind cellRefs) (by rw [← har]; exact hnd0)
  have harB : allRefs sB = pre.bind cellRefs ++
      (cellRefs (DescCell.d ([f0, f1, f2, f3].set k.toNat nb)) ++ post.bind cellRefs) := by
    unfold allRefs
    rw [hdCB, hd']
    simp [List.append_bind, List.cons_bind]
  have hmemM : ∀ r, r ∈ cellRefs (DescCell.d ([f0, f1, f2, f3].set k.toNat nb)) →
      r = nb ∨ r ∈ cellRefs (DescCell.d [f0, f1, f2, f3]) := by
    intro r hr
    rw [hshape] at hr
    rcases mem_filter_set [f1, f2, f3] (k.toNat - 1) nb _ r oldf hget hr with hh | hh
    · exact Or.inl hh
    · right
      rw [hMeq]
      exact hh
  have hnbnotM : nb ∉ ([f1, f2, f3].filter fun v => !(v == 0)) := by
    intro hmem
    refine hfresh0 ?_
    rw [har]
    refine List.mem_append.mpr (Or.inr (List.mem_append.mpr (Or.inl ?_)))
    rw [hMeq]
    exact hmem
  refine ⟨by rw [hlenB]; exact hlenA, ⟨bmB, hbmB, ?_, ?_, ?_, ?_⟩, hblocksB, ?_⟩
  · rw [hbmBeq, List.length_set]
    exact hbml
  · intro w hw
    rw [hbmBeq] at hw
    rcases List.mem_or_eq_of_mem_set hw with hwo | hwe
    · exact hv w hwo
    · exact Or.inr hwe
  · intro kk hkk
    rw [hbmBeq]
    rw [List.get?_set_ne]
    · exact h06 kk hkk
    · omega
  · intro r hr
    rw [harB] at hr
    rcases List.mem_append.mp hr with hrp | hr2
    · obtain ⟨h7, h63, hbit⟩ := hrefs r (by
        rw [har]
        exact List.mem_append.mpr (Or.inl hrp))
      refine ⟨h7, h63, ?_⟩
      rw [hbmBeq]
      by_cases hke : r.toNat = nb.toNat
      · rw [hke, get?_set_self bm nb.toNat 1 hltB]
      · rw [List.get?_set_ne]
        · exact hbit
        · omega
    rcases List.mem_append.mp hr2 with hrm | hrq
    · rcases hmemM r hrm with hh | hh
      · subst hh
        refine ⟨by omega, by omega, ?_⟩
        rw [hbmBeq]
        exact get?_set_self bm r.toNat 1 hltB
      · obtain ⟨h7, h63, hbit⟩ := hrefs r (by
          rw [har]
          exact List.mem_append.mpr (Or.inr (List.mem_append.mpr (Or.inl hh))))
        refine ⟨h7, h63, ?_⟩
        rw [hbmBeq]
        by_cases hke : r.toNat = nb.toNat
        · rw [hke, get?_set_self bm nb.toNat 1 hltB]
        · rw [List.get?_set_ne]
          · exact hbit
          · omega
    · obtain ⟨h7, h63, hbit⟩ := hrefs r (by
        rw [har]
        exact List.mem_append.mpr (Or.inr (List.mem_append.mpr (Or.inr hrq))))
      refine ⟨h7, h63, ?_⟩
      rw [hbmBeq]
      by_cases hke : r.toNat = nb.toNat
      · rw [hke, get?_set_self bm nb.toNat 1 hltB]
      · rw [List.get?_set_ne]
        · exact hbit
        · omega
  · rw [harB]
    refine nodup_middle_replace _ _ _ _ (by rw [← har]; exact hnd0) ?_ ?_
    · rw [hshape]
      refine nodup_filter_set [f1, f2, f3] (k.toNat - 1) nb _ oldf hget ?_ hnbnotM
      rw [← hMeq]
      exact hndM
    · intro r hr
      rcases hmemM r hr with hh | hh
      · subst hh
        constructor
        · intro hra
          refine hfresh0 ?_
          rw [har]
          exact List.mem_append.mpr (Or.inl hra)
        · intro hrb
          refine hfresh0 ?_
          rw [har]
          exact List.mem_append.mpr (Or.inr (List.mem_append.mpr (Or.inr hrb)))
      · exact hdisjM r hh

theorem writeLoop_invC1 (idx di : Int) (mem : List Int) (count : Int) (hidx : 0 ≤ idx) :
    ∀ (fuel : Nat) (s : FS) (bw : Int),
      InvC1 s → (∀ e0, s.oftGet idx = some e0 → 0 ≤ e0.current_pos) →
      InvC1 (writeLoopAux idx di mem count fuel s bw).state := by
  intro fuel
  induction fuel with
  | zero =>
    intro s bw hI hpos
    exact hI
  | succ fuel ih =>
    intro s bw hI hpos
    simp only [writeLoopAux]
    rcases hoe : s.oftGet idx with _ | e
    · exact hI
    simp only []
    have hep : (0 : Int) ≤ e.current_pos := hpos e hoe
    by_cases h3 : e.current_pos.fdiv 512 ≥ 3
    · rw [if_pos h3]
      exact hI
    rw [if_neg h3]
    have hfd0 : (0 : Int) ≤ e.current_pos.fdiv 512 := Int.fdiv_nonneg hep (by omega)
    by_cases halloc : e.current_pos.emod 512 = 0 ∧ e.current_pos.fdiv 512 > 0
    · rw [if_pos halloc]
      rcases hffb : s.find_free_block with _ | nb
      · exact hI
      simp only []
      by_cases hnb1 : nb = -1
      · rw [if_pos hnb1]
        simp only []
        exact hI
      rw [if_neg hnb1]
      rcases hsdf : s.setDescField di (1 + e.current_pos.fdiv 512) nb with _ | sA
      · exact hI
      simp only []
      rcases hbs : sA.bitmapSet nb 1 with _ | sB
      · exact hI
      simp only []
      rcases hogB : sB.oftGet idx with _ | eB
      · exact hI
      simp only []
      rcases hosB : sB.oftSet idx { eB with buffer := .ints (List.replicate 512 0) } with _ | sC
      · exact hI
      simp only [Option.map_some']
      have hIB : InvC1 sB := alloc_step_invC1 s di (1 + e.current_pos.fdiv 512) nb sA sB hI
        (by omega) hffb hnb1 hsdf hbs
      have hIC : InvC1 sC := invC1_disk_congr sB sC
        (oftSet_spec sB idx { eB with buffer := .ints (List.replicate 512 0) } sC hosB hidx).1 hIB
      have hBA : sB.oft = s.oft := by
        rw [bitmapSet_oft sA nb 1 sB hbs,
          setDescField_oft s di (1 + e.current_pos.fdiv 512) nb sA hsdf]
      have heB : eB = e := by
        have hh := hogB
        rw [oftGet_congr s sB idx hBA, hoe] at hh
        exact (Option.some_inj.mp hh).symm
      have hogC : sC.oftGet idx = some { eB with buffer := .ints (List.replicate 512 0) } :=
        (oftSet_spec sB idx _ sC hosB hidx).2
      have hposC : ∀ e0, sC.oftGet idx = some e0 → 0 ≤ e0.current_pos := by
        intro e0 he0
        rw [hogC] at he0
        cases he0
        show (0 : Int) ≤ eB.current_pos
        rw [heB]
        exact hep
      rcases hog1 : sC.oftGet idx with _ | e1
      · exact hIC
      simp only []
      rcases hpgv : pyGet mem bw with _ | v
      · exact hIC
      simp only []
      rcases hsb : e1.buffer.setByte (e.current_pos.emod 512) v with _ | buf
      · exact hIC
      simp only []
      rcases hos2 : sC.oftSet idx { e1 with buffer := buf, current_pos := e1.current_pos + 1 } with _ | s2
      · exact hIC
      simp only []
      have hI2c : InvC1 s2 := invC1_disk_congr sC s2
        (oftSet_spec sC idx { e1 with buffer := buf, current_pos := e1.current_pos + 1 } s2 hos2 hidx).1 hIC
      have hog2 : s2.oftGet idx =
          some { e1 with buffer := buf, current_pos := e1.current_pos + 1 } :=
        (oftSet_spec sC idx _ s2 hos2 hidx).2
      have he1cp : 0 ≤ e1.current_pos := hposC e1 hog1
      have hcont : ∀ s3 : FS, InvC1 s3 → s3.oft = s2.oft →
          InvC1 (match s3.getDescField di 0 with
            | none => Res.fault s3
            | some flen =>
              match (if e1.current_pos + 1 > flen then
                       s3.setDescField di 0 (e1.current_pos + 1)
                     else some s3) with
              | none => Res.fault s3
              | some s4 => writeLoopAux idx di mem count fuel s4 (bw + 1)).state := by
        intro s3 hI3c h32
        have hog3 : s3.oftGet idx =
            some { e1 with buffer := buf, current_pos := e1.current_pos + 1 } := by
          rw [oftGet_congr s2 s3 idx h32]
          exact hog2
        rcases hgf : s3.getDescField di 0 with _ | flen
        · exact hI3c
        simp only []
        by_cases hgt : e1.current_pos + 1 > flen
        · rw [if_pos hgt]
          rcases hsl : s3.setDescField di 0 (e1.current_pos + 1) with _ | s4
          · exact hI3c
          simp only []
          refine ih s4 (bw + 1) (setDescField0_invC1 s3 di (e1.current_pos + 1) s4 hsl hI3c) ?_
          intro e0 he0
          rw [oftGet_congr s3 s4 idx
            (setDescField_oft s3 di 0 (e1.current_pos + 1) s4 hsl), hog3] at he0
          cases he0
          show (0 : Int) ≤ e1.current_pos + 1
          omega
        · rw [if_neg hgt]
          simp only []
          refine ih s3 (bw + 1) hI3c ?_
          intro e0 he0
          rw [hog3] at he0
          cases he0
          show (0 : Int) ≤ e1.current_pos + 1
          omega
      by_cases hflc : e.current_pos.emod 512 = 511 ∨ bw + 1 = count
      · rw [if_pos hflc]
        rcases hgfb : s2.getDescField di (1 + e.current_pos.fdiv 512) with _ | bn
        · exact hI2c
        simp only []
        by_cases hbn : bn ≠ 0
        · rw [if_pos hbn]
          rcases hwb : s2.write_block bn buf with _ | sw
          · exact hI2c
          simp only []
          have hbnr : 7 ≤ bn ∧ bn ≤ 63 :=
            getDescField_ref_bound s2 di (1 + e.current_pos.fdiv 512) bn hI2c
              (by omega) hgfb hbn
          obtain ⟨hwg0, hwdb, hwlen⟩ := write_block_ge7_c1 s2 bn buf sw hwb (by omega)
          refine hcont sw (invC1_congr s2 sw hwg0 hwdb (by rw [hwlen]; exact hI2c.1) hI2c)
            (write_block_oft s2 bn buf sw hwb)
        · rw [if_neg hbn]
          simp only []
          exact hcont s2 hI2c rfl
      · rw [if_neg hflc]
        simp only []
        exact hcont s2 hI2c rfl
    · rw [if_neg halloc]
      simp only []
      rcases hog1 : s.oftGet idx with _ | e1
      · exact hI
      simp only []
      rcases hpgv : pyGet mem bw with _ | v
      · exact hI
      simp only []
      rcases hsb : e1.buffer.setByte (e.current_pos.emod 512) v with _ | buf
      · exact hI
      simp only []
      rcases hos2 : s.oftSet idx { e1 with buffer := buf, current_pos := e1.current_pos + 1 } with _ | s2
      · exact hI
      simp only []
      have hI2c : InvC1 s2 := invC1_disk_congr s s2
        (oftSet_spec s idx { e1 with buffer := buf, current_pos := e1.current_pos + 1 } s2 hos2 hidx).1 hI
      have hog2 : s2.oftGet idx =
          some { e1 with buffer := buf, current_pos := e1.current_pos + 1 } :=
        (oftSet_spec s idx _ s2 hos2 hidx).2
      have he1cp : 0 ≤ e1.current_pos := hpos e1 hog1
      have hcont : ∀ s3 : FS, InvC1 s3 → s3.oft = s2.oft →
          InvC1 (match s3.getDescField di 0 with
            | none => Res.fault s3
            | some flen =>
              match (if e1.current_pos + 1 > flen then
                       s3.setDescField di 0 (e1.current_pos + 1)
                     else some s3) with
              | none => Res.fault s3
              | some s4 => writeLoopAux idx di mem count fuel s4 (bw + 1)).state := by
        intro s3 hI3c h32
        have hog3 : s3.oftGet idx =
            some { e1 with buffer := buf, current_pos := e1.current_pos + 1 } := by
          rw [oftGet_congr s2 s3 idx h32]
          exact hog2
        rcases hgf : s3.getDescField di 0 with _ | flen
        · exact hI3c
        simp only []
        by_cases hgt : e1.current_pos + 1 > flen
        · rw [if_pos hgt]
          rcases hsl : s3.setDescField di 0 (e1.current_pos + 1) with _ | s4
          · exact hI3c
          simp only []
          refine ih s4 (bw + 1) (setDescField0_invC1 s3 di (e1.current_pos + 1) s4 hsl hI3c) ?_
          intro e0 he0
          rw [oftGet_congr s3 s4 idx
            (setDescField_oft s3 di 0 (e1.current_pos + 1) s4 hsl), hog3] at he0
          cases he0
          show (0 : Int) ≤ e1.current_pos + 1
          omega
        · rw [if_neg hgt]
          simp only []
          refine ih s3 (bw + 1) hI3c ?_
          intro e0 he0
          rw [hog3] at he0
          cases he0
          show (0 : Int) ≤ e1.current_pos + 1
          omega
      by_cases hflc : e.current_pos.emod 512 = 511 ∨ bw + 1 = count
      · rw [if_pos hflc]
        rcases hgfb : s2.getDescField di (1 + e.current_pos.fdiv 512) with _ | bn
        · exact hI2c
        simp only []
        by_cases hbn : bn ≠ 0
        · rw [if_pos hbn]
          rcases hwb : s2.write_block bn buf with _ | sw
          · exact hI2c
          simp only []
          have hbnr : 7 ≤ bn ∧ bn ≤ 63 :=
            getDescField_ref_bound s2 di (1 + e.current_pos.fdiv 512) bn hI2c
              (by omega) hgfb hbn
          obtain ⟨hwg0, hwdb, hwlen⟩ := write_block_ge7_c1 s2 bn buf sw hwb (by omega)
          refine hcont sw (invC1_congr s2 sw hwg0 hwdb (by rw [hwlen]; exact hI2c.1) hI2c)
            (write_block_oft s2 bn buf sw hwb)
        · rw [if_neg hbn]
          simp only []
          exact hcont s2 hI2c rfl
      · rw [if_neg hflc]
        simp only []
        exact hcont s2 hI2c rfl

theorem write_invC1 (s : FS) (i : Int) (mem : List Int) (count : Int)
    (hI : InvC1 s) (hI8 : InvC8 s) : InvC1 (s.write i mem count).state := by
  unfold FS.write
  by_cases hir : i < 0 ∨ i > 3
  · rw [if_pos hir]
    exact hI
  rw [if_neg hir]
  rcases hoe : s.oftGet i with _ | e
  · exact hI
  simp only []
  by_cases hcp : e.current_pos = -1
  · rw [if_pos hcp]
    exact hI
  rw [if_neg hcp]
  rcases hgc : s.getDescCell e.descriptor_index with _ | cell
  · exact hI
  simp only []
  refine writeLoop_invC1 i e.descriptor_index mem count (by omega) count.toNat s 0 hI ?_
  intro e0 he0
  rw [hoe] at he0
  cases he0
  rcases hI8.2.1 i.toNat e (oftGet_get? s i e (by omega) hoe) with h | h
  · exact absurd h hcp
  · exact h

theorem invC1_init : InvC1 initFS := by
  refine ⟨by decide, ?_, ?_, ?_⟩
  · refine ⟨List.replicate 8 1 ++ List.replicate 56 0, by decide, by decide, by decide, ?_, ?_⟩
    · intro k hk
      interval_cases k <;> rfl
    · have hall : allRefs initFS = [7] := by decide
      rw [hall]
      intro r hr
      rw [List.mem_singleton] at hr
      subst hr
      refine ⟨by decide, by decide, by decide⟩
  · intro b hb
    have hdb : initFS.descBlocks =
        Blk.descBlock (.d [0, 7, 0, 0] :: List.replicate 31 (.d [-1, 0, 0, 0])) ::
        List.replicate 5 (Blk.descBlock (List.replicate 32 (.d [-1, 0, 0, 0]))) := by
      decide
    rw [hdb] at hb
    rcases List.mem_cons.mp hb with hb1 | hb2
    · subst hb1
      refine ⟨_, rfl, by decide, ?_⟩
      intro cc hcc
      rcases List.mem_cons.mp hcc with hc1 | hc2
      · subst hc1
        exact ⟨0, 7, 0, 0, rfl⟩
      · rw [List.eq_of_mem_replicate hc2]
        exact ⟨-1, 0, 0, 0, rfl⟩
    · rw [List.eq_of_mem_replicate hb2]
      refine ⟨_, rfl, by decide, ?_⟩
      intro cc hcc
      rw [List.eq_of_mem_replicate hcc]
      exact ⟨-1, 0, 0, 0, rfl⟩
  · have hall : allRefs initFS = [7] := by decide
    rw [hall]
    exact List.nodup_singleton 7

theorem reachable_invC1 (s : FS) (h : Reachable s) : InvC1 s := by
  induction h with
  | init => exact invC1_init
  | create s name _ ih => exact create_invC1 s name ih
  | destroy s name _ ih => exact destroy_invC1 s name ih
  | open_ s name _ ih => exact open_invC1 s name ih
  | close s i hs ih => exact close_invC1 s i ih (reachable_invC8 s hs)
  | read s i mem count _ ih => exact read_invC1 s i mem count ih
  | write s i mem count hs ih => exact write_invC1 s i mem count ih (reachable_invC8 s hs)
  | seek s i pos _ ih => exact seek_invC1 s i pos ih
  | list s _ ih => exact list_invC1 s ih

/-- C1 counterexample: in the freshly initialised state the bitmap has 8
one-bits but the non-free descriptors (descriptor 0 included, as the
claim counts it) already reference one block — block 7, the directory —
so `ones = 8 + refs` fails: 8 ≠ 8 + 1. -/
theorem C1_counterexample :
    ∃ bm, initFS.disk.get? 0 = some (.ints bm) ∧
      bm.count 1 = 8 ∧ (liveRefs initFS).length = 1 ∧
      bm.count 1 ≠ 8 + (liveRefs initFS).length :=
  ⟨List.replicate 8 1 ++ List.replicate 56 0, by decide, by decide, by decide, by decide⟩

/-- C1 (amended): counting descriptor 0 like any other non-free
descriptor, the correct baseline is 7 (bits 0-6, always set) and the
relation is an inequality: in every reachable state the number of 1
bits in the bitmap is at least 7 plus the number of non-zero block
references of non-free descriptors (write can orphan a replaced block
and destroy of the directory descriptor frees bit 7, so equality does
not hold in general). -/
theorem C1_amended_capacity_lower_bound (s : FS) (h : Reachable s) :
    ∃ bm, s.disk.get? 0 = some (.ints bm) ∧
      7 + (liveRefs s).length ≤ bm.count 1 :=
  invC1_bound s (reachable_invC1 s h)

/-- Closed instance of the amended C1 bound at the initial state. -/
theorem C1_amended_capacity_lower_bound_witness :
    ∃ bm, initFS.disk.get? 0 = some (.ints bm) ∧
      7 + (liveRefs initFS).length ≤ bm.count 1 :=
  C1_amended_capacity_lower_bound initFS Reachable.init
